import Mathlib

/-!
# Service / plan registry of the CockroachDB service broker (`plans.go`)

A shallow embedding of `plans.go`.  The package-level variable `Services` and
the local filesystem become an explicit `World` that every operation takes and
returns.  `log.Fatal` (a lager logger: it logs and then panics, so control never
comes back) ends the operation; the `Outcome` keeps the world as it was at that
moment, so what a fatal path leaves behind can be stated.

Pointers into `Services` (`&Services[i]`) are indices into the list.  What the
file calls but does not define is a parameter: `Env` for `generatePlanID`,
`dbURI`, the creation of temporary files and `sql.Open`; `Input` for `os.Getenv`
and `json.Unmarshal`.
-/

namespace Broker

/-! ## Data model -/

/-- Handle returned by `sql.Open(driverName, dataSourceName)`. -/
structure DB where
  driverName : String
  dataSourceName : String
deriving DecidableEq, Repr

/-- Go `Plan`: the embedded `brokerapi.ServicePlan` fields that `plans.go` reads
or writes (`ID`, `Name`, `Description`, `Metadata.DisplayName`) are promoted, as
in Go; then the exported fields and the four unexported ones. -/
structure Plan where
  ID : String := ""
  Name : String := ""
  Description : String := ""
  DisplayName : Option String := none
  ServiceID : String := ""
  CRDBHost : String := ""
  CRDBPort : String := ""
  CRDBAdminUser : String := ""
  SSLMode : String := ""
  SSLCert : String := ""
  SSLKey : String := ""
  SSLCACert : String := ""
  crdb : Option DB := none
  sslCertFile : String := ""
  sslKeyFile : String := ""
  sslCAFile : String := ""
deriving DecidableEq, Repr

/-- Go `Service`: `ID`, `Name`, `Description` of the embedded `brokerapi.Service`
and the `Plans` field that shadows the embedded one, as the list of the plans
the slice holds.  `ServiceS` below keeps the slice value itself. -/
structure Service where
  ID : String := ""
  Name : String := ""
  Description : String := ""
  Plans : List Plan := []
deriving DecidableEq, Repr

/-- One file of the filesystem: its path and its content. -/
abbrev File := String × String

/-- The process state: the global `Services` and the files on disk. -/
structure World where
  Services : List Service
  files : List File
deriving DecidableEq, Repr

/-- The error values built in `plans.go` (`errors.New`, `fmt.Errorf`), and the
errors handed back by `createTempFile` and `sql.Open`. -/
inductive Err where
  | serviceIdRequired
  | duplicateServiceName (name : String)
  | duplicateServiceId (id : String)
  | planServiceIdRequired
  | unknownServiceId (id : String)
  | unknownServiceIdInPlan (id : String)
  | unknownPlanId (id : String)
  | duplicatePlanName (name : String)
  | duplicatePlanId (id : String)
  | noHostPort (planName : String)
  | unknownSslMode (mode : String)
  | external (msg : String)
  | servicesNotSpecified
  | noServices
  | noPlans
deriving DecidableEq, Repr

/-- Result of a registration step: it returned, or it hit `log.Fatal(action, err)`
with the world as it stood at that point. -/
inductive Outcome where
  | ok (w : World)
  | fatal (action : String) (err : Err) (w : World)
deriving DecidableEq, Repr

/-- The world an outcome leaves behind. -/
def Outcome.world : Outcome → World
  | .ok w => w
  | .fatal _ _ w => w

/-- The fatal error of an outcome, `none` when the step returned. -/
def Outcome.failure : Outcome → Option (String × Err)
  | .ok _ => none
  | .fatal a e _ => some (a, e)

/-- Go `url.Values` (`map[string][]string`), keys in order of first insertion. -/
abbrev Values := List (String × List String)

/-- Go `url.Values.Add`: append `value` to the values stored under `key`. -/
def Values.Add : Values → String → String → Values
  | [], key, value => [(key, [value])]
  | (k, vs) :: rest, key, value =>
    if k = key then (k, vs ++ [value]) :: rest else (k, vs) :: Values.Add rest key value

/-- What `plans.go` calls but does not define: `generatePlanID` and `dbURI`
(other files of the package), the outcome of creating a temporary file (name
chosen, or error) and `sql.Open`. -/
structure Env where
  generatePlanID : String → String → String
  dbURI : String → String → String → String → String → Values → String
  tempFile : List File → String → String → Except String String
  sqlOpen : String → String → Option String

/-- Modelled from the spec: `createTempFile(prefix, contents)` is defined in
another file of the package.  It writes `contents` to a freshly created
temporary file and returns the path used, or an error.  The name (or the
failure) is the choice of `env.tempFile`; a file is freshly created, so a name
that is empty or already taken is an error and nothing is written. -/
def createTempFile (env : Env) (fs : List File) (pre contents : String) :
    Except String String × List File :=
  match env.tempFile fs pre contents with
  | .error e => (.error e, fs)
  | .ok path =>
    if path = "" then (.error "empty file name", fs)
    else if path ∈ fs.map Prod.fst then (.error "file exists", fs)
    else (.ok path, fs ++ [(path, contents)])

/-- Go `os.Remove(path)` with the error dropped: the file is gone afterwards. -/
def osRemove (fs : List File) (path : String) : List File :=
  fs.filter (fun f => decide (f.1 ≠ path))

/-! ## Lookups -/

/-- Go `findService`: index of (pointer to) the first service with that id,
together with the service it points to. -/
def findService : List Service → String → Except Err (Nat × Service)
  | [], serviceID => .error (.unknownServiceId serviceID)
  | s :: rest, serviceID =>
    if s.ID = serviceID then .ok (0, s)
    else
      match findService rest serviceID with
      | .ok (i, t) => .ok (i + 1, t)
      | .error e => .error e

/-- Loop of `findPlan` over `s.Plans`: index and value of the first plan with
that id. -/
def findPlan.scan : List Plan → String → Except Err (Nat × Plan)
  | [], planID => .error (.unknownPlanId planID)
  | p :: rest, planID =>
    if p.ID = planID then .ok (0, p)
    else
      match findPlan.scan rest planID with
      | .ok (i, q) => .ok (i + 1, q)
      | .error e => .error e

/-- Go `findPlan`. -/
def findPlan (services : List Service) (serviceID planID : String) :
    Except Err (Nat × Plan) :=
  match findService services serviceID with
  | .error e => .error e
  | .ok (_, s) => findPlan.scan s.Plans planID

/-! ## Registration -/

/-- Loop of `addService` over the registered services: the first fatal error hit. -/
def addService.scan (svc : Service) : List Service → Option Err
  | [] => none
  | s :: rest =>
    if s.Name = svc.Name then some (.duplicateServiceName svc.Name)
    else if s.ID = svc.ID then some (.duplicateServiceId svc.ID)
    else addService.scan svc rest

/-- Go `addService`. -/
def addService (w : World) (svc : Service) : Outcome :=
  if svc.ID = "" then .fatal "init" .serviceIdRequired w
  else
    match addService.scan svc w.Services with
    | some e => .fatal "init" e w
    | none => .ok { w with Services := w.Services ++ [svc] }

/-- Loop of `addPlan` over the plans of the owning service. -/
def addPlan.scan (p : Plan) : List Plan → Option Err
  | [] => none
  | pl :: rest =>
    if pl.Name = p.Name then some (.duplicatePlanName pl.Name)
    else if pl.ID = p.ID then some (.duplicatePlanId pl.ID)
    else addPlan.scan p rest

/-- End of `addPlan` (after the `switch`): open the connection and append the
plan to the service at index `i`.  The append is the one on lists: what
`s.Plans = append(s.Plans, p)` does to the plans of `s`, and to no other service,
as long as no other service points into the backing array of `s.Plans`.
`addPlanS.finish` below is the same step on slice values, sharing included. -/
def addPlan.finish (env : Env) (w : World) (i : Nat) (s : Service) (p : Plan)
    (options : Values) (fs : List File) : Outcome :=
  match env.sqlOpen "postgres"
      (env.dbURI p.CRDBHost p.CRDBPort p.CRDBAdminUser "" "" options) with
  | some e => .fatal "init-setup-db" (.external e) { w with files := fs }
  | none =>
    let p := { p with crdb := some ⟨"postgres",
      env.dbURI p.CRDBHost p.CRDBPort p.CRDBAdminUser "" "" options⟩ }
    .ok { Services := w.Services.set i { s with Plans := s.Plans ++ [p] }, files := fs }

/-- Body of `case "require":` of the `switch` in `addPlan`, which the
`"verify-ca", "verify-full"` case falls through to. -/
def addPlan.require (env : Env) (w : World) (i : Nat) (s : Service) (p : Plan)
    (options : Values) (fs : List File) : Outcome :=
  match createTempFile env fs "crdb-ssl-cert-" p.SSLCert with
  | (.error e, fs) => .fatal "init-cert-file" (.external e) { w with files := fs }
  | (.ok path, fs) =>
    let p := { p with sslCertFile := path }
    let options := options.Add "sslcert" p.sslCertFile
    match createTempFile env fs "crdb-ssl-key-" p.SSLKey with
    | (.error e, fs) => .fatal "init-key-file" (.external e) { w with files := fs }
    | (.ok path, fs) =>
      let p := { p with sslKeyFile := path }
      let options := options.Add "sslkey" p.sslKeyFile
      addPlan.finish env w i s p options fs

/-- The `switch p.SSLMode` statement of `addPlan` and what follows it: cases are
tried in the order written, `"verify-ca", "verify-full"` falls through to
`"require"`. -/
def addPlan.switch (env : Env) (w : World) (i : Nat) (s : Service) (p : Plan)
    (options : Values) : Outcome :=
  if p.SSLMode = "disable" then addPlan.finish env w i s p options w.files
  else if p.SSLMode = "verify-ca" ∨ p.SSLMode = "verify-full" then
    match createTempFile env w.files "crdb-ssl-ca-" p.SSLCACert with
    | (.error e, fs) => .fatal "init-ca-file" (.external e) { w with files := fs }
    | (.ok path, fs) =>
      let p := { p with sslCAFile := path }
      let options := options.Add "sslrootcert" p.sslCAFile
      addPlan.require env w i s p options fs
  else if p.SSLMode = "require" then addPlan.require env w i s p options w.files
  else .fatal "init" (.unknownSslMode p.SSLMode) w

/-- Go `addPlan`. -/
def addPlan (env : Env) (w : World) (p : Plan) : Outcome :=
  if p.ServiceID = "" then .fatal "init" .planServiceIdRequired w
  else
    match findService w.Services p.ServiceID with
    | .error _ => .fatal "init" (.unknownServiceIdInPlan p.ServiceID) w
    | .ok (i, s) =>
      let p := if p.ID = "" then { p with ID := env.generatePlanID s.Name p.Name } else p
      match addPlan.scan p s.Plans with
      | some e => .fatal "init" e w
      | none =>
        if p.CRDBHost = "" ∨ p.CRDBPort = "" then .fatal "init" (.noHostPort p.Name) w
        else
          let p := if p.CRDBAdminUser = "" then { p with CRDBAdminUser := "root" } else p
          addPlan.switch env w i s p (Values.Add [] "sslmode" p.SSLMode)

/-- The plan as `addPlan` holds it on reaching the `switch`, for the owning
service `s`: `p` after the derived id (lines 123-127) and the default admin user
(lines 141-143) are filled in. -/
def addPlan.resolved (env : Env) (s : Service) (p : Plan) : Plan :=
  let p := if p.ID = "" then { p with ID := env.generatePlanID s.Name p.Name } else p
  if p.CRDBAdminUser = "" then { p with CRDBAdminUser := "root" } else p

/-- Loop `for _, s := range services { addService(s) }` of
`InitServicesAndPlans`; the first fatal error ends it. -/
def addServices (w : World) : List Service → Outcome
  | [] => .ok w
  | s :: rest =>
    match addService w s with
    | .ok w1 => addServices w1 rest
    | .fatal a e w1 => .fatal a e w1

/-- Loop `for _, p := range plans { addPlan(p) }` of `InitServicesAndPlans`. -/
def addPlans (env : Env) (w : World) : List Plan → Outcome
  | [] => .ok w
  | p :: rest =>
    match addPlan env w p with
    | .ok w1 => addPlans env w1 rest
    | .fatal a e w1 => .fatal a e w1

/-! ## Teardown -/

/-- Innermost loop of `CleanupPlans`: remove each non-empty path. -/
def CleanupPlans.files (fs : List File) (paths : List String) : List File :=
  paths.foldl (fun fs file => if file ≠ "" then osRemove fs file else fs) fs

/-- Go `CleanupPlans`. -/
def CleanupPlans (w : World) : World :=
  { w with files :=
      w.Services.foldl (fun fs s =>
        s.Plans.foldl (fun fs p =>
          CleanupPlans.files fs [p.sslCAFile, p.sslCertFile, p.sslKeyFile]) fs) w.files }

/-! ## Startup -/

/-- Go `customPlanSpec`. -/
structure customPlanSpec where
  ID : String := ""
  Name : String := ""
  DisplayName : String := ""
  Description : String := ""
  ServiceID : String := ""
  DBHost : String := ""
  DBPort : Int := 0
  SSLMode : String := ""
  SSLCert : String := ""
  SSLKey : String := ""
  SSLCACert : String := ""
deriving DecidableEq, Repr

/-- Go `map[string]customPlanSpec`: its entries, keys pairwise distinct, in the
(unspecified) order in which `range` visits them. -/
abbrev PlanMap := List (String × customPlanSpec)

/-- Go map index `cp[k]`: the value stored under `k`, the zero value when there
is none. -/
def mapIndex : PlanMap → String → customPlanSpec
  | [], _ => {}
  | (k, v) :: rest, key => if k = key then v else mapIndex rest key

/-- Go `sort.Strings`: the strings in increasing order.  Go compares strings byte
by byte; on UTF-8 text that is the lexicographic order of the character lists. -/
def sortStrings (keys : List String) : List String :=
  keys.insertionSort (fun a b => a.toList ≤ b.toList)

/-- Go `strconv.Itoa`: decimal rendering of an integer. -/
def Itoa (i : Int) : String := toString i

/-- What startup reads from outside the package: the environment variables
(`os.Getenv`) and the result of `json.Unmarshal` on each of the three blobs. -/
structure Input where
  getenv : String → String
  unmarshalServices : String → Except String (List Service)
  unmarshalPlans : String → Except String (List Plan)
  unmarshalCustomPlans : String → Except String PlanMap

/-- A `Service` as `json.Unmarshal` leaves it: `Plans` carries the tag `json:"-"`
and stays empty. -/
def Service.decoded (s : Service) : Service := { s with Plans := [] }

/-- A `Plan` as `json.Unmarshal` leaves it: the unexported fields stay zero. -/
def Plan.decoded (p : Plan) : Plan :=
  { p with crdb := none, sslCertFile := "", sslKeyFile := "", sslCAFile := "" }

/-- The `Plan{...}` literal of `createCustomPlans` (lines 217-233). -/
def createCustomPlans.plan (p : customPlanSpec) : Plan :=
  { ID := p.ID
    Name := p.Name
    Description := p.Description
    DisplayName := some p.DisplayName
    ServiceID := p.ServiceID
    CRDBHost := p.DBHost
    CRDBPort := Itoa p.DBPort
    SSLMode := p.SSLMode
    SSLCert := p.SSLCert
    SSLKey := p.SSLKey
    SSLCACert := p.SSLCACert }

/-- Lines 207-235 of `createCustomPlans`: collect the keys, sort them, build one
plan per key. -/
def createCustomPlans.build (cp : PlanMap) : List Plan :=
  let keys := cp.map Prod.fst
  let keys := sortStrings keys
  keys.map (fun k => createCustomPlans.plan (mapIndex cp k))

/-- Go `createCustomPlans`. -/
def createCustomPlans (inp : Input) (customPlansJSON : String) : Except String (List Plan) :=
  if customPlansJSON = "" then .ok []
  else
    match inp.unmarshalCustomPlans customPlansJSON with
    | .error err => .error err
    | .ok cp => .ok (createCustomPlans.build cp)

/-- Go `InitServicesAndPlans`. -/
def InitServicesAndPlans (env : Env) (inp : Input) (w : World) : Outcome :=
  let servicesJSON := inp.getenv "SERVICES"
  if servicesJSON = "" then .fatal "init" .servicesNotSpecified w
  else
    match inp.unmarshalServices servicesJSON with
    | .error err => .fatal "init-unmarshal-services" (.external err) w
    | .ok services =>
      let services := services.map Service.decoded
      if services.length = 0 then .fatal "init" .noServices w
      else
        match addServices w services with
        | .fatal a e v => .fatal a e v
        | .ok w =>
          let planJSON := inp.getenv "PRECONFIGURED_PLANS"
          match (if planJSON ≠ "" then inp.unmarshalPlans planJSON else .ok []) with
          | .error err => .fatal "init-unmarshal-preconfigured-plans" (.external err) w
          | .ok plans =>
            let plans := plans.map Plan.decoded
            match createCustomPlans inp (inp.getenv "CUSTOM_PLANS") with
            | .error err => .fatal "init-custom-plans" (.external err) w
            | .ok customPlans =>
              let plans := plans ++ customPlans
              if plans.length = 0 then .fatal "init" .noPlans w
              else addPlans env w plans

/-- The paths `CleanupPlans` hands to `os.Remove`: the non-empty tracked paths of
every plan of every service, in the order of its three loops. -/
def trackedFiles (services : List Service) : List String :=
  services.flatMap (fun s => s.Plans.flatMap (fun p =>
    [p.sslCAFile, p.sslCertFile, p.sslKeyFile].filter (fun file => decide (file ≠ ""))))

/-! ## The registry with Go's slice values

`Service.Plans` above is the list of plans a service holds.  In Go the field is a
slice value: a pointer into a backing array, a length and a capacity, and
`append` writes into the backing array when there is spare capacity.  Two slice
values may share a backing array.  This section repeats the registration code on
slice values, so that what sharing does is visible. -/

/-- Go slice value of type `[]Plan`: the address of its backing array (`none` for
the nil slice), the offset of its first element in that array, its length and
its capacity. -/
structure Slice where
  arr : Option Nat := none
  off : Nat := 0
  len : Nat := 0
  cap : Nat := 0
deriving DecidableEq, Repr

/-- The backing arrays of the `Plans` slices, by address. -/
abbrev Heap := List (List Plan)

/-- Go `s[0], ..., s[len(s)-1]`: the elements a slice value denotes. -/
def Slice.elems (heap : Heap) (s : Slice) : List Plan :=
  match s.arr with
  | none => []
  | some a => ((heap.getD a []).drop s.off).take s.len

/-- Go `append(s, p)` when `s` has no spare capacity: a new backing array is
allocated, the elements are copied and `p` is added; `spare` is the spare
capacity the runtime gives the new array. -/
def Slice.grown (spare : Nat) (heap : Heap) (s : Slice) (p : Plan) : Slice × Heap :=
  ({ arr := some heap.length, off := 0, len := s.len + 1, cap := s.len + 1 + spare },
    heap ++ [s.elems heap ++ [p] ++ List.replicate spare ({} : Plan)])

/-- Go `append(s, p)`: with spare capacity `p` is written into the backing array
of `s`, right after its last element, and the result points into the same array;
otherwise the slice is grown. -/
def Slice.append (spare : Nat) (heap : Heap) (s : Slice) (p : Plan) : Slice × Heap :=
  match s.arr with
  | none => Slice.grown spare heap s p
  | some a =>
    if s.len < s.cap then
      ({ s with len := s.len + 1 }, heap.set a ((heap.getD a []).set (s.off + s.len) p))
    else Slice.grown spare heap s p

/-- Go `Service`, its `Plans` field a slice value. -/
structure ServiceS where
  ID : String := ""
  Name : String := ""
  Description : String := ""
  Plans : Slice := {}
deriving DecidableEq, Repr

/-- The process state with slice values: the global `Services`, the backing
arrays and the files on disk. -/
structure WorldS where
  Services : List ServiceS
  heap : Heap
  files : List File
deriving DecidableEq, Repr

/-- Result of a registration step on `WorldS`. -/
inductive OutcomeS where
  | ok (w : WorldS)
  | fatal (action : String) (err : Err) (w : WorldS)
deriving DecidableEq, Repr

/-- The world an outcome leaves behind. -/
def OutcomeS.world : OutcomeS → WorldS
  | .ok w => w
  | .fatal _ _ w => w

/-- Go `findService`, on slice values. -/
def findServiceS : List ServiceS → String → Except Err (Nat × ServiceS)
  | [], serviceID => .error (.unknownServiceId serviceID)
  | s :: rest, serviceID =>
    if s.ID = serviceID then .ok (0, s)
    else
      match findServiceS rest serviceID with
      | .ok (i, t) => .ok (i + 1, t)
      | .error e => .error e

/-- Loop of `addService`, on slice values. -/
def addServiceS.scan (svc : ServiceS) : List ServiceS → Option Err
  | [] => none
  | s :: rest =>
    if s.Name = svc.Name then some (.duplicateServiceName svc.Name)
    else if s.ID = svc.ID then some (.duplicateServiceId svc.ID)
    else addServiceS.scan svc rest

/-- Go `addService`, on slice values: `svc` is appended as it is, slice header
included. -/
def addServiceS (w : WorldS) (svc : ServiceS) : OutcomeS :=
  if svc.ID = "" then .fatal "init" .serviceIdRequired w
  else
    match addServiceS.scan svc w.Services with
    | some e => .fatal "init" e w
    | none => .ok { w with Services := w.Services ++ [svc] }

/-- End of `addPlan`, on slice values: `s.Plans = append(s.Plans, p)`.  `grow`
gives the spare capacity of a newly allocated array from the length copied. -/
def addPlanS.finish (grow : Nat → Nat) (env : Env) (w : WorldS) (i : Nat) (s : ServiceS)
    (p : Plan) (options : Values) (fs : List File) : OutcomeS :=
  match env.sqlOpen "postgres"
      (env.dbURI p.CRDBHost p.CRDBPort p.CRDBAdminUser "" "" options) with
  | some e => .fatal "init-setup-db" (.external e) { w with files := fs }
  | none =>
    let p := { p with crdb := some ⟨"postgres",
      env.dbURI p.CRDBHost p.CRDBPort p.CRDBAdminUser "" "" options⟩ }
    match Slice.append (grow s.Plans.len) w.heap s.Plans p with
    | (plans, heap) =>
      .ok { Services := w.Services.set i { s with Plans := plans }, heap := heap, files := fs }

/-- Body of `case "require":`, on slice values. -/
def addPlanS.require (grow : Nat → Nat) (env : Env) (w : WorldS) (i : Nat) (s : ServiceS)
    (p : Plan) (options : Values) (fs : List File) : OutcomeS :=
  match createTempFile env fs "crdb-ssl-cert-" p.SSLCert with
  | (.error e, fs) => .fatal "init-cert-file" (.external e) { w with files := fs }
  | (.ok path, fs) =>
    let p := { p with sslCertFile := path }
    let options := options.Add "sslcert" p.sslCertFile
    match createTempFile env fs "crdb-ssl-key-" p.SSLKey with
    | (.error e, fs) => .fatal "init-key-file" (.external e) { w with files := fs }
    | (.ok path, fs) =>
      let p := { p with sslKeyFile := path }
      let options := options.Add "sslkey" p.sslKeyFile
      addPlanS.finish grow env w i s p options fs

/-- The `switch p.SSLMode` statement of `addPlan`, on slice values. -/
def addPlanS.switch (grow : Nat → Nat) (env : Env) (w : WorldS) (i : Nat) (s : ServiceS)
    (p : Plan) (options : Values) : OutcomeS :=
  if p.SSLMode = "disable" then addPlanS.finish grow env w i s p options w.files
  else if p.SSLMode = "verify-ca" ∨ p.SSLMode = "verify-full" then
    match createTempFile env w.files "crdb-ssl-ca-" p.SSLCACert with
    | (.error e, fs) => .fatal "init-ca-file" (.external e) { w with files := fs }
    | (.ok path, fs) =>
      let p := { p with sslCAFile := path }
      let options := options.Add "sslrootcert" p.sslCAFile
      addPlanS.require grow env w i s p options fs
  else if p.SSLMode = "require" then addPlanS.require grow env w i s p options w.files
  else .fatal "init" (.unknownSslMode p.SSLMode) w

/-- Go `addPlan`, on slice values. -/
def addPlanS (grow : Nat → Nat) (env : Env) (w : WorldS) (p : Plan) : OutcomeS :=
  if p.ServiceID = "" then .fatal "init" .planServiceIdRequired w
  else
    match findServiceS w.Services p.ServiceID with
    | .error _ => .fatal "init" (.unknownServiceIdInPlan p.ServiceID) w
    | .ok (i, s) =>
      let p := if p.ID = "" then { p with ID := env.generatePlanID s.Name p.Name } else p
      match addPlan.scan p (s.Plans.elems w.heap) with
      | some e => .fatal "init" e w
      | none =>
        if p.CRDBHost = "" ∨ p.CRDBPort = "" then .fatal "init" (.noHostPort p.Name) w
        else
          let p := if p.CRDBAdminUser = "" then { p with CRDBAdminUser := "root" } else p
          addPlanS.switch grow env w i s p (Values.Add [] "sslmode" p.SSLMode)

/-- The service a `ServiceS` denotes: its plans are the elements of its slice. -/
def ServiceS.view (heap : Heap) (s : ServiceS) : Service :=
  { ID := s.ID, Name := s.Name, Description := s.Description, Plans := s.Plans.elems heap }

/-- The registry a `WorldS` denotes. -/
def WorldS.view (w : WorldS) : World :=
  ⟨w.Services.map (ServiceS.view w.heap), w.files⟩

/-- The outcome an `OutcomeS` denotes. -/
def OutcomeS.view : OutcomeS → Outcome
  | .ok w => .ok w.view
  | .fatal a e w => .fatal a e w.view

/-- A slice value is well formed over a heap: the nil slice has length 0; any
other has its length within its capacity and, when the capacity is not 0, points
at an allocated array that holds the whole capacity. -/
def Slice.WF (heap : Heap) (s : Slice) : Prop :=
  match s.arr with
  | none => s.len = 0
  | some a => s.len ≤ s.cap ∧
    (0 < s.cap → a < heap.length ∧ s.off + s.cap ≤ (heap.getD a []).length)

/-- A `Plans` slice that carries no plans: a well-formed slice of length 0.  It
may point into a backing array and have spare capacity. -/
def noPlansSlice (w : WorldS) (s : Slice) : Prop := s.len = 0 ∧ s.WF w.heap

/-- A `Plans` slice that carries no plans and shares no spare capacity: a
well-formed slice of length 0 that has capacity 0 (as the nil slice that
`json.Unmarshal` leaves in a field tagged `json:"-"`, or an empty slice literal), or
points into a backing array that no registered service with capacity points
into. -/
def unsharedSlice (w : WorldS) (s : Slice) : Prop :=
  s.len = 0 ∧ s.WF w.heap ∧
    ∀ a, s.arr = some a → 0 < s.cap →
      ∀ t ∈ w.Services, 0 < t.Plans.cap → t.Plans.arr ≠ some a

/-- States reached from the empty registry (over any backing arrays and files) by
successful `addService` calls, with services whose `Plans` slice is allowed by
`allowed` in the state of the call, and successful `addPlan` calls. -/
inductive ReachableS (allowed : WorldS → Slice → Prop) (grow : Nat → Nat) (env : Env) :
    WorldS → Prop where
  | empty (heap : Heap) (fs : List File) : ReachableS allowed grow env ⟨[], heap, fs⟩
  | service {w v : WorldS} (svc : ServiceS) : ReachableS allowed grow env w →
      allowed w svc.Plans → addServiceS w svc = .ok v → ReachableS allowed grow env v
  | plan {w v : WorldS} (p : Plan) : ReachableS allowed grow env w →
      addPlanS grow env w p = .ok v → ReachableS allowed grow env v

/-- Each `Plans` slice of the registry is well formed and no two services with
capacity point into the same backing array. -/
def WorldS.Owned (w : WorldS) : Prop :=
  (∀ s ∈ w.Services, s.Plans.WF w.heap) ∧
  (∀ (i j : Nat) (s t : ServiceS) (a : Nat), w.Services[i]? = some s →
    w.Services[j]? = some t → s.Plans.arr = some a → t.Plans.arr = some a →
    0 < s.Plans.cap → 0 < t.Plans.cap → i = j)

/-! ## Reachable registry states -/

/-- States reached from the empty registry (over any filesystem) by successful
`addService` calls, with services that carry no plans, and successful `addPlan`
calls, on lists.  `ReachableS` above is the same on slice values. -/
inductive Reachable (env : Env) : World → Prop where
  | empty (fs : List File) : Reachable env ⟨[], fs⟩
  | service {w v : World} (svc : Service) : Reachable env w → svc.Plans = [] →
      addService w svc = .ok v → Reachable env v
  | plan {w v : World} (p : Plan) : Reachable env w →
      addPlan env w p = .ok v → Reachable env v

/-! ## Concrete inputs used below -/

/-- Environment in which every file creation and every `sql.Open` succeeds: the
`n`-th file of the filesystem is named after the prefix and `n`. -/
def envOk : Env where
  generatePlanID := fun serviceName planName => serviceName ++ "/" ++ planName
  dbURI := fun host port user _ _ _ => "postgres://" ++ user ++ "@" ++ host ++ ":" ++ port
  tempFile := fun fs pre _ => .ok ("/tmp/" ++ pre ++ toString fs.length)
  sqlOpen := fun _ _ => none

/-- Service `crdb`, named `cockroachdb`. -/
def svcCrdb : Service := { ID := "crdb", Name := "cockroachdb" }

/-- Service `pg`, named `postgres`. -/
def svcPg : Service := { ID := "pg", Name := "postgres" }

/-- Plan `free` of service `crdb`, no SSL, no explicit id. -/
def planFree : Plan :=
  { Name := "free", ServiceID := "crdb", CRDBHost := "localhost", CRDBPort := "26257",
    SSLMode := "disable" }

/-- Plan of service `crdb` with the explicit id `shared`. -/
def planSharedCrdb : Plan :=
  { ID := "shared", Name := "small", ServiceID := "crdb", CRDBHost := "h1", CRDBPort := "26257",
    SSLMode := "disable" }

/-- Plan of service `pg` with the same explicit id `shared`. -/
def planSharedPg : Plan :=
  { ID := "shared", Name := "large", ServiceID := "pg", CRDBHost := "h2", CRDBPort := "5432",
    SSLMode := "disable" }

/-- Registry with the two services and no plan. -/
def worldTwoServices : World := ⟨[svcCrdb, svcPg], []⟩

/-- Registry after `planFree` is added to `crdb`. -/
def worldFree : World := (addPlan envOk ⟨[svcCrdb], []⟩ planFree).world

/-- Registry after `planSharedCrdb` is added. -/
def worldSharedOne : World := (addPlan envOk worldTwoServices planSharedCrdb).world

/-- Registry after `planSharedCrdb` and then `planSharedPg` are added. -/
def worldShared : World := (addPlan envOk worldSharedOne planSharedPg).world

/-- Plan of service `crdb` in mode `verify-full` with all three credentials. -/
def planVerifyFull : Plan :=
  { Name := "secure", ServiceID := "crdb", CRDBHost := "db.example", CRDBPort := "26257",
    SSLMode := "verify-full", SSLCert := "CERT", SSLKey := "KEY", SSLCACert := "CA" }

/-- Plan of service `crdb` in mode `require` with an empty client certificate. -/
def planRequireNoCert : Plan :=
  { Name := "tls", ServiceID := "crdb", CRDBHost := "db.example", CRDBPort := "26257",
    SSLMode := "require", SSLKey := "KEY" }

/-- Plan of service `crdb` in mode `verify-full` with no credential at all. -/
def planVerifyNoCreds : Plan :=
  { Name := "bare", ServiceID := "crdb", CRDBHost := "db.example", CRDBPort := "26257",
    SSLMode := "verify-full" }

/-- Environment in which writing the client certificate fails and every other
file creation succeeds. -/
def envCertFails : Env where
  generatePlanID := fun serviceName planName => serviceName ++ "/" ++ planName
  dbURI := fun host port user _ _ _ => "postgres://" ++ user ++ "@" ++ host ++ ":" ++ port
  tempFile := fun fs pre _ =>
    if pre = "crdb-ssl-cert-" then .error "no space left on device"
    else .ok ("/tmp/" ++ pre ++ toString fs.length)
  sqlOpen := fun _ _ => none

/-- Plan of service `crdb` in mode `verify-ca` with all three credentials. -/
def planVerifyCa : Plan :=
  { Name := "checked", ServiceID := "crdb", CRDBHost := "db.example", CRDBPort := "26257",
    SSLMode := "verify-ca", SSLCert := "CERT", SSLKey := "KEY", SSLCACert := "CA" }

/-- Custom plan `free` of service `crdb`, with no guid and no port. -/
def specFree : customPlanSpec :=
  { Name := "free", ServiceID := "crdb", DBHost := "localhost", SSLMode := "disable" }

/-- Custom plan `paid` of service `crdb`, with a guid and a port. -/
def specPaid : customPlanSpec :=
  { ID := "guid-paid", Name := "paid", ServiceID := "crdb", DBHost := "db.example",
    DBPort := 26257, SSLMode := "disable" }

/-- Startup input: one service, no preconfigured plans, and a custom-plan blob
that decodes to the map with `specPaid` under key `b` and `specFree` under `a`. -/
def inputCustom : Input where
  getenv := fun name =>
    if name = "SERVICES" then "services" else if name = "CUSTOM_PLANS" then "custom" else ""
  unmarshalServices := fun _ => .ok [svcCrdb]
  unmarshalPlans := fun _ => .ok []
  unmarshalCustomPlans := fun _ => .ok [("b", specPaid), ("a", specFree)]

/-- World after startup on `inputCustom` from the empty registry and an empty
filesystem. -/
def worldCustom : World := (InitServicesAndPlans envOk inputCustom ⟨[], []⟩).world

/-- Startup input: one service and two preconfigured plans that need credential
files (`verify-full` and `require`); no custom plans. -/
def inputSecure : Input where
  getenv := fun name =>
    if name = "SERVICES" then "services"
    else if name = "PRECONFIGURED_PLANS" then "plans" else ""
  unmarshalServices := fun _ => .ok [svcCrdb]
  unmarshalPlans := fun _ => .ok [planVerifyFull, planRequireNoCert]
  unmarshalCustomPlans := fun _ => .ok []

/-- World after startup on `inputSecure` over a filesystem holding one file. -/
def worldSecure : World :=
  (InitServicesAndPlans envOk inputSecure ⟨[], [("/etc/hosts", "localhost")]⟩).world

/-- A slice of length 0 and capacity 2 into the backing array at address 0, as
`make([]Plan, 0, 2)` gives. -/
def sliceShared : Slice := { arr := some 0, off := 0, len := 0, cap := 2 }

/-- Service `a`, its `Plans` the shared empty slice. -/
def svcSharedA : ServiceS := { ID := "a", Name := "A", Plans := sliceShared }

/-- Service `b`, its `Plans` the same shared empty slice. -/
def svcSharedB : ServiceS := { ID := "b", Name := "B", Plans := sliceShared }

/-- Plan `n1` with id `id1` for service `a`. -/
def planA1 : Plan :=
  { ID := "id1", Name := "n1", ServiceID := "a", CRDBHost := "h", CRDBPort := "1",
    SSLMode := "disable" }

/-- Plan `n2` with id `id2` for service `a`, with an admin user of its own. -/
def planA2 : Plan :=
  { ID := "id2", Name := "n2", ServiceID := "a", CRDBHost := "h", CRDBPort := "1",
    CRDBAdminUser := "admin", SSLMode := "disable" }

/-- Plan `n3` for service `a`, its id left to be derived. -/
def planA3 : Plan :=
  { Name := "n3", ServiceID := "a", CRDBHost := "h", CRDBPort := "1", SSLMode := "disable" }

/-- Plan `n2` with id `id2` for service `b`. -/
def planB2 : Plan :=
  { ID := "id2", Name := "n2", ServiceID := "b", CRDBHost := "h", CRDBPort := "1",
    SSLMode := "disable" }

/-- No spare capacity on allocation. -/
def growNone : Nat → Nat := fun _ => 0

/-- The two services registered over a heap holding the one array of two zero
plans they share. -/
def worldSharedS0 : WorldS := ⟨[svcSharedA, svcSharedB], [[({} : Plan), {}]], []⟩

/-- After `planA1` is added. -/
def worldSharedS1 : WorldS := (addPlanS growNone envOk worldSharedS0 planA1).world

/-- After `planA2` is added. -/
def worldSharedS2 : WorldS := (addPlanS growNone envOk worldSharedS1 planA2).world

/-- After `planB2` is added: the append for `b` wrote over the first plan of `a`. -/
def worldSharedS3 : WorldS := (addPlanS growNone envOk worldSharedS2 planB2).world

/-- Service `a` as decoded from JSON: its `Plans` is nil. -/
def svcNilA : ServiceS := { ID := "a", Name := "A" }

/-- A newly allocated array gets as much spare capacity as the length copied. -/
def growSame : Nat → Nat := fun n => n

/-- Service `a` with nil `Plans` and service `b` with a slice of capacity 2 that
only it points into. -/
def worldOwnedS0 : WorldS := ⟨[svcNilA, svcSharedB], [[({} : Plan), {}]], []⟩

/-- After `planA1` is added: a first array is allocated for `a`. -/
def worldOwnedS1 : WorldS := (addPlanS growSame envOk worldOwnedS0 planA1).world

/-- After `planA2` is added: the array of `a` is full, a larger one is allocated. -/
def worldOwnedS2 : WorldS := (addPlanS growSame envOk worldOwnedS1 planA2).world

/-- After `planA3` is added, in place. -/
def worldOwnedS3 : WorldS := (addPlanS growSame envOk worldOwnedS2 planA3).world

/-- After `planB2` is added to `b`, in place in its own array. -/
def worldOwnedS4 : WorldS := (addPlanS growSame envOk worldOwnedS3 planB2).world

/-! ## Lemmas on the service scan and lookup -/

theorem addService_scan_none_iff (svc : Service) (l : List Service) :
    addService.scan svc l = none ↔ ∀ s ∈ l, ¬ (s.Name = svc.Name ∨ s.ID = svc.ID) := by
  induction l with
  | nil => simp [addService.scan]
  | cons t rest ih =>
    simp only [addService.scan, List.mem_cons, forall_eq_or_imp]
    by_cases h1 : t.Name = svc.Name
    · simp [h1]
    · by_cases h2 : t.ID = svc.ID
      · simp [h1, h2]
      · simp [h1, h2, ih]

theorem findService_of_mem (l : List Service) (s : Service)
    (hids : (l.map (fun t => t.ID)).Nodup) (hs : s ∈ l) :
    ∃ i, findService l s.ID = .ok (i, s) ∧ l[i]? = some s := by
  induction l with
  | nil => simp at hs
  | cons t rest ih =>
    rw [List.map_cons, List.nodup_cons] at hids
    rcases List.mem_cons.mp hs with rfl | hmem
    · exact ⟨0, by simp [findService], by simp⟩
    · have hne : t.ID ≠ s.ID := by
        intro h
        exact hids.1 (List.mem_map.mpr ⟨s, hmem, h.symm⟩)
      obtain ⟨i, hi, hget⟩ := ih hids.2 hmem
      exact ⟨i + 1, by simp [findService, hne, hi], by simpa using hget⟩

theorem addServices_append (fs : List File) (l acc : List Service)
    (hid : ∀ s ∈ l, s.ID ≠ "")
    (hids : ((acc ++ l).map (fun t => t.ID)).Nodup)
    (hnames : ((acc ++ l).map (fun t => t.Name)).Nodup) :
    addServices ⟨acc, fs⟩ l = .ok ⟨acc ++ l, fs⟩ := by
  induction l generalizing acc with
  | nil => simp [addServices]
  | cons s rest ih =>
    have hscan : addService.scan s acc = none := by
      rw [addService_scan_none_iff]
      intro t ht hor
      rw [List.map_append, List.nodup_append] at hids hnames
      rcases hor with h | h
      · exact hnames.2.2 (List.mem_map.mpr ⟨t, ht, h⟩) (by simp)
      · exact hids.2.2 (List.mem_map.mpr ⟨t, ht, h⟩) (by simp)
    have hs : s.ID ≠ "" := hid s (by simp)
    have hstep : addService ⟨acc, fs⟩ s = .ok ⟨acc ++ [s], fs⟩ := by
      simp [addService, hs, hscan]
    simp only [addServices, hstep]
    have := ih (acc ++ [s]) (fun t ht => hid t (by simp [ht])) (by simpa using hids)
      (by simpa using hnames)
    simpa using this

theorem createTempFile_ok {env : Env} {fs fs1 : List File} {pre c path : String}
    (h : createTempFile env fs pre c = (.ok path, fs1)) :
    fs1 = fs ++ [(path, c)] ∧ path ≠ "" ∧ path ∉ fs.map Prod.fst ∧
      env.tempFile fs pre c = .ok path := by
  unfold createTempFile at h
  split at h
  · cases h
  · rename_i p hp
    split at h
    · cases h
    · split at h
      · cases h
      · rename_i h1 h2
        simp only [Prod.mk.injEq, Except.ok.injEq] at h
        obtain ⟨rfl, rfl⟩ := h
        exact ⟨rfl, h1, h2, hp⟩

theorem createTempFile_error {env : Env} {fs fs1 : List File} {pre c e : String}
    (h : createTempFile env fs pre c = (.error e, fs1)) : fs1 = fs := by
  unfold createTempFile at h
  split at h
  · simp only [Prod.mk.injEq] at h; exact h.2.symm
  · split at h
    · simp only [Prod.mk.injEq] at h; exact h.2.symm
    · split at h
      · simp only [Prod.mk.injEq] at h; exact h.2.symm
      · cases h

theorem addPlan_finish_ok {env : Env} {w w1 : World} {i : Nat} {s : Service} {p : Plan}
    {options : Values} {fs : List File}
    (h : addPlan.finish env w i s p options fs = .ok w1) :
    env.sqlOpen "postgres" (env.dbURI p.CRDBHost p.CRDBPort p.CRDBAdminUser "" "" options)
        = none ∧
      w1 = ⟨w.Services.set i { s with Plans := s.Plans ++ [{ p with crdb := some ⟨"postgres",
        env.dbURI p.CRDBHost p.CRDBPort p.CRDBAdminUser "" "" options⟩ }] }, fs⟩ := by
  unfold addPlan.finish at h
  split at h
  · cases h
  · rename_i hopen
    simp only [Outcome.ok.injEq] at h
    exact ⟨hopen, h.symm⟩

theorem addPlan_require_ok {env : Env} {w w1 : World} {i : Nat} {s : Service} {p : Plan}
    {options : Values} {fs : List File}
    (h : addPlan.require env w i s p options fs = .ok w1) :
    ∃ cert key,
      createTempFile env fs "crdb-ssl-cert-" p.SSLCert = (.ok cert, fs ++ [(cert, p.SSLCert)]) ∧
      createTempFile env (fs ++ [(cert, p.SSLCert)]) "crdb-ssl-key-" p.SSLKey =
        (.ok key, fs ++ [(cert, p.SSLCert), (key, p.SSLKey)]) ∧
      w1 = ⟨w.Services.set i { s with Plans := s.Plans ++
        [{ p with sslCertFile := cert, sslKeyFile := key, crdb := some ⟨"postgres",
          env.dbURI p.CRDBHost p.CRDBPort p.CRDBAdminUser "" ""
            ((options.Add "sslcert" cert).Add "sslkey" key)⟩ }] },
        fs ++ [(cert, p.SSLCert), (key, p.SSLKey)]⟩ := by
  unfold addPlan.require at h
  split at h
  · cases h
  · rename_i cert fs1 hc
    obtain ⟨rfl, -, -, -⟩ := createTempFile_ok hc
    simp only at h
    split at h
    · cases h
    · rename_i key fs2 hk
      obtain ⟨rfl, -, -, -⟩ := createTempFile_ok hk
      obtain ⟨-, rfl⟩ := addPlan_finish_ok h
      refine ⟨cert, key, hc, ?_, ?_⟩
      · simpa using hk
      · simp

theorem addPlan_scan_congr (p q : Plan) (hn : p.Name = q.Name) (hi : p.ID = q.ID)
    (l : List Plan) : addPlan.scan p l = addPlan.scan q l := by
  induction l with
  | nil => rfl
  | cons pl rest ih => simp only [addPlan.scan, hn, hi, ih]

/-- The function `addPlan` once the owning service is found, in terms of the resolved plan. -/
theorem addPlan_of_find {env : Env} {w : World} {p : Plan} {i : Nat} {s : Service}
    (hsid : p.ServiceID ≠ "") (hfind : findService w.Services p.ServiceID = .ok (i, s)) :
    addPlan env w p =
      match addPlan.scan (addPlan.resolved env s p) s.Plans with
      | some e => .fatal "init" e w
      | none =>
        if p.CRDBHost = "" ∨ p.CRDBPort = "" then .fatal "init" (.noHostPort p.Name) w
        else addPlan.switch env w i s (addPlan.resolved env s p)
          [("sslmode", [p.SSLMode])] := by
  unfold addPlan
  rw [if_neg hsid, hfind]
  by_cases h1 : p.ID = "" <;> by_cases h2 : p.CRDBAdminUser = "" <;>
    simp only [addPlan.resolved, h1, h2, if_true, if_false, Values.Add] <;>
    first
    | rfl
    | (congr 1; apply addPlan_scan_congr <;> rfl)

theorem addPlan_resolved_fields (env : Env) (s : Service) (p : Plan) :
    (addPlan.resolved env s p).Name = p.Name ∧
    (addPlan.resolved env s p).ID = (if p.ID = "" then env.generatePlanID s.Name p.Name else p.ID) ∧
    (addPlan.resolved env s p).CRDBAdminUser =
      (if p.CRDBAdminUser = "" then "root" else p.CRDBAdminUser) ∧
    (addPlan.resolved env s p).ServiceID = p.ServiceID ∧
    (addPlan.resolved env s p).CRDBHost = p.CRDBHost ∧
    (addPlan.resolved env s p).CRDBPort = p.CRDBPort ∧
    (addPlan.resolved env s p).SSLMode = p.SSLMode ∧
    (addPlan.resolved env s p).SSLCert = p.SSLCert ∧
    (addPlan.resolved env s p).SSLKey = p.SSLKey ∧
    (addPlan.resolved env s p).SSLCACert = p.SSLCACert ∧
    (addPlan.resolved env s p).sslCAFile = p.sslCAFile ∧
    (addPlan.resolved env s p).sslCertFile = p.sslCertFile ∧
    (addPlan.resolved env s p).sslKeyFile = p.sslKeyFile := by
  by_cases h1 : p.ID = "" <;> by_cases h2 : p.CRDBAdminUser = "" <;>
    simp [addPlan.resolved, h1, h2]

/-- What a successful `switch` did, by SSL mode. -/
theorem addPlan_switch_ok {env : Env} {w w1 : World} {i : Nat} {s : Service} {p : Plan}
    {m : String} (h : addPlan.switch env w i s p [("sslmode", [m])] = .ok w1) :
    (p.SSLMode = "disable" ∧
        w1 = ⟨w.Services.set i { s with Plans := s.Plans ++ [{ p with crdb := some ⟨"postgres",
          env.dbURI p.CRDBHost p.CRDBPort p.CRDBAdminUser "" "" [("sslmode", [m])]⟩ }] },
          w.files⟩) ∨
      (p.SSLMode = "require" ∧ ∃ cert key,
        createTempFile env w.files "crdb-ssl-cert-" p.SSLCert =
          (.ok cert, w.files ++ [(cert, p.SSLCert)]) ∧
        createTempFile env (w.files ++ [(cert, p.SSLCert)]) "crdb-ssl-key-" p.SSLKey =
          (.ok key, w.files ++ [(cert, p.SSLCert), (key, p.SSLKey)]) ∧
        w1 = ⟨w.Services.set i { s with Plans := s.Plans ++
          [{ p with sslCertFile := cert, sslKeyFile := key, crdb := some ⟨"postgres",
            env.dbURI p.CRDBHost p.CRDBPort p.CRDBAdminUser "" ""
              [("sslmode", [m]), ("sslcert", [cert]), ("sslkey", [key])]⟩ }] },
          w.files ++ [(cert, p.SSLCert), (key, p.SSLKey)]⟩) ∨
      ((p.SSLMode = "verify-ca" ∨ p.SSLMode = "verify-full") ∧ ∃ ca cert key,
        createTempFile env w.files "crdb-ssl-ca-" p.SSLCACert =
          (.ok ca, w.files ++ [(ca, p.SSLCACert)]) ∧
        createTempFile env (w.files ++ [(ca, p.SSLCACert)]) "crdb-ssl-cert-" p.SSLCert =
          (.ok cert, w.files ++ [(ca, p.SSLCACert), (cert, p.SSLCert)]) ∧
        createTempFile env (w.files ++ [(ca, p.SSLCACert), (cert, p.SSLCert)])
            "crdb-ssl-key-" p.SSLKey =
          (.ok key, w.files ++ [(ca, p.SSLCACert), (cert, p.SSLCert), (key, p.SSLKey)]) ∧
        w1 = ⟨w.Services.set i { s with Plans := s.Plans ++
          [{ p with sslCAFile := ca, sslCertFile := cert, sslKeyFile := key, crdb := some ⟨"postgres",
            env.dbURI p.CRDBHost p.CRDBPort p.CRDBAdminUser "" ""
              [("sslmode", [m]), ("sslrootcert", [ca]), ("sslcert", [cert]),
                ("sslkey", [key])]⟩ }] },
          w.files ++ [(ca, p.SSLCACert), (cert, p.SSLCert), (key, p.SSLKey)]⟩) := by
  unfold addPlan.switch at h
  split at h
  · rename_i hm
    obtain ⟨-, rfl⟩ := addPlan_finish_ok h
    exact Or.inl ⟨hm, rfl⟩
  · split at h
    · rename_i hm
      split at h
      · cases h
      · rename_i ca fs1 hca
        obtain ⟨rfl, -, -, -⟩ := createTempFile_ok hca
        obtain ⟨cert, key, hc, hk, rfl⟩ := addPlan_require_ok h
        refine Or.inr (Or.inr ⟨hm, ca, cert, key, hca, ?_, ?_, ?_⟩)
        · simpa using hc
        · simpa using hk
        · simp [Values.Add]
    · split at h
      · rename_i hm
        obtain ⟨cert, key, hc, hk, rfl⟩ := addPlan_require_ok h
        refine Or.inr (Or.inl ⟨hm, cert, key, hc, hk, ?_⟩)
        simp [Values.Add]
      · cases h

theorem findService_ok {l : List Service} {id : String} {i : Nat} {s : Service}
    (h : findService l id = .ok (i, s)) : l[i]? = some s ∧ s.ID = id := by
  induction l generalizing i with
  | nil => simp [findService] at h
  | cons t rest ih =>
    unfold findService at h
    split at h
    · rename_i ht
      simp only [Except.ok.injEq, Prod.mk.injEq] at h
      obtain ⟨rfl, rfl⟩ := h
      exact ⟨by simp, ht⟩
    · split at h
      · rename_i j u hj
        simp only [Except.ok.injEq, Prod.mk.injEq] at h
        obtain ⟨rfl, rfl⟩ := h
        have := ih hj
        exact ⟨by simpa using this.1, this.2⟩
      · cases h

theorem findService_error_iff (l : List Service) (id : String) :
    (∃ e, findService l id = .error e) ↔ ∀ s ∈ l, s.ID ≠ id := by
  induction l with
  | nil => simp [findService]
  | cons t rest ih =>
    by_cases ht : t.ID = id
    · simp [findService, ht]
    · simp only [findService, ht, if_false, List.mem_cons, forall_eq_or_imp, ne_eq,
        not_false_eq_true, true_and]
      rw [← ih]
      cases hrest : findService rest id with
      | error e => simp
      | ok r => simp

/-- A successful `addPlan` found the owning service, passed the duplicate and
host/port checks and ran the `switch` on the resolved plan. -/
theorem addPlan_ok_inv {env : Env} {w w1 : World} {p : Plan}
    (h : addPlan env w p = .ok w1) :
    ∃ i s, p.ServiceID ≠ "" ∧ findService w.Services p.ServiceID = .ok (i, s) ∧
      addPlan.scan (addPlan.resolved env s p) s.Plans = none ∧
      p.CRDBHost ≠ "" ∧ p.CRDBPort ≠ "" ∧
      addPlan.switch env w i s (addPlan.resolved env s p) [("sslmode", [p.SSLMode])] = .ok w1 := by
  have hsid : p.ServiceID ≠ "" := by
    intro hs
    simp [addPlan, hs] at h
  cases hfind : findService w.Services p.ServiceID with
  | error e => simp [addPlan, hsid, hfind] at h
  | ok r =>
    obtain ⟨i, s⟩ := r
    rw [addPlan_of_find hsid hfind] at h
    refine ⟨i, s, hsid, rfl, ?_⟩
    split at h
    · cases h
    · rename_i hscan
      split at h
      · cases h
      · rename_i hhp
        rw [not_or] at hhp
        exact ⟨hscan, hhp.1, hhp.2, h⟩

theorem addPlan_scan_none_iff (p : Plan) (l : List Plan) :
    addPlan.scan p l = none ↔ ∀ pl ∈ l, ¬ (pl.Name = p.Name ∨ pl.ID = p.ID) := by
  induction l with
  | nil => simp [addPlan.scan]
  | cons t rest ih =>
    simp only [addPlan.scan, List.mem_cons, forall_eq_or_imp]
    by_cases h1 : t.Name = p.Name
    · simp [h1]
    · by_cases h2 : t.ID = p.ID
      · simp [h1, h2]
      · simp [h1, h2, ih]

/-- The registry after a successful `addPlan`: the owning service, found by
`findService`, got one plan appended; the plan has the name of the input and the
explicit or derived id, and passed the duplicate scan. -/
theorem addPlan_ok_stored {env : Env} {w w1 : World} {p : Plan}
    (h : addPlan env w p = .ok w1) :
    ∃ i s q, findService w.Services p.ServiceID = .ok (i, s) ∧
      w1.Services = w.Services.set i { s with Plans := s.Plans ++ [q] } ∧
      q.Name = p.Name ∧
      q.ID = (if p.ID = "" then env.generatePlanID s.Name p.Name else p.ID) ∧
      q.ServiceID = p.ServiceID ∧
      addPlan.scan q s.Plans = none := by
  obtain ⟨i, s, -, hfind, hscan, -, -, hsw⟩ := addPlan_ok_inv h
  obtain ⟨hn, hi, -, hs, -⟩ := addPlan_resolved_fields env s p
  rcases addPlan_switch_ok hsw with ⟨-, rfl⟩ | ⟨-, cert, key, -, -, rfl⟩ |
      ⟨-, ca, cert, key, -, -, -, rfl⟩
  all_goals
    refine ⟨i, s, _, hfind, rfl, hn, hi, hs, ?_⟩
    rw [← hscan]
    apply addPlan_scan_congr <;> rfl

theorem map_set_of_eq {α β : Type} (f : α → β) (l : List α) (i : Nat) (a b : α)
    (hget : l[i]? = some a) (hf : f b = f a) : (l.set i b).map f = l.map f := by
  induction l generalizing i with
  | nil => simp
  | cons t rest ih =>
    cases i with
    | zero =>
      simp only [List.getElem?_cons_zero, Option.some.injEq] at hget
      subst hget
      simp [hf]
    | succ j =>
      simp only [List.getElem?_cons_succ] at hget
      simp [ih j hget]

theorem addService_ok_inv {w w1 : World} {svc : Service} (h : addService w svc = .ok w1) :
    svc.ID ≠ "" ∧ addService.scan svc w.Services = none ∧
      w1 = { w with Services := w.Services ++ [svc] } := by
  unfold addService at h
  split at h
  · cases h
  · rename_i hid
    split at h
    · cases h
    · rename_i hscan
      simp only [Outcome.ok.injEq] at h
      exact ⟨hid, hscan, h.symm⟩

/-- The uniqueness invariant of the registry. -/
theorem reachable_unique {env : Env} {w : World} (h : Reachable env w) :
    (∀ s ∈ w.Services, s.ID ≠ "") ∧
      (w.Services.map (fun s => s.ID)).Nodup ∧
      (w.Services.map (fun s => s.Name)).Nodup ∧
      ∀ s ∈ w.Services,
        (s.Plans.map (fun p => p.Name)).Nodup ∧ (s.Plans.map (fun p => p.ID)).Nodup := by
  induction h with
  | empty fs => simp
  | @service w w1 svc _ hplans hadd ih =>
    obtain ⟨hid, hscan, rfl⟩ := addService_ok_inv hadd
    rw [addService_scan_none_iff] at hscan
    obtain ⟨h1, h2, h3, h4⟩ := ih
    refine ⟨?_, ?_, ?_, ?_⟩
    · intro s hs
      rcases List.mem_append.mp hs with hs | hs
      · exact h1 s hs
      · simp only [List.mem_singleton] at hs; subst hs; exact hid
    · rw [List.map_append, List.nodup_append]
      refine ⟨h2, by simp, ?_⟩
      intro a ha hb
      simp only [List.map_cons, List.map_nil, List.mem_singleton] at hb
      obtain ⟨s, hs, rfl⟩ := List.mem_map.mp ha
      exact hscan s hs (Or.inr hb)
    · rw [List.map_append, List.nodup_append]
      refine ⟨h3, by simp, ?_⟩
      intro a ha hb
      simp only [List.map_cons, List.map_nil, List.mem_singleton] at hb
      obtain ⟨s, hs, rfl⟩ := List.mem_map.mp ha
      exact hscan s hs (Or.inl hb)
    · intro s hs
      rcases List.mem_append.mp hs with hs | hs
      · exact h4 s hs
      · simp only [List.mem_singleton] at hs; subst hs; simp [hplans]
  | @plan w w1 p _ hadd ih =>
    obtain ⟨i, s, q, hfind, hw1, -, -, -, hscan⟩ := addPlan_ok_stored hadd
    obtain ⟨hget, -⟩ := findService_ok hfind
    have hmem : s ∈ w.Services := List.getElem?_mem hget
    rw [addPlan_scan_none_iff] at hscan
    obtain ⟨h1, h2, h3, h4⟩ := ih
    have hin : ∀ t ∈ w1.Services, t ∈ w.Services ∨ t = { s with Plans := s.Plans ++ [q] } := by
      intro t ht
      rw [hw1] at ht
      exact List.mem_or_eq_of_mem_set ht
    refine ⟨?_, ?_, ?_, ?_⟩
    · intro t ht
      rcases hin t ht with ht | rfl
      · exact h1 t ht
      · exact h1 s hmem
    · rw [hw1, map_set_of_eq (fun t : Service => t.ID) _ _ s { s with Plans := s.Plans ++ [q] } hget rfl]
      exact h2
    · rw [hw1, map_set_of_eq (fun t : Service => t.Name) _ _ s { s with Plans := s.Plans ++ [q] } hget rfl]
      exact h3
    · intro t ht
      rcases hin t ht with ht | rfl
      · exact h4 t ht
      · obtain ⟨hn, hi⟩ := h4 s hmem
        constructor
        · simp only [List.map_append, List.map_cons, List.map_nil]
          rw [List.nodup_append]
          refine ⟨hn, by simp, ?_⟩
          intro a ha hb
          simp only [List.mem_singleton] at hb
          obtain ⟨pl, hpl, rfl⟩ := List.mem_map.mp ha
          exact hscan pl hpl (Or.inl hb)
        · simp only [List.map_append, List.map_cons, List.map_nil]
          rw [List.nodup_append]
          refine ⟨hi, by simp, ?_⟩
          intro a ha hb
          simp only [List.mem_singleton] at hb
          obtain ⟨pl, hpl, rfl⟩ := List.mem_map.mp ha
          exact hscan pl hpl (Or.inr hb)

theorem reachable_worldFree : Reachable envOk worldFree :=
  .plan planFree (.service svcCrdb (.empty []) rfl rfl) (by decide)

theorem reachable_worldShared : Reachable envOk worldShared :=
  .plan planSharedPg
    (.plan planSharedCrdb
      (.service svcPg (.service svcCrdb (.empty []) rfl (v := ⟨[svcCrdb], []⟩) (by decide)) rfl
        (v := worldTwoServices) (by decide))
      (v := worldSharedOne) (by decide))
    (by decide)

theorem nodup_map_index_ne {α β : Type} (f : α → β) (l : List α) (hnd : (l.map f).Nodup)
    {a b : Nat} {x y : α} (ha : l[a]? = some x) (hb : l[b]? = some y) (hab : a ≠ b) :
    f x ≠ f y := by
  induction l generalizing a b with
  | nil => simp at ha
  | cons t rest ih =>
    rw [List.map_cons, List.nodup_cons] at hnd
    cases a with
    | zero =>
      cases b with
      | zero => exact absurd rfl hab
      | succ j =>
        simp only [List.getElem?_cons_zero, Option.some.injEq] at ha
        simp only [List.getElem?_cons_succ] at hb
        subst ha
        intro hxy
        exact hnd.1 (List.mem_map.mpr ⟨y, List.getElem?_mem hb, hxy.symm⟩)
    | succ k =>
      cases b with
      | zero =>
        simp only [List.getElem?_cons_zero, Option.some.injEq] at hb
        simp only [List.getElem?_cons_succ] at ha
        subst hb
        intro hxy
        exact hnd.1 (List.mem_map.mpr ⟨x, List.getElem?_mem ha, hxy⟩)
      | succ j =>
        simp only [List.getElem?_cons_succ] at ha hb
        exact ih hnd.2 ha hb (fun h => hab (by rw [h]))

theorem addPlan_finish_fatal {env : Env} {w v : World} {i : Nat} {s : Service} {p : Plan}
    {options : Values} {fs : List File} {a : String} {e : Err}
    (h : addPlan.finish env w i s p options fs = .fatal a e v) :
    a = "init-setup-db" ∧ v = ⟨w.Services, fs⟩ ∧ ∃ msg, e = .external msg ∧
      env.sqlOpen "postgres" (env.dbURI p.CRDBHost p.CRDBPort p.CRDBAdminUser "" "" options)
        = some msg := by
  unfold addPlan.finish at h
  split at h
  · rename_i msg hopen
    simp only [Outcome.fatal.injEq] at h
    obtain ⟨rfl, rfl, rfl⟩ := h
    exact ⟨rfl, rfl, msg, rfl, hopen⟩
  · cases h

/-- How the `"require"` case can end fatally: on the certificate file, on the key
file (the certificate file is then on disk), or on `sql.Open` (both are). -/
theorem addPlan_require_fatal {env : Env} {w v : World} {i : Nat} {s : Service} {p : Plan}
    {options : Values} {fs : List File} {a : String} {e : Err}
    (h : addPlan.require env w i s p options fs = .fatal a e v) :
    (a = "init-cert-file" ∧ v = ⟨w.Services, fs⟩ ∧ ∃ msg, e = .external msg ∧
        createTempFile env fs "crdb-ssl-cert-" p.SSLCert = (.error msg, fs)) ∨
      (a = "init-key-file" ∧ ∃ cert msg, e = .external msg ∧
        createTempFile env fs "crdb-ssl-cert-" p.SSLCert = (.ok cert, fs ++ [(cert, p.SSLCert)]) ∧
        createTempFile env (fs ++ [(cert, p.SSLCert)]) "crdb-ssl-key-" p.SSLKey =
          (.error msg, fs ++ [(cert, p.SSLCert)]) ∧
        v = ⟨w.Services, fs ++ [(cert, p.SSLCert)]⟩) ∨
      (a = "init-setup-db" ∧ ∃ cert key,
        createTempFile env fs "crdb-ssl-cert-" p.SSLCert = (.ok cert, fs ++ [(cert, p.SSLCert)]) ∧
        createTempFile env (fs ++ [(cert, p.SSLCert)]) "crdb-ssl-key-" p.SSLKey =
          (.ok key, fs ++ [(cert, p.SSLCert), (key, p.SSLKey)]) ∧
        v = ⟨w.Services, fs ++ [(cert, p.SSLCert), (key, p.SSLKey)]⟩) := by
  unfold addPlan.require at h
  split at h
  · rename_i msg fs1 hc
    obtain rfl := createTempFile_error hc
    simp only [Outcome.fatal.injEq] at h
    obtain ⟨rfl, rfl, rfl⟩ := h
    exact Or.inl ⟨rfl, rfl, msg, rfl, hc⟩
  · rename_i cert fs1 hc
    obtain ⟨rfl, -, -, -⟩ := createTempFile_ok hc
    simp only at h
    split at h
    · rename_i msg fs2 hk
      obtain rfl := createTempFile_error hk
      simp only [Outcome.fatal.injEq] at h
      obtain ⟨rfl, rfl, rfl⟩ := h
      exact Or.inr (Or.inl ⟨rfl, cert, msg, rfl, hc, hk, rfl⟩)
    · rename_i key fs2 hk
      obtain ⟨rfl, -, -, -⟩ := createTempFile_ok hk
      obtain ⟨rfl, rfl, -⟩ := addPlan_finish_fatal h
      refine Or.inr (Or.inr ⟨rfl, cert, key, hc, ?_, ?_⟩)
      · simpa using hk
      · simp

/-- How the `switch` can end fatally, by SSL mode. -/
theorem addPlan_switch_fatal {env : Env} {w v : World} {i : Nat} {s : Service} {p : Plan}
    {options : Values} {a : String} {e : Err}
    (h : addPlan.switch env w i s p options = .fatal a e v) :
    (p.SSLMode = "disable" ∧ a = "init-setup-db" ∧ v = w) ∨
      ((p.SSLMode = "verify-ca" ∨ p.SSLMode = "verify-full") ∧ a = "init-ca-file" ∧ v = w ∧
        ∃ msg, e = .external msg ∧
          createTempFile env w.files "crdb-ssl-ca-" p.SSLCACert = (.error msg, w.files)) ∨
      ((p.SSLMode = "verify-ca" ∨ p.SSLMode = "verify-full") ∧ ∃ ca,
        createTempFile env w.files "crdb-ssl-ca-" p.SSLCACert =
          (.ok ca, w.files ++ [(ca, p.SSLCACert)]) ∧
        addPlan.require env w i s { p with sslCAFile := ca } (options.Add "sslrootcert" ca)
          (w.files ++ [(ca, p.SSLCACert)]) = .fatal a e v) ∨
      (p.SSLMode = "require" ∧ addPlan.require env w i s p options w.files = .fatal a e v) ∨
      (p.SSLMode ≠ "disable" ∧ p.SSLMode ≠ "require" ∧ p.SSLMode ≠ "verify-ca" ∧
        p.SSLMode ≠ "verify-full" ∧ a = "init" ∧ e = .unknownSslMode p.SSLMode ∧ v = w) := by
  unfold addPlan.switch at h
  split at h
  · rename_i hm
    obtain ⟨rfl, rfl, -⟩ := addPlan_finish_fatal h
    exact Or.inl ⟨hm, rfl, rfl⟩
  · rename_i hd
    split at h
    · rename_i hm
      split at h
      · rename_i msg fs1 hca
        obtain rfl := createTempFile_error hca
        simp only [Outcome.fatal.injEq] at h
        obtain ⟨rfl, rfl, rfl⟩ := h
        exact Or.inr (Or.inl ⟨hm, rfl, rfl, msg, rfl, hca⟩)
      · rename_i ca fs1 hca
        obtain ⟨rfl, -, -, -⟩ := createTempFile_ok hca
        exact Or.inr (Or.inr (Or.inl ⟨hm, ca, hca, h⟩))
    · rename_i hv
      rw [not_or] at hv
      split at h
      · rename_i hm
        exact Or.inr (Or.inr (Or.inr (Or.inl ⟨hm, h⟩)))
      · rename_i hr
        simp only [Outcome.fatal.injEq] at h
        obtain ⟨rfl, rfl, rfl⟩ := h
        exact Or.inr (Or.inr (Or.inr (Or.inr ⟨hd, hr, hv.1, hv.2, rfl, rfl, rfl⟩)))

theorem addPlan_scan_some {p : Plan} {l : List Plan} {e : Err}
    (h : addPlan.scan p l = some e) :
    (∃ n, e = .duplicatePlanName n) ∨ (∃ n, e = .duplicatePlanId n) := by
  induction l with
  | nil => simp [addPlan.scan] at h
  | cons t rest ih =>
    unfold addPlan.scan at h
    split at h
    · simp only [Option.some.injEq] at h; exact Or.inl ⟨_, h.symm⟩
    · split at h
      · simp only [Option.some.injEq] at h; exact Or.inr ⟨_, h.symm⟩
      · exact ih h

/-- A fatal `addPlan` either stopped in validation (action `init`, world
untouched) or found the owning service, passed validation and failed in the
`switch` run on the resolved plan. -/
theorem addPlan_fatal_inv {env : Env} {w v : World} {p : Plan} {a : String} {e : Err}
    (h : addPlan env w p = .fatal a e v) :
    (a = "init" ∧ v = w ∧ (e = .planServiceIdRequired ∨ e = .unknownServiceIdInPlan p.ServiceID ∨
        (∃ n, e = .duplicatePlanName n) ∨ (∃ n, e = .duplicatePlanId n) ∨
        e = .noHostPort p.Name)) ∨
      ∃ i s, p.ServiceID ≠ "" ∧ findService w.Services p.ServiceID = .ok (i, s) ∧
        addPlan.scan (addPlan.resolved env s p) s.Plans = none ∧
        p.CRDBHost ≠ "" ∧ p.CRDBPort ≠ "" ∧
        addPlan.switch env w i s (addPlan.resolved env s p) [("sslmode", [p.SSLMode])] =
          .fatal a e v := by
  by_cases hsid : p.ServiceID = ""
  · simp only [addPlan, hsid, if_true, Outcome.fatal.injEq] at h
    obtain ⟨rfl, rfl, rfl⟩ := h
    exact Or.inl ⟨rfl, rfl, Or.inl rfl⟩
  · cases hfind : findService w.Services p.ServiceID with
    | error err =>
      simp only [addPlan, hsid, hfind, if_false, Outcome.fatal.injEq] at h
      obtain ⟨rfl, rfl, rfl⟩ := h
      exact Or.inl ⟨rfl, rfl, Or.inr (Or.inl rfl)⟩
    | ok r =>
      obtain ⟨i, s⟩ := r
      rw [addPlan_of_find hsid hfind] at h
      split at h
      · rename_i err hscan
        simp only [Outcome.fatal.injEq] at h
        obtain ⟨rfl, rfl, rfl⟩ := h
        refine Or.inl ⟨rfl, rfl, Or.inr (Or.inr ?_)⟩
        rcases addPlan_scan_some hscan with hn | hn
        · exact Or.inl hn
        · exact Or.inr (Or.inl hn)
      · rename_i hscan
        split at h
        · simp only [Outcome.fatal.injEq] at h
          obtain ⟨rfl, rfl, rfl⟩ := h
          exact Or.inl ⟨rfl, rfl, Or.inr (Or.inr (Or.inr (Or.inr rfl)))⟩
        · rename_i hhp
          rw [not_or] at hhp
          exact Or.inr ⟨i, s, hsid, rfl, hscan, hhp.1, hhp.2, h⟩

/-- Files on disk after a `switch` in which no file creation failed (it returned,
or failed only at `sql.Open`), by SSL mode. -/
theorem addPlan_switch_written {env : Env} {w : World} {i : Nat} {s : Service} {p : Plan}
    {m : String} {o : Outcome}
    (h : addPlan.switch env w i s p [("sslmode", [m])] = o)
    (hok : o.failure = none ∨ ∃ e, o.failure = some ("init-setup-db", e)) :
    (p.SSLMode = "disable" ∧ o.world.files = w.files) ∨
      (p.SSLMode = "require" ∧ ∃ cert key,
        createTempFile env w.files "crdb-ssl-cert-" p.SSLCert =
          (.ok cert, w.files ++ [(cert, p.SSLCert)]) ∧
        createTempFile env (w.files ++ [(cert, p.SSLCert)]) "crdb-ssl-key-" p.SSLKey =
          (.ok key, w.files ++ [(cert, p.SSLCert), (key, p.SSLKey)]) ∧
        o.world.files = w.files ++ [(cert, p.SSLCert), (key, p.SSLKey)]) ∨
      ((p.SSLMode = "verify-ca" ∨ p.SSLMode = "verify-full") ∧ ∃ ca cert key,
        createTempFile env w.files "crdb-ssl-ca-" p.SSLCACert =
          (.ok ca, w.files ++ [(ca, p.SSLCACert)]) ∧
        createTempFile env (w.files ++ [(ca, p.SSLCACert)]) "crdb-ssl-cert-" p.SSLCert =
          (.ok cert, w.files ++ [(ca, p.SSLCACert), (cert, p.SSLCert)]) ∧
        createTempFile env (w.files ++ [(ca, p.SSLCACert), (cert, p.SSLCert)])
            "crdb-ssl-key-" p.SSLKey =
          (.ok key, w.files ++ [(ca, p.SSLCACert), (cert, p.SSLCert), (key, p.SSLKey)]) ∧
        o.world.files = w.files ++ [(ca, p.SSLCACert), (cert, p.SSLCert), (key, p.SSLKey)]) := by
  cases o with
  | ok v =>
    rcases addPlan_switch_ok h with ⟨hm, rfl⟩ | ⟨hm, cert, key, hc, hk, rfl⟩ |
        ⟨hm, ca, cert, key, hca, hc, hk, rfl⟩
    · exact Or.inl ⟨hm, rfl⟩
    · exact Or.inr (Or.inl ⟨hm, cert, key, hc, hk, rfl⟩)
    · exact Or.inr (Or.inr ⟨hm, ca, cert, key, hca, hc, hk, rfl⟩)
  | fatal a e v =>
    have ha : a = "init-setup-db" := by
      rcases hok with hok | ⟨e1, hok⟩
      · simp [Outcome.failure] at hok
      · simp only [Outcome.failure, Option.some.injEq, Prod.mk.injEq] at hok
        exact hok.1
    subst ha
    rcases addPlan_switch_fatal h with ⟨hm, -, rfl⟩ | ⟨-, hbad, -⟩ | ⟨hm, ca, hca, hreq⟩ |
        ⟨hm, hreq⟩ | ⟨-, -, -, -, hbad, -⟩
    · exact Or.inl ⟨hm, rfl⟩
    · exact absurd hbad (by decide)
    · rcases addPlan_require_fatal hreq with ⟨hbad, -⟩ | ⟨hbad, -⟩ | ⟨-, cert, key, hc, hk, rfl⟩
      · exact absurd hbad (by decide)
      · exact absurd hbad (by decide)
      · refine Or.inr (Or.inr ⟨hm, ca, cert, key, hca, ?_, ?_, ?_⟩)
        · simpa using hc
        · simpa using hk
        · simp [Outcome.world]
    · rcases addPlan_require_fatal hreq with ⟨hbad, -⟩ | ⟨hbad, -⟩ | ⟨-, cert, key, hc, hk, rfl⟩
      · exact absurd hbad (by decide)
      · exact absurd hbad (by decide)
      · exact Or.inr (Or.inl ⟨hm, cert, key, hc, hk, rfl⟩)
    · exact absurd hbad (by decide)

/-- A plan that passes validation goes to the `switch`, as the resolved plan. -/
theorem addPlan_valid {env : Env} {w : World} {p : Plan} {i : Nat} {s : Service}
    (hsid : p.ServiceID ≠ "") (hfind : findService w.Services p.ServiceID = .ok (i, s))
    (hdup : ∀ pl ∈ s.Plans, pl.Name ≠ p.Name ∧
      pl.ID ≠ (if p.ID = "" then env.generatePlanID s.Name p.Name else p.ID))
    (hhost : p.CRDBHost ≠ "") (hport : p.CRDBPort ≠ "") :
    addPlan env w p =
      addPlan.switch env w i s (addPlan.resolved env s p) [("sslmode", [p.SSLMode])] := by
  obtain ⟨hn, hi, -⟩ := addPlan_resolved_fields env s p
  have hscan : addPlan.scan (addPlan.resolved env s p) s.Plans = none := by
    rw [addPlan_scan_none_iff]
    intro pl hpl hor
    rw [hn, hi] at hor
    rcases hor with h | h
    · exact (hdup pl hpl).1 h
    · exact (hdup pl hpl).2 h
  rw [addPlan_of_find hsid hfind, hscan]
  simp [hhost, hport]

/-- Two file creations with the same prefix, over filesystems holding the same
paths, end alike when the environment does not look at contents. -/
theorem createTempFile_congr {env : Env}
    (henv : ∀ fs fs2 pre c c2, fs.map Prod.fst = fs2.map Prod.fst →
      env.tempFile fs pre c = env.tempFile fs2 pre c2)
    {fs fs2 : List File} (hfs : fs.map Prod.fst = fs2.map Prod.fst) (pre c c2 : String) :
    (∃ msg, createTempFile env fs pre c = (.error msg, fs) ∧
        createTempFile env fs2 pre c2 = (.error msg, fs2)) ∨
      (∃ path, createTempFile env fs pre c = (.ok path, fs ++ [(path, c)]) ∧
        createTempFile env fs2 pre c2 = (.ok path, fs2 ++ [(path, c2)])) := by
  unfold createTempFile
  rw [← henv fs fs2 pre c c2 hfs, ← hfs]
  cases env.tempFile fs pre c with
  | error msg => exact Or.inl ⟨msg, rfl, rfl⟩
  | ok path =>
    by_cases h1 : path = ""
    · exact Or.inl ⟨"empty file name", by simp [h1], by simp [h1]⟩
    · by_cases h2 : path ∈ fs.map Prod.fst
      · exact Or.inl ⟨"file exists", by simp only [h1, h2, if_true, if_false],
          by simp only [h1, h2, if_true, if_false]⟩
      · exact Or.inr ⟨path, by simp only [h1, h2, if_false], by simp only [h1, h2, if_false]⟩

theorem addPlan_finish_failure_congr (env : Env) (w : World) (i : Nat) (s : Service)
    (p p2 : Plan) (options : Values) (fs fs2 : List File)
    (hh : p2.CRDBHost = p.CRDBHost) (hp : p2.CRDBPort = p.CRDBPort)
    (hu : p2.CRDBAdminUser = p.CRDBAdminUser) :
    (addPlan.finish env w i s p2 options fs2).failure =
      (addPlan.finish env w i s p options fs).failure := by
  unfold addPlan.finish
  rw [hh, hp, hu]
  cases env.sqlOpen "postgres" (env.dbURI p.CRDBHost p.CRDBPort p.CRDBAdminUser "" "" options)
    <;> rfl

theorem addPlan_require_failure_congr {env : Env}
    (henv : ∀ fs fs2 pre c c2, fs.map Prod.fst = fs2.map Prod.fst →
      env.tempFile fs pre c = env.tempFile fs2 pre c2)
    (w : World) (i : Nat) (s : Service) (p p2 : Plan) (options : Values) (fs fs2 : List File)
    (hfs : fs.map Prod.fst = fs2.map Prod.fst)
    (hh : p2.CRDBHost = p.CRDBHost) (hp : p2.CRDBPort = p.CRDBPort)
    (hu : p2.CRDBAdminUser = p.CRDBAdminUser) :
    (addPlan.require env w i s p2 options fs2).failure =
      (addPlan.require env w i s p options fs).failure := by
  unfold addPlan.require
  rcases createTempFile_congr henv hfs "crdb-ssl-cert-" p.SSLCert p2.SSLCert with
    ⟨msg, h1, h2⟩ | ⟨cert, h1, h2⟩
  · rw [h1, h2]; rfl
  · rw [h1, h2]
    have hfs1 : (fs ++ [(cert, p.SSLCert)]).map Prod.fst =
        (fs2 ++ [(cert, p2.SSLCert)]).map Prod.fst := by simp [hfs]
    rcases createTempFile_congr henv hfs1 "crdb-ssl-key-" p.SSLKey p2.SSLKey with
      ⟨msg, h3, h4⟩ | ⟨key, h3, h4⟩
    · simp only [h3, h4]; rfl
    · simp only [h3, h4]
      exact addPlan_finish_failure_congr env w i s _ _ _ _ _ hh hp hu

theorem addPlan_switch_failure_congr {env : Env}
    (henv : ∀ fs fs2 pre c c2, fs.map Prod.fst = fs2.map Prod.fst →
      env.tempFile fs pre c = env.tempFile fs2 pre c2)
    (w : World) (i : Nat) (s : Service) (p p2 : Plan) (options : Values)
    (hm : p2.SSLMode = p.SSLMode)
    (hh : p2.CRDBHost = p.CRDBHost) (hp : p2.CRDBPort = p.CRDBPort)
    (hu : p2.CRDBAdminUser = p.CRDBAdminUser) :
    (addPlan.switch env w i s p2 options).failure =
      (addPlan.switch env w i s p options).failure := by
  unfold addPlan.switch
  rw [hm]
  split
  · exact addPlan_finish_failure_congr env w i s _ _ _ _ _ hh hp hu
  · split
    · rcases createTempFile_congr henv (rfl : w.files.map Prod.fst = w.files.map Prod.fst)
        "crdb-ssl-ca-" p.SSLCACert p2.SSLCACert with ⟨msg, h1, h2⟩ | ⟨ca, h1, h2⟩
      · rw [h1, h2]
      · rw [h1, h2]
        exact addPlan_require_failure_congr henv w i s _ _ _ _ _ (by simp) hh hp hu
    · split
      · exact addPlan_require_failure_congr henv w i s _ _ _ _ _ rfl hh hp hu
      · rfl

theorem findService_first {l : List Service} {id : String} {i : Nat} {s : Service}
    (h : findService l id = .ok (i, s)) :
    ∀ k, k < i → ∀ t, l[k]? = some t → t.ID ≠ id := by
  induction l generalizing i with
  | nil => simp [findService] at h
  | cons u rest ih =>
    unfold findService at h
    split at h
    · simp only [Except.ok.injEq, Prod.mk.injEq] at h
      obtain ⟨rfl, -⟩ := h
      intro k hk
      exact absurd hk (Nat.not_lt_zero k)
    · rename_i hu
      split at h
      · rename_i j r hj
        simp only [Except.ok.injEq, Prod.mk.injEq] at h
        obtain ⟨rfl, rfl⟩ := h
        intro k hk t ht
        cases k with
        | zero =>
          simp only [List.getElem?_cons_zero, Option.some.injEq] at ht
          subst ht
          exact hu
        | succ m =>
          simp only [List.getElem?_cons_succ] at ht
          exact ih hj m (Nat.lt_of_succ_lt_succ hk) t ht
      · cases h

theorem findPlan_scan_ok {l : List Plan} {id : String} {j : Nat} {q : Plan}
    (h : findPlan.scan l id = .ok (j, q)) :
    l[j]? = some q ∧ q.ID = id ∧ ∀ k, k < j → ∀ r, l[k]? = some r → r.ID ≠ id := by
  induction l generalizing j with
  | nil => simp [findPlan.scan] at h
  | cons u rest ih =>
    unfold findPlan.scan at h
    split at h
    · rename_i hu
      simp only [Except.ok.injEq, Prod.mk.injEq] at h
      obtain ⟨rfl, rfl⟩ := h
      exact ⟨by simp, hu, fun k hk => absurd hk (Nat.not_lt_zero k)⟩
    · rename_i hu
      split at h
      · rename_i m r hm
        simp only [Except.ok.injEq, Prod.mk.injEq] at h
        obtain ⟨rfl, rfl⟩ := h
        obtain ⟨h1, h2, h3⟩ := ih hm
        refine ⟨by simpa using h1, h2, ?_⟩
        intro k hk t ht
        cases k with
        | zero =>
          simp only [List.getElem?_cons_zero, Option.some.injEq] at ht
          subst ht
          exact hu
        | succ n =>
          simp only [List.getElem?_cons_succ] at ht
          exact h3 n (Nat.lt_of_succ_lt_succ hk) t ht
      · cases h

theorem findPlan_scan_error_iff (l : List Plan) (id : String) :
    (∃ e, findPlan.scan l id = .error e) ↔ ∀ p ∈ l, p.ID ≠ id := by
  induction l with
  | nil => simp [findPlan.scan]
  | cons t rest ih =>
    by_cases ht : t.ID = id
    · simp [findPlan.scan, ht]
    · simp only [findPlan.scan, ht, if_false, List.mem_cons, forall_eq_or_imp, ne_eq,
        not_false_eq_true, true_and]
      rw [← ih]
      cases hrest : findPlan.scan rest id with
      | error e => simp
      | ok r => simp

theorem fatal_not_finished (a : String) (e : Err) (v : World) (ha : a ≠ "init-setup-db") :
    ¬ ((Outcome.fatal a e v).failure = none ∨
      ∃ e2, (Outcome.fatal a e v).failure = some ("init-setup-db", e2)) := by
  intro h
  rcases h with h | ⟨e2, h⟩
  · simp [Outcome.failure] at h
  · simp only [Outcome.failure, Option.some.injEq, Prod.mk.injEq] at h
    exact ha h.1

theorem addPlan_require_reaches_finish {env : Env} {w : World} {i : Nat} {s : Service}
    {p : Plan} {options : Values} {fs : List File}
    (hok : (addPlan.require env w i s p options fs).failure = none ∨
      ∃ e, (addPlan.require env w i s p options fs).failure = some ("init-setup-db", e)) :
    ∃ cert key, addPlan.require env w i s p options fs =
      addPlan.finish env w i s { p with sslCertFile := cert, sslKeyFile := key }
        ((options.Add "sslcert" cert).Add "sslkey" key)
        (fs ++ [(cert, p.SSLCert), (key, p.SSLKey)]) := by
  unfold addPlan.require at hok ⊢
  rcases hc : createTempFile env fs "crdb-ssl-cert-" p.SSLCert with ⟨r, fs1⟩
  cases r with
  | error msg =>
    rw [hc] at hok
    exact absurd hok (fatal_not_finished _ _ _ (by decide))
  | ok cert =>
    obtain ⟨rfl, -, -, -⟩ := createTempFile_ok hc
    rw [hc] at hok
    simp only at hok ⊢
    rcases hk : createTempFile env (fs ++ [(cert, p.SSLCert)]) "crdb-ssl-key-" p.SSLKey with
      ⟨r2, fs2⟩
    cases r2 with
    | error msg =>
      rw [hk] at hok
      exact absurd hok (fatal_not_finished _ _ _ (by decide))
    | ok key =>
      obtain ⟨rfl, -, -, -⟩ := createTempFile_ok hk
      exact ⟨cert, key, by simp⟩

/-- A `switch` in which no file creation failed reaches the end of `addPlan`
(`sql.Open` and the append) with the options and tracked paths of its mode. -/
theorem addPlan_switch_reaches_finish {env : Env} {w : World} {i : Nat} {s : Service}
    {p : Plan} {m : String}
    (hok : (addPlan.switch env w i s p [("sslmode", [m])]).failure = none ∨
      ∃ e, (addPlan.switch env w i s p [("sslmode", [m])]).failure =
        some ("init-setup-db", e)) :
    (p.SSLMode = "disable" ∧
        addPlan.switch env w i s p [("sslmode", [m])] =
          addPlan.finish env w i s p [("sslmode", [m])] w.files) ∨
      (p.SSLMode = "require" ∧ ∃ cert key,
        addPlan.switch env w i s p [("sslmode", [m])] =
          addPlan.finish env w i s { p with sslCertFile := cert, sslKeyFile := key }
            [("sslmode", [m]), ("sslcert", [cert]), ("sslkey", [key])]
            (w.files ++ [(cert, p.SSLCert), (key, p.SSLKey)])) ∨
      ((p.SSLMode = "verify-ca" ∨ p.SSLMode = "verify-full") ∧ ∃ ca cert key,
        addPlan.switch env w i s p [("sslmode", [m])] =
          addPlan.finish env w i s
            { p with sslCAFile := ca, sslCertFile := cert, sslKeyFile := key }
            [("sslmode", [m]), ("sslrootcert", [ca]), ("sslcert", [cert]), ("sslkey", [key])]
            (w.files ++ [(ca, p.SSLCACert), (cert, p.SSLCert), (key, p.SSLKey)])) := by
  by_cases hd : p.SSLMode = "disable"
  · exact Or.inl ⟨hd, by simp [addPlan.switch, hd]⟩
  · by_cases hv : p.SSLMode = "verify-ca" ∨ p.SSLMode = "verify-full"
    · have hsw : addPlan.switch env w i s p [("sslmode", [m])] =
          match createTempFile env w.files "crdb-ssl-ca-" p.SSLCACert with
          | (.error e, fs) => .fatal "init-ca-file" (.external e) { w with files := fs }
          | (.ok path, fs) =>
            addPlan.require env w i s { p with sslCAFile := path }
              (Values.Add [("sslmode", [m])] "sslrootcert" path) fs := by
        simp only [addPlan.switch, hd, hv, if_true, if_false]
      rw [hsw] at hok ⊢
      rcases hca : createTempFile env w.files "crdb-ssl-ca-" p.SSLCACert with ⟨r, fs1⟩
      cases r with
      | error msg =>
        rw [hca] at hok
        exact absurd hok (fatal_not_finished _ _ _ (by decide))
      | ok ca =>
        obtain ⟨rfl, -, -, -⟩ := createTempFile_ok hca
        rw [hca] at hok
        simp only at hok ⊢
        obtain ⟨cert, key, hrun⟩ := addPlan_require_reaches_finish hok
        refine Or.inr (Or.inr ⟨hv, ca, cert, key, ?_⟩)
        rw [hrun]
        simp [Values.Add]
    · by_cases hr : p.SSLMode = "require"
      · have hsw : addPlan.switch env w i s p [("sslmode", [m])] =
            addPlan.require env w i s p [("sslmode", [m])] w.files := by
          simp [addPlan.switch, hr]
        rw [hsw] at hok ⊢
        obtain ⟨cert, key, hrun⟩ := addPlan_require_reaches_finish hok
        refine Or.inr (Or.inl ⟨hr, cert, key, ?_⟩)
        rw [hrun]
        simp [Values.Add]
      · have hsw : addPlan.switch env w i s p [("sslmode", [m])] =
            .fatal "init" (.unknownSslMode p.SSLMode) w := by
          simp only [addPlan.switch, hd, hv, hr, if_false]
        rw [hsw] at hok
        exact absurd hok (fatal_not_finished _ _ _ (by decide))

/-- An `addPlan` that returned, or failed only at `sql.Open`, found the owning
service, passed validation and is the `switch` run on the resolved plan. -/
theorem addPlan_reaches_switch {env : Env} {w : World} {p : Plan}
    (hok : (addPlan env w p).failure = none ∨
      ∃ e, (addPlan env w p).failure = some ("init-setup-db", e)) :
    ∃ i s, findService w.Services p.ServiceID = .ok (i, s) ∧
      addPlan env w p =
        addPlan.switch env w i s (addPlan.resolved env s p) [("sslmode", [p.SSLMode])] := by
  cases hO : addPlan env w p with
  | ok v =>
    obtain ⟨i, s, -, hfind, -, -, -, h⟩ := addPlan_ok_inv hO
    exact ⟨i, s, hfind, h.symm⟩
  | fatal a e v =>
    rcases addPlan_fatal_inv hO with ⟨ha, -⟩ | ⟨i, s, -, hfind, -, -, -, h⟩
    · rw [hO] at hok
      subst ha
      exact absurd hok (fatal_not_finished _ _ _ (by decide))
    · exact ⟨i, s, hfind, h.symm⟩

/-- Fields of the plan stored by a successful `addPlan`. -/
theorem addPlan_ok_fields {env : Env} {w v : World} {p : Plan}
    (h : addPlan env w p = .ok v) :
    ∃ i s q, findService w.Services p.ServiceID = .ok (i, s) ∧
      v.Services = w.Services.set i { s with Plans := s.Plans ++ [q] } ∧
      q.Name = p.Name ∧ q.ServiceID = p.ServiceID ∧
      q.CRDBHost = p.CRDBHost ∧ q.CRDBPort = p.CRDBPort ∧
      p.CRDBHost ≠ "" ∧ p.CRDBPort ≠ "" ∧
      q.CRDBAdminUser = (if p.CRDBAdminUser = "" then "root" else p.CRDBAdminUser) ∧
      q.SSLMode = p.SSLMode ∧
      (p.SSLMode = "disable" ∨ p.SSLMode = "require" ∨ p.SSLMode = "verify-ca" ∨
        p.SSLMode = "verify-full") := by
  obtain ⟨i, s, -, hfind, -, hhost, hport, hsw⟩ := addPlan_ok_inv h
  obtain ⟨hn, -, hu, hs, hh, hp, hm, -⟩ := addPlan_resolved_fields env s p
  rcases addPlan_switch_ok hsw with ⟨hmode, rfl⟩ | ⟨hmode, cert, key, -, -, rfl⟩ |
      ⟨hmode, ca, cert, key, -, -, -, rfl⟩
  · exact ⟨i, s, _, hfind, rfl, hn, hs, hh, hp, hhost, hport, hu, hm,
      Or.inl (hm ▸ hmode)⟩
  · exact ⟨i, s, _, hfind, rfl, hn, hs, hh, hp, hhost, hport, hu, hm,
      Or.inr (Or.inl (hm ▸ hmode))⟩
  · refine ⟨i, s, _, hfind, rfl, hn, hs, hh, hp, hhost, hport, hu, hm, Or.inr (Or.inr ?_)⟩
    rw [hm] at hmode
    exact hmode

/-- The well-formedness invariant of stored plans. -/
theorem reachable_wellformed {env : Env} {w : World} (h : Reachable env w) :
    ∀ s ∈ w.Services, ∀ q ∈ s.Plans,
      q.ServiceID = s.ID ∧ q.CRDBHost ≠ "" ∧ q.CRDBPort ≠ "" ∧ q.CRDBAdminUser ≠ "" ∧
      (q.SSLMode = "disable" ∨ q.SSLMode = "require" ∨ q.SSLMode = "verify-ca" ∨
        q.SSLMode = "verify-full") := by
  induction h with
  | empty fs => simp
  | @service w v svc _ hplans hadd ih =>
    obtain ⟨-, -, rfl⟩ := addService_ok_inv hadd
    intro s hs q hq
    rcases List.mem_append.mp hs with hs | hs
    · exact ih s hs q hq
    · simp only [List.mem_singleton] at hs
      subst hs
      rw [hplans] at hq
      simp at hq
  | @plan w v p _ hadd ih =>
    obtain ⟨i, s, r, hfind, hv, -, hsid, hh, hp, hhost, hport, hu, hm, hmode⟩ :=
      addPlan_ok_fields hadd
    obtain ⟨hget, hid⟩ := findService_ok hfind
    have hmem : s ∈ w.Services := List.getElem?_mem hget
    intro t ht q hq
    rw [hv] at ht
    rcases List.mem_or_eq_of_mem_set ht with ht | rfl
    · exact ih t ht q hq
    · rcases List.mem_append.mp hq with hq | hq
      · exact ih s hmem q hq
      · simp only [List.mem_singleton] at hq
        subst hq
        refine ⟨hsid.trans hid.symm, hh ▸ hhost, hp ▸ hport, ?_, hm ▸ hmode⟩
        rw [hu]
        split
        · decide
        · assumption

theorem addPlan_require_fatal_external {env : Env} {w v : World} {i : Nat} {s : Service}
    {p : Plan} {options : Values} {fs : List File} {a : String} {e : Err}
    (h : addPlan.require env w i s p options fs = .fatal a e v) :
    ∃ msg, e = .external msg ∧
      (a = "init-cert-file" ∨ a = "init-key-file" ∨ a = "init-setup-db") := by
  unfold addPlan.require at h
  split at h
  · simp only [Outcome.fatal.injEq] at h
    obtain ⟨rfl, rfl, -⟩ := h
    exact ⟨_, rfl, Or.inl rfl⟩
  · simp only at h
    split at h
    · simp only [Outcome.fatal.injEq] at h
      obtain ⟨rfl, rfl, -⟩ := h
      exact ⟨_, rfl, Or.inr (Or.inl rfl)⟩
    · obtain ⟨rfl, -, msg, rfl, -⟩ := addPlan_finish_fatal h
      exact ⟨msg, rfl, Or.inr (Or.inr rfl)⟩

/-- A fatal `switch` either met an unknown mode, before any file was written, or
reports an error handed back by `createTempFile` or `sql.Open`. -/
theorem addPlan_switch_fatal_kind {env : Env} {w v : World} {i : Nat} {s : Service}
    {p : Plan} {options : Values} {a : String} {e : Err}
    (h : addPlan.switch env w i s p options = .fatal a e v) :
    (a = "init" ∧ e = .unknownSslMode p.SSLMode ∧ v = w ∧
        p.SSLMode ≠ "disable" ∧ p.SSLMode ≠ "require" ∧ p.SSLMode ≠ "verify-ca" ∧
        p.SSLMode ≠ "verify-full") ∨
      ∃ msg, e = .external msg ∧
        ((a = "init-ca-file" ∧ v = w) ∨ a = "init-cert-file" ∨ a = "init-key-file" ∨
          a = "init-setup-db") := by
  rcases addPlan_switch_fatal h with ⟨hm, -, -⟩ | ⟨-, ha, hv, msg, he, -⟩ | ⟨-, ca, -, hreq⟩ |
      ⟨-, hreq⟩ | ⟨h1, h2, h3, h4, ha, he, hv⟩
  · have hfin : addPlan.finish env w i s p options w.files = .fatal a e v := by
      rw [← h]; simp [addPlan.switch, hm]
    obtain ⟨ha, -, msg, he, -⟩ := addPlan_finish_fatal hfin
    exact Or.inr ⟨msg, he, Or.inr (Or.inr (Or.inr ha))⟩
  · exact Or.inr ⟨msg, he, Or.inl ⟨ha, hv⟩⟩
  · obtain ⟨msg, he, ha⟩ := addPlan_require_fatal_external hreq
    exact Or.inr ⟨msg, he, Or.inr ha⟩
  · obtain ⟨msg, he, ha⟩ := addPlan_require_fatal_external hreq
    exact Or.inr ⟨msg, he, Or.inr ha⟩
  · exact Or.inl ⟨ha, he, hv, h1, h2, h3, h4⟩

/-- A failure with action `init` happened in validation: the world is untouched
and the outcome is the same in every environment with the same
`generatePlanID`. -/
theorem addPlan_init_fatal {env : Env} {w v : World} {p : Plan} {e : Err}
    (h : addPlan env w p = .fatal "init" e v) :
    v = w ∧ ∀ env2 : Env, env2.generatePlanID = env.generatePlanID →
      addPlan env2 w p = .fatal "init" e w := by
  by_cases hsid : p.ServiceID = ""
  · simp only [addPlan, hsid, if_true, Outcome.fatal.injEq, true_and] at h
    obtain ⟨rfl, rfl⟩ := h
    exact ⟨rfl, fun env2 _ => by simp [addPlan, hsid]⟩
  · cases hfind : findService w.Services p.ServiceID with
    | error err =>
      simp only [addPlan, hsid, hfind, if_false, Outcome.fatal.injEq, true_and] at h
      obtain ⟨rfl, rfl⟩ := h
      exact ⟨rfl, fun env2 _ => by simp [addPlan, hsid, hfind]⟩
    | ok r =>
      obtain ⟨i, s⟩ := r
      rw [addPlan_of_find hsid hfind] at h
      have hres : ∀ env2 : Env, env2.generatePlanID = env.generatePlanID →
          addPlan.resolved env2 s p = addPlan.resolved env s p := by
        intro env2 hgen
        unfold addPlan.resolved
        rw [hgen]
      cases hscan : addPlan.scan (addPlan.resolved env s p) s.Plans with
      | some err =>
        rw [hscan] at h
        simp only [Outcome.fatal.injEq, true_and] at h
        obtain ⟨rfl, rfl⟩ := h
        refine ⟨rfl, fun env2 hgen => ?_⟩
        rw [addPlan_of_find hsid hfind, hres env2 hgen, hscan]
      | none =>
        rw [hscan] at h
        simp only at h
        by_cases hhp : p.CRDBHost = "" ∨ p.CRDBPort = ""
        · simp only [hhp, if_true, Outcome.fatal.injEq, true_and] at h
          obtain ⟨rfl, rfl⟩ := h
          refine ⟨rfl, fun env2 hgen => ?_⟩
          rw [addPlan_of_find hsid hfind, hres env2 hgen, hscan]
          simp [hhp]
        · simp only [hhp, if_false] at h
          rcases addPlan_switch_fatal_kind h with ⟨-, rfl, rfl, hd, hr, hca, hfull⟩ |
              ⟨msg, -, ⟨hbad, -⟩ | hbad | hbad | hbad⟩
          · refine ⟨rfl, fun env2 hgen => ?_⟩
            rw [addPlan_of_find hsid hfind, hres env2 hgen, hscan]
            simp [hhp, addPlan.switch, hd, hr, hca, hfull]
          · exact absurd hbad (by decide)
          · exact absurd hbad (by decide)
          · exact absurd hbad (by decide)
          · exact absurd hbad (by decide)

theorem sortStrings_perm (l : List String) : (sortStrings l).Perm l :=
  List.perm_insertionSort _ l

theorem sortStrings_sorted (l : List String) : (sortStrings l).Sorted (fun a b => a ≤ b) := by
  haveI : IsTotal String (fun a b => a.toList ≤ b.toList) :=
    ⟨fun a b => by
      rcases le_total a b with h | h
      · exact Or.inl (String.le_iff_toList_le.mp h)
      · exact Or.inr (String.le_iff_toList_le.mp h)⟩
  haveI : IsTrans String (fun a b => a.toList ≤ b.toList) :=
    ⟨fun a b c hab hbc =>
      String.le_iff_toList_le.mp
        (le_trans (String.le_iff_toList_le.mpr hab) (String.le_iff_toList_le.mpr hbc))⟩
  have h := List.sorted_insertionSort (fun a b : String => a.toList ≤ b.toList) l
  exact List.Pairwise.imp (fun hab => String.le_iff_toList_le.mpr hab) h

theorem sortStrings_strict (l : List String) (hnd : l.Nodup) :
    (sortStrings l).Sorted (fun a b => a < b) :=
  (sortStrings_sorted l).lt_of_le ((sortStrings_perm l).nodup_iff.mpr hnd)

/-- A sorted list of strings that lists the same keys is the sorted key list. -/
theorem sortStrings_unique (l ks : List String) (hs : ks.Sorted (fun a b => a ≤ b))
    (hp : ks.Perm l) : sortStrings l = ks :=
  List.eq_of_perm_of_sorted ((sortStrings_perm l).trans hp.symm) (sortStrings_sorted l) hs

theorem mapIndex_of_mem (cp : PlanMap) (hnd : (cp.map Prod.fst).Nodup)
    (k : String) (v : customPlanSpec) (h : (k, v) ∈ cp) : mapIndex cp k = v := by
  induction cp with
  | nil => simp at h
  | cons kv rest ih =>
    obtain ⟨k2, v2⟩ := kv
    rw [List.map_cons, List.nodup_cons] at hnd
    rcases List.mem_cons.mp h with heq | hmem
    · simp only [Prod.mk.injEq] at heq
      obtain ⟨rfl, rfl⟩ := heq
      simp [mapIndex]
    · have hne : k2 ≠ k := by
        rintro rfl
        exact hnd.1 (List.mem_map.mpr ⟨(k2, v), hmem, rfl⟩)
      simp only [mapIndex, hne, if_false]
      exact ih hnd.2 hmem

theorem mapIndex_rename (f : String → String) (cp : PlanMap) (k : String)
    (hk : k ∈ cp.map Prod.fst)
    (hinj : ∀ a ∈ cp.map Prod.fst, ∀ b ∈ cp.map Prod.fst, f a = f b → a = b) :
    mapIndex (cp.map (fun kv => (f kv.1, kv.2))) (f k) = mapIndex cp k := by
  induction cp with
  | nil => simp at hk
  | cons kv rest ih =>
    obtain ⟨k2, v2⟩ := kv
    by_cases h2 : k2 = k
    · subst h2
      simp [mapIndex]
    · have hf : f k2 ≠ f k := by
        intro hfe
        exact h2 (hinj k2 (by simp) k hk hfe)
      have hk2 : k ∈ rest.map Prod.fst := by
        simp only [List.map_cons, List.mem_cons] at hk
        rcases hk with hk | hk
        · exact absurd hk.symm h2
        · exact hk
      simp only [List.map_cons, mapIndex, hf, h2, if_false]
      exact ih hk2 (fun a ha b hb => hinj a (List.mem_cons_of_mem _ ha) b
        (List.mem_cons_of_mem _ hb))

/-- Renaming the keys by a map that keeps their order renames the sorted keys. -/
theorem sortStrings_rename (f : String → String) (l : List String)
    (hmono : ∀ a ∈ l, ∀ b ∈ l, a < b → f a < f b) :
    sortStrings (l.map f) = (sortStrings l).map f := by
  apply sortStrings_unique
  · have hs := sortStrings_sorted l
    have hmem : ∀ a, a ∈ sortStrings l → a ∈ l := fun a ha => (sortStrings_perm l).subset ha
    rw [List.Sorted, List.pairwise_map]
    refine List.Pairwise.imp_of_mem ?_ hs
    intro a b ha hb hab
    rcases lt_or_eq_of_le hab with hlt | heq
    · exact le_of_lt (hmono a (hmem a ha) b (hmem b hb) hlt)
    · rw [heq]
  · exact (sortStrings_perm l).map f

theorem toDigitsCore_ne_nil (b : Nat) :
    ∀ (fuel n : Nat) (ds : List Char), ds ≠ [] → Nat.toDigitsCore b fuel n ds ≠ [] := by
  intro fuel
  induction fuel with
  | zero => intro n ds h; simpa [Nat.toDigitsCore] using h
  | succ f ih =>
    intro n ds _
    simp only [Nat.toDigitsCore]
    split
    · simp
    · exact ih _ _ (by simp)

theorem natRepr_ne_empty (n : Nat) : Nat.repr n ≠ "" := by
  intro h
  have hd : Nat.toDigits 10 n = [] := by
    have := congrArg String.data h
    simpa [Nat.repr, List.asString] using this
  unfold Nat.toDigits at hd
  simp only [Nat.toDigitsCore] at hd
  split at hd
  · simp at hd
  · exact toDigitsCore_ne_nil 10 _ _ _ (by simp) hd

/-- The decimal rendering of an integer is never the empty string. -/
theorem Itoa_ne_empty (i : Int) : Itoa i ≠ "" := by
  unfold Itoa
  cases i with
  | ofNat m => exact natRepr_ne_empty m
  | negSucc m =>
    intro h
    have hd := congrArg String.data h
    have hform : (toString (Int.negSucc m)) = "-" ++ Nat.repr (m + 1) := rfl
    rw [hform] at hd
    simp [String.data_append] at hd

theorem mem_build {cp : PlanMap} {p : Plan} (h : p ∈ createCustomPlans.build cp) :
    ∃ spec, p = createCustomPlans.plan spec := by
  unfold createCustomPlans.build at h
  obtain ⟨k, -, rfl⟩ := List.mem_map.mp h
  exact ⟨_, rfl⟩

/-- The host/port error is raised only for an empty host or an empty port. -/
theorem addPlan_noHostPort {env : Env} {w v : World} {p : Plan} {a n : String}
    (h : addPlan env w p = .fatal a (.noHostPort n) v) :
    p.CRDBHost = "" ∨ p.CRDBPort = "" := by
  by_contra hhp
  by_cases hsid : p.ServiceID = ""
  · simp [addPlan, hsid] at h
  · cases hfind : findService w.Services p.ServiceID with
    | error err => simp [addPlan, hsid, hfind] at h
    | ok r =>
      obtain ⟨i, s⟩ := r
      rw [addPlan_of_find hsid hfind] at h
      cases hscan : addPlan.scan (addPlan.resolved env s p) s.Plans with
      | some err =>
        rw [hscan] at h
        simp only [Outcome.fatal.injEq] at h
        obtain ⟨-, rfl, -⟩ := h
        rcases addPlan_scan_some hscan with ⟨m, hm⟩ | ⟨m, hm⟩ <;> cases hm
      | none =>
        rw [hscan] at h
        simp only [hhp, if_false] at h
        rcases addPlan_switch_fatal_kind h with ⟨-, he, -⟩ | ⟨msg, he, -⟩ <;> cases he

theorem addService_fatal_inv {w v : World} {svc : Service} {a : String} {e : Err}
    (h : addService w svc = .fatal a e v) : a = "init" ∧ v = w := by
  unfold addService at h
  split at h
  · simp only [Outcome.fatal.injEq] at h
    exact ⟨h.1.symm, h.2.2.symm⟩
  · split at h
    · simp only [Outcome.fatal.injEq] at h
      exact ⟨h.1.symm, h.2.2.symm⟩
    · cases h

/-- Whatever its outcome, the loop over `addService` leaves the files alone and
only ever appends services of the list. -/
theorem addServices_world (l : List Service) (w : World) :
    (addServices w l).world.files = w.files ∧
      ∀ s ∈ (addServices w l).world.Services, s ∈ w.Services ∨ s ∈ l := by
  induction l generalizing w with
  | nil => exact ⟨rfl, fun s hs => Or.inl hs⟩
  | cons t rest ih =>
    unfold addServices
    cases hadd : addService w t with
    | ok v =>
      obtain ⟨-, -, rfl⟩ := addService_ok_inv hadd
      obtain ⟨h1, h2⟩ := ih { w with Services := w.Services ++ [t] }
      refine ⟨h1, ?_⟩
      intro s hs
      rcases h2 s hs with h | h
      · rcases List.mem_append.mp h with h | h
        · exact Or.inl h
        · simp only [List.mem_singleton] at h
          exact Or.inr (h ▸ List.mem_cons_self _ _)
      · exact Or.inr (List.mem_cons_of_mem _ h)
    | fatal a e v =>
      obtain ⟨-, rfl⟩ := addService_fatal_inv hadd
      exact ⟨rfl, fun s hs => Or.inl hs⟩

/-- What a successful startup went through. -/
theorem init_ok_inv {env : Env} {inp : Input} {w v : World}
    (h : InitServicesAndPlans env inp w = .ok v) :
    ∃ services rawPlans customPlans w1,
      inp.getenv "SERVICES" ≠ "" ∧
      inp.unmarshalServices (inp.getenv "SERVICES") = .ok services ∧ services ≠ [] ∧
      addServices w (services.map Service.decoded) = .ok w1 ∧
      (if inp.getenv "PRECONFIGURED_PLANS" ≠ "" then
        inp.unmarshalPlans (inp.getenv "PRECONFIGURED_PLANS") else .ok []) = .ok rawPlans ∧
      createCustomPlans inp (inp.getenv "CUSTOM_PLANS") = .ok customPlans ∧
      rawPlans.map Plan.decoded ++ customPlans ≠ [] ∧
      addPlans env w1 (rawPlans.map Plan.decoded ++ customPlans) = .ok v := by
  unfold InitServicesAndPlans at h
  simp only at h
  split at h
  · cases h
  · rename_i h0
    split at h
    · cases h
    · rename_i services hdec
      split at h
      · cases h
      · rename_i hlen
        split at h
        · cases h
        · rename_i w1 hadd
          split at h
          · cases h
          · rename_i rawPlans hplans
            split at h
            · cases h
            · rename_i customPlans hcp
              split at h
              · cases h
              · rename_i hlen2
                refine ⟨services, rawPlans, customPlans, w1, h0, hdec, ?_, hadd, hplans, hcp,
                  ?_, h⟩
                · intro hs
                  exact hlen (by simp [hs])
                · intro hs
                  exact hlen2 (by rw [hs]; rfl)

theorem addServices_ok_inv {l : List Service} {w v : World}
    (h : addServices w l = .ok v) : v = ⟨w.Services ++ l, w.files⟩ := by
  induction l generalizing w with
  | nil =>
    simp only [addServices, Outcome.ok.injEq] at h
    subst h
    simp
  | cons t rest ih =>
    unfold addServices at h
    split at h
    · rename_i w1 hadd
      obtain ⟨-, -, rfl⟩ := addService_ok_inv hadd
      rw [ih h]
      simp
    · cases h

theorem addServices_reachable {env : Env} {l : List Service} {w v : World}
    (hw : Reachable env w) (hl : ∀ s ∈ l, s.Plans = [])
    (h : addServices w l = .ok v) : Reachable env v := by
  induction l generalizing w with
  | nil =>
    simp only [addServices, Outcome.ok.injEq] at h
    subst h
    exact hw
  | cons t rest ih =>
    unfold addServices at h
    split at h
    · rename_i w1 hadd
      exact ih (.service t hw (hl t (List.mem_cons_self _ _)) hadd)
        (fun s hs => hl s (List.mem_cons_of_mem _ hs)) h
    · cases h

theorem addPlans_cons_ok {env : Env} {p : Plan} {rest : List Plan} {w v : World}
    (h : addPlans env w (p :: rest) = .ok v) :
    ∃ w1, addPlan env w p = .ok w1 ∧ addPlans env w1 rest = .ok v := by
  unfold addPlans at h
  split at h
  · rename_i w1 hadd
    exact ⟨w1, hadd, h⟩
  · cases h

theorem forall2_chain {α : Type} {R1 R2 R3 : α → α → Prop}
    (hcomp : ∀ a b c, R1 a b → R2 b c → R3 a c) :
    ∀ {l1 l2 l3 : List α}, List.Forall₂ R1 l1 l2 → List.Forall₂ R2 l2 l3 →
      List.Forall₂ R3 l1 l3 := by
  intro l1 l2 l3 h12
  induction h12 generalizing l3 with
  | nil => intro h23; cases h23; exact .nil
  | cons hab _ ih =>
    intro h23
    cases h23 with
    | cons hbc hrest => exact .cons (hcomp _ _ _ hab hbc) (ih hrest)

/-- Replacing the entry at index `i` relates the list to itself entry by entry,
when ids are pairwise distinct. -/
theorem forall2_set_service {R : Service → Service → Prop} (l : List Service) (i : Nat)
    (s t : Service) (hget : l[i]? = some s) (hnd : (l.map (fun x => x.ID)).Nodup)
    (hR : R s t) (hrefl : ∀ x ∈ l, x.ID ≠ s.ID → R x x) :
    List.Forall₂ R l (l.set i t) := by
  induction l generalizing i with
  | nil => simp at hget
  | cons x rest ih =>
    rw [List.map_cons, List.nodup_cons] at hnd
    cases i with
    | zero =>
      simp only [List.getElem?_cons_zero, Option.some.injEq] at hget
      subst hget
      refine .cons hR (List.forall₂_same.mpr ?_)
      intro y hy
      apply hrefl y (List.mem_cons_of_mem _ hy)
      intro hid
      exact hnd.1 (List.mem_map.mpr ⟨y, hy, hid⟩)
    | succ j =>
      simp only [List.getElem?_cons_succ] at hget
      have hs : s ∈ rest := List.getElem?_mem hget
      refine .cons (hrefl x (List.mem_cons_self _ _) ?_) (ih j hget hnd.2
        (fun y hy => hrefl y (List.mem_cons_of_mem _ hy)))
      intro hid
      exact hnd.1 (List.mem_map.mpr ⟨s, hs, hid.symm⟩)

theorem plans_total_set (l : List Service) (i : Nat) (s : Service) (q : Plan)
    (hget : l[i]? = some s) :
    ((l.set i { s with Plans := s.Plans ++ [q] }).map (fun x => x.Plans.length)).sum =
      (l.map (fun x => x.Plans.length)).sum + 1 := by
  induction l generalizing i with
  | nil => simp at hget
  | cons x rest ih =>
    cases i with
    | zero =>
      simp only [List.getElem?_cons_zero, Option.some.injEq] at hget
      subst hget
      simp only [List.set_cons_zero, List.map_cons, List.sum_cons, List.length_append,
        List.length_singleton]
      omega
    | succ j =>
      simp only [List.getElem?_cons_succ] at hget
      simp only [List.set_cons_succ, List.map_cons, List.sum_cons, ih j hget]
      omega

/-- One successful `addPlan`: service ids stay, the owning service gets the name
of the plan appended, every other service keeps its plans. -/
theorem addPlan_step_names {env : Env} {w v : World} {p : Plan}
    (h : addPlan env w p = .ok v) (hnd : (w.Services.map (fun s => s.ID)).Nodup) :
    v.Services.map (fun s => s.ID) = w.Services.map (fun s => s.ID) ∧
      (v.Services.map (fun s => s.Plans.length)).sum =
        (w.Services.map (fun s => s.Plans.length)).sum + 1 ∧
      List.Forall₂ (fun s t => t.ID = s.ID ∧
        t.Plans.map (fun q => q.Name) = s.Plans.map (fun q => q.Name) ++
          (if p.ServiceID = s.ID then [p.Name] else [])) w.Services v.Services := by
  obtain ⟨i, s, q, hfind, hv, hn, -, -, -⟩ := addPlan_ok_stored h
  obtain ⟨hget, hid⟩ := findService_ok hfind
  refine ⟨?_, ?_, ?_⟩
  · rw [hv]
    exact map_set_of_eq (fun t : Service => t.ID) _ _ s _ hget rfl
  · rw [hv]
    exact plans_total_set _ _ _ _ hget
  · rw [hv]
    apply forall2_set_service _ _ s _ hget hnd
    · simp [hid, hn]
    · intro x _ hx
      have hne : ¬ p.ServiceID = x.ID := fun hpx => hx (hpx.symm.trans hid.symm)
      simp [hne]

/-- The loop over `addPlan`: each service ends with the names of the plans of
the list addressed to it appended, in the order of the list. -/
theorem addPlans_names {env : Env} (plans : List Plan) {w v : World}
    (h : addPlans env w plans = .ok v) (hnd : (w.Services.map (fun s => s.ID)).Nodup) :
    (v.Services.map (fun s => s.Plans.length)).sum =
        (w.Services.map (fun s => s.Plans.length)).sum + plans.length ∧
      List.Forall₂ (fun s t => t.ID = s.ID ∧
        t.Plans.map (fun q => q.Name) = s.Plans.map (fun q => q.Name) ++
          (plans.filter (fun p => decide (p.ServiceID = s.ID))).map (fun q => q.Name))
        w.Services v.Services := by
  induction plans generalizing w with
  | nil =>
    simp only [addPlans, Outcome.ok.injEq] at h
    subst h
    exact ⟨by simp, List.forall₂_same.mpr (fun s _ => by simp)⟩
  | cons p rest ih =>
    obtain ⟨w1, hadd, hrest⟩ := addPlans_cons_ok h
    obtain ⟨hids, hsum, hstep⟩ := addPlan_step_names hadd hnd
    obtain ⟨hsum2, hrel⟩ := ih hrest (hids ▸ hnd)
    refine ⟨by rw [hsum2, hsum, List.length_cons]; omega, ?_⟩
    refine forall2_chain ?_ hstep hrel
    rintro a b c ⟨hab1, hab2⟩ ⟨hbc1, hbc2⟩
    refine ⟨hbc1.trans hab1, ?_⟩
    rw [hbc2, hab2, hab1, List.filter_cons]
    by_cases hp : p.ServiceID = a.ID
    · simp [hp]
    · simp [hp]

theorem forall2_mem_right {α : Type} {R : α → α → Prop} {l1 l2 : List α}
    (h : List.Forall₂ R l1 l2) : ∀ b ∈ l2, ∃ a ∈ l1, R a b := by
  induction h with
  | nil => intro b hb; simp at hb
  | cons hab _ ih =>
    intro b hb
    rcases List.mem_cons.mp hb with rfl | hb
    · exact ⟨_, List.mem_cons_self _ _, hab⟩
    · obtain ⟨a, ha, hr⟩ := ih b hb
      exact ⟨a, List.mem_cons_of_mem _ ha, hr⟩

theorem forall2_map_eq {α β : Type} {R : α → α → Prop} (f : α → β) {l1 l2 : List α}
    (h : List.Forall₂ R l1 l2) (hf : ∀ a b, R a b → f b = f a) : l2.map f = l1.map f := by
  induction h with
  | nil => rfl
  | cons hab _ ih => simp [hf _ _ hab, ih]

theorem cleanupFiles_eq_filter (paths : List String) (fs : List File) :
    CleanupPlans.files fs paths =
      fs.filter (fun f => decide (f.1 ∉ paths.filter (fun file => decide (file ≠ "")))) := by
  unfold CleanupPlans.files
  induction paths generalizing fs with
  | nil => simp
  | cons path rest ih =>
    simp only [List.foldl_cons]
    rw [ih]
    by_cases hp : path = ""
    · simp [hp]
    · simp only [ne_eq, hp, not_false_eq_true, if_true, osRemove, List.filter_filter]
      apply List.filter_congr
      intro f _
      simp [List.filter_cons, hp, Bool.and_comm]

/-- A fold of filters that each drop the paths `g x` drops the paths of all. -/
theorem foldl_filter_flatMap {α : Type} (g : α → List String) (xs : List α)
    (fs : List File) :
    xs.foldl (fun fs x => fs.filter (fun f => decide (f.1 ∉ g x))) fs =
      fs.filter (fun f => decide (f.1 ∉ xs.flatMap g)) := by
  induction xs generalizing fs with
  | nil => simp
  | cons x rest ih =>
    simp only [List.foldl_cons]
    rw [ih, List.filter_filter]
    apply List.filter_congr
    intro f _
    simp only [List.flatMap_cons, List.mem_append, not_or, Bool.decide_and, decide_not]
    rw [Bool.and_comm]

/-- `CleanupPlans` keeps exactly the files whose path no plan tracks. -/
theorem cleanupPlans_eq_filter (w : World) :
    CleanupPlans w =
      ⟨w.Services, w.files.filter (fun f => decide (f.1 ∉ trackedFiles w.Services))⟩ := by
  unfold CleanupPlans trackedFiles
  have hinner : ∀ (s : Service) (fs : List File),
      s.Plans.foldl (fun fs p =>
        CleanupPlans.files fs [p.sslCAFile, p.sslCertFile, p.sslKeyFile]) fs =
      fs.filter (fun f => decide (f.1 ∉ s.Plans.flatMap (fun p =>
        [p.sslCAFile, p.sslCertFile, p.sslKeyFile].filter (fun file => decide (file ≠ ""))))) := by
    intro s fs
    rw [← foldl_filter_flatMap]
    congr 1
    funext fs p
    exact cleanupFiles_eq_filter _ fs
  have houter : (fun (fs : List File) (s : Service) => s.Plans.foldl (fun fs p =>
        CleanupPlans.files fs [p.sslCAFile, p.sslCertFile, p.sslKeyFile]) fs) =
      (fun fs s => fs.filter (fun f => decide (f.1 ∉ s.Plans.flatMap (fun p =>
        [p.sslCAFile, p.sslCertFile, p.sslKeyFile].filter
          (fun file => decide (file ≠ "")))))) := by
    funext fs s
    exact hinner s fs
  rw [houter, foldl_filter_flatMap]

theorem cleanupPlans_idem (w : World) : CleanupPlans (CleanupPlans w) = CleanupPlans w := by
  rw [cleanupPlans_eq_filter w, cleanupPlans_eq_filter]
  simp [List.filter_filter]

theorem mem_trackedFiles {services : List Service} {path : String} :
    path ∈ trackedFiles services ↔
      ∃ s ∈ services, ∃ p ∈ s.Plans,
        path ∈ [p.sslCAFile, p.sslCertFile, p.sslKeyFile] ∧ path ≠ "" := by
  unfold trackedFiles
  simp only [List.mem_flatMap, List.mem_filter, decide_eq_true_eq]

theorem mem_trackedFiles_set (l : List Service) (i : Nat) (s : Service) (q : Plan)
    (path : String) (hget : l[i]? = some s) :
    path ∈ trackedFiles (l.set i { s with Plans := s.Plans ++ [q] }) ↔
      path ∈ trackedFiles l ∨
        (path ∈ [q.sslCAFile, q.sslCertFile, q.sslKeyFile] ∧ path ≠ "") := by
  induction l generalizing i with
  | nil => simp at hget
  | cons x rest ih =>
    cases i with
    | zero =>
      simp only [List.getElem?_cons_zero, Option.some.injEq] at hget
      subst hget
      simp only [trackedFiles, List.set_cons_zero, List.flatMap_cons, List.flatMap_append,
        List.flatMap_nil, List.append_nil, List.mem_append, List.mem_filter,
        decide_eq_true_eq]
      tauto
    | succ j =>
      simp only [List.getElem?_cons_succ] at hget
      have h := ih j hget
      simp only [trackedFiles, List.set_cons_succ, List.flatMap_cons, List.mem_append] at h ⊢
      rw [h]
      tauto

/-- Files and tracked paths after a successful `addPlan` of a plan that tracks
nothing on input: the new files are exactly at the non-empty paths the stored
plan tracks, and those paths were free. -/
theorem addPlan_ok_tracked {env : Env} {w v : World} {p : Plan}
    (h : addPlan env w p = .ok v)
    (hp : p.sslCAFile = "" ∧ p.sslCertFile = "" ∧ p.sslKeyFile = "") :
    ∃ i s q new, findService w.Services p.ServiceID = .ok (i, s) ∧
      v.Services = w.Services.set i { s with Plans := s.Plans ++ [q] } ∧
      v.files = w.files ++ new ∧
      (∀ path, (path ∈ [q.sslCAFile, q.sslCertFile, q.sslKeyFile] ∧ path ≠ "") ↔
        path ∈ new.map Prod.fst) ∧
      ∀ path ∈ new.map Prod.fst, path ∉ w.files.map Prod.fst := by
  obtain ⟨hp1, hp2, hp3⟩ := hp
  obtain ⟨i, s, -, hfind, -, -, -, hsw⟩ := addPlan_ok_inv h
  obtain ⟨-, -, -, -, -, -, -, -, -, -, hca0, hcert0, hkey0⟩ := addPlan_resolved_fields env s p
  rw [hp1] at hca0
  rw [hp2] at hcert0
  rw [hp3] at hkey0
  rcases addPlan_switch_ok hsw with ⟨-, rfl⟩ | ⟨-, cert, key, hc, hk, rfl⟩ |
      ⟨-, ca, cert, key, hca, hc, hk, rfl⟩
  · refine ⟨i, s, _, [], hfind, rfl, by simp, ?_, by simp⟩
    intro path
    simp only [hca0, hcert0, hkey0, List.mem_cons, List.mem_singleton, List.not_mem_nil,
      or_false, or_self, List.map_nil, iff_false, not_and, not_not]
    exact fun h => h
  · obtain ⟨-, hc1, hc2, -⟩ := createTempFile_ok hc
    obtain ⟨-, hk1, hk2, -⟩ := createTempFile_ok hk
    simp only [List.map_append, List.map_cons, List.map_nil, List.mem_append,
      List.mem_singleton, not_or] at hk2
    refine ⟨i, s, _, _, hfind, rfl, rfl, ?_, ?_⟩
    · intro path
      simp only [hca0, List.mem_cons, List.mem_singleton, List.not_mem_nil, or_false,
        List.map_cons, List.map_nil]
      constructor
      · rintro ⟨h1 | h1 | h1, hne⟩
        · exact absurd h1 hne
        · exact Or.inl h1
        · exact Or.inr h1
      · rintro (h1 | h1)
        · exact ⟨Or.inr (Or.inl h1), h1 ▸ hc1⟩
        · exact ⟨Or.inr (Or.inr h1), h1 ▸ hk1⟩
    · intro path hpath
      simp only [List.map_cons, List.map_nil, List.mem_cons, List.mem_singleton,
        List.not_mem_nil, or_false] at hpath
      rcases hpath with rfl | rfl
      · exact hc2
      · exact hk2.1
  · obtain ⟨-, ha1, ha2, -⟩ := createTempFile_ok hca
    obtain ⟨-, hc1, hc2, -⟩ := createTempFile_ok hc
    obtain ⟨-, hk1, hk2, -⟩ := createTempFile_ok hk
    simp only [List.map_append, List.map_cons, List.map_nil, List.mem_append,
      List.mem_singleton, List.mem_cons, List.not_mem_nil, or_false, not_or] at hc2 hk2
    refine ⟨i, s, _, _, hfind, rfl, rfl, ?_, ?_⟩
    · intro path
      simp only [List.mem_cons, List.mem_singleton, List.not_mem_nil, or_false,
        List.map_cons, List.map_nil]
      constructor
      · rintro ⟨h1, -⟩
        exact h1
      · rintro (h1 | h1 | h1)
        · exact ⟨Or.inl h1, h1 ▸ ha1⟩
        · exact ⟨Or.inr (Or.inl h1), h1 ▸ hc1⟩
        · exact ⟨Or.inr (Or.inr h1), h1 ▸ hk1⟩
    · intro path hpath
      simp only [List.map_cons, List.map_nil, List.mem_cons, List.mem_singleton,
        List.not_mem_nil, or_false] at hpath
      rcases hpath with rfl | rfl | rfl
      · exact ha2
      · exact hc2.1
      · exact hk2.1

/-- Invariant of startup over the initial files `fs0`: the files on disk are
`fs0` followed by files whose paths are tracked, and no tracked path is a path of
`fs0`.  It is kept by a successful `addPlan` of a plan that tracks nothing on
input. -/
theorem addPlan_keeps_tracking {env : Env} {w v : World} {p : Plan} (fs0 : List File)
    (h : addPlan env w p = .ok v)
    (hp : p.sslCAFile = "" ∧ p.sslCertFile = "" ∧ p.sslKeyFile = "")
    (hinv : (∃ created, w.files = fs0 ++ created ∧
        ∀ f ∈ created, f.1 ∈ trackedFiles w.Services) ∧
      ∀ path ∈ trackedFiles w.Services, path ∉ fs0.map Prod.fst) :
    (∃ created, v.files = fs0 ++ created ∧
        ∀ f ∈ created, f.1 ∈ trackedFiles v.Services) ∧
      ∀ path ∈ trackedFiles v.Services, path ∉ fs0.map Prod.fst := by
  obtain ⟨⟨created, hfiles, hcreated⟩, htracked⟩ := hinv
  obtain ⟨i, s, q, new, hfind, hv, hvf, hq, hnew⟩ := addPlan_ok_tracked h hp
  obtain ⟨hget, -⟩ := findService_ok hfind
  constructor
  · refine ⟨created ++ new, by rw [hvf, hfiles, List.append_assoc], ?_⟩
    intro f hf
    rw [hv, mem_trackedFiles_set _ _ _ _ _ hget]
    rcases List.mem_append.mp hf with hf | hf
    · exact Or.inl (hcreated f hf)
    · exact Or.inr ((hq f.1).mpr (List.mem_map.mpr ⟨f, hf, rfl⟩))
  · intro path hpath
    rw [hv, mem_trackedFiles_set _ _ _ _ _ hget] at hpath
    rcases hpath with hpath | hpath
    · exact htracked path hpath
    · have := hnew path ((hq path).mp hpath)
      rw [hfiles, List.map_append, List.mem_append, not_or] at this
      exact this.1

theorem addPlans_keep_tracking {env : Env} (plans : List Plan) {w v : World}
    (fs0 : List File) (h : addPlans env w plans = .ok v)
    (hp : ∀ p ∈ plans, p.sslCAFile = "" ∧ p.sslCertFile = "" ∧ p.sslKeyFile = "")
    (hinv : (∃ created, w.files = fs0 ++ created ∧
        ∀ f ∈ created, f.1 ∈ trackedFiles w.Services) ∧
      ∀ path ∈ trackedFiles w.Services, path ∉ fs0.map Prod.fst) :
    (∃ created, v.files = fs0 ++ created ∧
        ∀ f ∈ created, f.1 ∈ trackedFiles v.Services) ∧
      ∀ path ∈ trackedFiles v.Services, path ∉ fs0.map Prod.fst := by
  induction plans generalizing w with
  | nil =>
    simp only [addPlans, Outcome.ok.injEq] at h
    subst h
    exact hinv
  | cons p rest ih =>
    obtain ⟨w1, hadd, hrest⟩ := addPlans_cons_ok h
    exact ih hrest (fun r hr => hp r (List.mem_cons_of_mem _ hr))
      (addPlan_keeps_tracking fs0 hadd (hp p (List.mem_cons_self _ _)) hinv)

theorem trackedFiles_no_plans (services : List Service) (h : ∀ s ∈ services, s.Plans = []) :
    trackedFiles services = [] := by
  rw [List.eq_nil_iff_forall_not_mem]
  intro path hpath
  obtain ⟨s, hs, p, hp, -⟩ := mem_trackedFiles.mp hpath
  rw [h s hs] at hp
  simp at hp

theorem createCustomPlans_untracked {inp : Input} {json : String} {plans : List Plan}
    (h : createCustomPlans inp json = .ok plans) :
    ∀ p ∈ plans, p.sslCAFile = "" ∧ p.sslCertFile = "" ∧ p.sslKeyFile = "" := by
  intro p hp
  unfold createCustomPlans at h
  split at h
  · simp only [Except.ok.injEq] at h
    subst h
    simp at hp
  · split at h
    · cases h
    · simp only [Except.ok.injEq] at h
      subst h
      obtain ⟨spec, rfl⟩ := mem_build hp
      exact ⟨rfl, rfl, rfl⟩

/-! ## Lemmas on slice values -/

theorem take_succ_set (x : Plan) (l : List Plan) (k : Nat) (h : k < l.length) :
    (l.set k x).take (k + 1) = l.take k ++ [x] := by
  induction l generalizing k with
  | nil => simp at h
  | cons a rest ih =>
    cases k with
    | zero => simp
    | succ k =>
      simp only [List.length_cons, Nat.add_lt_add_iff_right] at h
      simp [ih k h]

theorem take_drop_set (x : Plan) (l : List Plan) (n k : Nat) (h : n + k < l.length) :
    ((l.set (n + k) x).drop n).take (k + 1) = (l.drop n).take k ++ [x] := by
  induction n generalizing l with
  | zero =>
    simp only [Nat.zero_add, List.drop_zero]
    exact take_succ_set x l k (by simpa using h)
  | succ n ih =>
    cases l with
    | nil => simp at h
    | cons a rest =>
      have h1 : n + k < rest.length := by simp only [List.length_cons] at h; omega
      have : n + 1 + k = (n + k) + 1 := by omega
      rw [this]
      simpa using ih rest h1

/-- Elements outside the window of a slice do not show in it. -/
theorem take_drop_set_out (x : Plan) (l : List Plan) (n k m : Nat) (h : m < n ∨ n + k ≤ m) :
    ((l.set m x).drop n).take k = (l.drop n).take k := by
  apply List.ext_getElem?
  intro j
  simp only [List.getElem?_take, List.getElem?_drop, List.getElem?_set]
  by_cases hj : j < k
  · simp only [hj, if_true]
    have : m ≠ n + j := by omega
    simp [this]
  · simp [hj]

theorem Slice.elems_length {heap : Heap} {s : Slice} (h : s.WF heap) :
    (s.elems heap).length = s.len := by
  unfold Slice.WF at h
  unfold Slice.elems
  cases ha : s.arr with
  | none => simp [ha] at h ⊢; exact h.symm
  | some a =>
    simp only [ha] at h ⊢
    simp only [List.length_take, List.length_drop]
    rcases Nat.eq_zero_or_pos s.cap with hc | hc
    · omega
    · have := (h.2 hc).2
      omega

/-- A slice of capacity 0 has no elements, over any heap. -/
theorem Slice.elems_cap_zero {s : Slice} (hle : s.len ≤ s.cap) (hc : s.cap = 0)
    (heap : Heap) : s.elems heap = [] := by
  have : s.len = 0 := by omega
  unfold Slice.elems
  cases s.arr with
  | none => rfl
  | some a => simp [this]

theorem heap_getD_set (heap : Heap) (a b : Nat) (x : List Plan) (ha : a < heap.length) :
    (heap.set a x).getD b [] = if b = a then x else heap.getD b [] := by
  simp only [List.getD_eq_getElem?_getD, List.getElem?_set]
  by_cases h : a = b
  · subst h; simp [ha]
  · have : ¬ b = a := fun e => h e.symm
    simp [h, this]

theorem heap_getD_append (heap : Heap) (x : List Plan) (b : Nat) (hb : b < heap.length) :
    (heap ++ [x]).getD b [] = heap.getD b [] := by
  simp [List.getD_eq_getElem?_getD, List.getElem?_append_left hb]

theorem heap_getD_new (heap : Heap) (x : List Plan) :
    (heap ++ [x]).getD heap.length [] = x := by
  simp [List.getD_eq_getElem?_getD]

theorem take_append_one (e : List Plan) (n : Nat) (h : e.length = n) (x : Plan)
    (r : List Plan) : ((e ++ [x] ++ r).drop 0).take (n + 1) = e ++ [x] := by
  subst h
  rw [List.drop_zero, List.take_append_eq_append_take]
  simp

/-- Growing a slice: the new slice holds the old elements and `p`, owns a new
array, and every well-formed slice keeps its elements. -/
theorem Slice.grown_spec (spare : Nat) (heap : Heap) (s : Slice) (p : Plan) (hwf : s.WF heap) :
    (Slice.grown spare heap s p).1.elems (Slice.grown spare heap s p).2 = s.elems heap ++ [p] ∧
    (Slice.grown spare heap s p).1.WF (Slice.grown spare heap s p).2 ∧
    (Slice.grown spare heap s p).1.arr = some heap.length ∧
    (∀ t : Slice, t.WF heap →
      t.elems (Slice.grown spare heap s p).2 = t.elems heap ∧
        t.WF (Slice.grown spare heap s p).2) := by
  have hlen := Slice.elems_length hwf
  refine ⟨?_, ?_, rfl, ?_⟩
  · show (((heap ++ [s.elems heap ++ [p] ++ List.replicate spare ({} : Plan)]).getD
      heap.length []).drop 0).take (s.len + 1) = s.elems heap ++ [p]
    rw [heap_getD_new]
    exact take_append_one _ _ hlen p _
  · simp only [Slice.grown, Slice.WF, heap_getD_new]
    simp only [List.length_append, List.length_singleton, List.length_replicate, hlen]
    omega
  · intro t ht
    unfold Slice.WF at ht
    cases hta : t.arr with
    | none => simp [Slice.elems, Slice.WF, hta] at ht ⊢; exact ht
    | some b =>
      simp only [hta] at ht
      rcases Nat.eq_zero_or_pos t.cap with hc | hc
      · rw [Slice.elems_cap_zero ht.1 hc, Slice.elems_cap_zero ht.1 hc]
        simp only [Slice.WF, hta]
        exact ⟨trivial, ht.1, fun h => by omega⟩
      · obtain ⟨hb, hL⟩ := ht.2 hc
        simp only [Slice.grown, Slice.elems, Slice.WF, hta, heap_getD_append heap _ b hb,
          List.length_append, List.length_singleton]
        exact ⟨trivial, ht.1, fun _ => ⟨by omega, hL⟩⟩

/-- Go `append` on a well-formed slice: the result holds the old elements and
`p` and is well formed; it points into the array of `s` or into a new one; and a
well-formed slice that does not point into the array of `s` keeps its elements. -/
theorem Slice.append_spec {spare : Nat} {heap h' : Heap} {s s' : Slice} {p : Plan}
    (hwf : s.WF heap) (h : Slice.append spare heap s p = (s', h')) :
    s'.elems h' = s.elems heap ++ [p] ∧ s'.WF h' ∧
    (∃ a, s'.arr = some a ∧ 0 < s'.cap ∧ ((s.arr = some a ∧ 0 < s.cap) ∨ a = heap.length)) ∧
    (∀ t : Slice, t.WF heap → (∀ a, t.arr = some a → 0 < t.cap → 0 < s.cap → s.arr ≠ some a) →
      t.elems h' = t.elems heap ∧ t.WF h') := by
  have hg := Slice.grown_spec spare heap s p hwf
  have hpos : 0 < (Slice.grown spare heap s p).1.cap := by simp [Slice.grown]
  unfold Slice.append at h
  cases hsa : s.arr with
  | none =>
    simp only [hsa] at h
    rw [h] at hg hpos
    exact ⟨hg.1, hg.2.1, ⟨_, hg.2.2.1, hpos, Or.inr rfl⟩, fun t ht _ => hg.2.2.2 t ht⟩
  | some a =>
    simp only [hsa] at h
    split at h
    · rename_i hlt
      simp only [Prod.mk.injEq] at h
      obtain ⟨rfl, rfl⟩ := h
      have hw := hwf
      simp only [Slice.WF, hsa] at hw
      obtain ⟨hle, hw⟩ := hw
      have hcpos : 0 < s.cap := by omega
      obtain ⟨ha, hcap⟩ := hw hcpos
      refine ⟨?_, ?_, ⟨a, rfl, hcpos, Or.inl ⟨rfl, hcpos⟩⟩, ?_⟩
      · simp only [Slice.elems, hsa, heap_getD_set heap a a _ ha, if_true]
        exact take_drop_set p _ _ _ (by omega)
      · simp only [Slice.WF, hsa, heap_getD_set heap a a _ ha, if_true, List.length_set]
        exact ⟨hlt, fun _ => ⟨ha, hcap⟩⟩
      · intro t ht hne
        cases hta : t.arr with
        | none => simp only [Slice.WF, Slice.elems, hta] at ht ⊢; exact ⟨trivial, ht⟩
        | some b =>
          simp only [Slice.WF, hta] at ht
          rcases Nat.eq_zero_or_pos t.cap with hc | hc
          · rw [Slice.elems_cap_zero ht.1 hc, Slice.elems_cap_zero ht.1 hc]
            simp only [Slice.WF, hta]
            exact ⟨trivial, ht.1, fun h => by omega⟩
          · have hba : b ≠ a := fun e => hne b hta hc hcpos (by rw [e])
            simp only [Slice.WF, Slice.elems, hta, heap_getD_set heap a b _ ha, hba, if_false,
              List.length_set]
            exact ⟨trivial, ht⟩
    · rw [h] at hg hpos
      exact ⟨hg.1, hg.2.1, ⟨_, hg.2.2.1, hpos, Or.inr rfl⟩, fun t ht _ => hg.2.2.2 t ht⟩

theorem getElem?_set_cases {l : List ServiceS} {i j : Nat} {x t : ServiceS}
    (h : (l.set i x)[j]? = some t) : (j = i ∧ t = x) ∨ (j ≠ i ∧ l[j]? = some t) := by
  rw [List.getElem?_set] at h
  by_cases hij : i = j
  · subst hij
    simp only [if_true] at h
    split at h
    · exact Or.inl ⟨rfl, by simpa using h.symm⟩
    · cases h
  · rw [if_neg hij] at h
    exact Or.inr ⟨fun e => hij e.symm, h⟩

/-- One `append` to the `Plans` of service `i` in a registry whose services own
their backing arrays: in the denoted registry service `i` got `p` appended and
nothing else changed, and the services still own their backing arrays. -/
theorem append_owned {w : WorldS} (hown : w.Owned) {i : Nat} {s : ServiceS}
    (hget : w.Services[i]? = some s) {spare : Nat} {p : Plan} {s' : Slice} {h' : Heap}
    (h : Slice.append spare w.heap s.Plans p = (s', h')) (fs : List File) :
    (WorldS.mk (w.Services.set i { s with Plans := s' }) h' fs).view =
      ⟨w.view.Services.set i
        { s.view w.heap with Plans := (s.view w.heap).Plans ++ [p] }, fs⟩ ∧
    (WorldS.mk (w.Services.set i { s with Plans := s' }) h' fs).Owned := by
  obtain ⟨hwf, hdist⟩ := hown
  obtain ⟨helems, hwf', ⟨a, hsa, hpos, harr⟩, hother⟩ :=
    Slice.append_spec (hwf s (List.getElem?_mem hget)) h
  have hkeep : ∀ (j : Nat) (t : ServiceS), j ≠ i → w.Services[j]? = some t →
      t.Plans.elems h' = t.Plans.elems w.heap ∧ t.Plans.WF h' := by
    intro j t hj ht
    refine hother t.Plans (hwf t (List.getElem?_mem ht)) ?_
    intro b hb hc hsc hsb
    exact hj (hdist j i t s b ht hget hb hsb hc hsc)
  have hnew : ∀ (j : Nat) (t : ServiceS), j ≠ i → w.Services[j]? = some t →
      0 < t.Plans.cap → t.Plans.arr ≠ some a := by
    intro j t hj ht hc hta
    rcases harr with ⟨hs, hsc⟩ | hs
    · exact hj (hdist j i t s a ht hget hta hs hc hsc)
    · have := hwf t (List.getElem?_mem ht)
      simp only [Slice.WF, hta] at this
      have := (this.2 hc).1
      omega
  refine ⟨?_, ?_, ?_⟩
  · simp only [WorldS.view, World.mk.injEq, and_true]
    apply List.ext_getElem?
    intro j
    by_cases hij : i = j
    · subst hij
      have hi : i < w.Services.length := by
        rcases Nat.lt_or_ge i w.Services.length with h1 | h1
        · exact h1
        · rw [List.getElem?_eq_none h1] at hget; cases hget
      simp [List.getElem?_map, List.getElem?_set, hi, ServiceS.view, helems]
    · simp only [List.getElem?_map, List.getElem?_set_ne hij]
      cases ht : w.Services[j]? with
      | none => rfl
      | some t =>
        simp only [Option.map_some', Option.some.injEq, ServiceS.view]
        rw [(hkeep j t (fun e => hij e.symm) ht).1]
  · intro t ht
    obtain ⟨j, hj⟩ := List.mem_iff_getElem?.1 ht
    rcases getElem?_set_cases hj with ⟨-, rfl⟩ | ⟨hji, hj⟩
    · exact hwf'
    · exact (hkeep j t hji hj).2
  · intro j k t1 t2 b h1 h2 hb1 hb2 hc1 hc2
    rcases getElem?_set_cases h1 with ⟨rfl, rfl⟩ | ⟨hji, g1⟩ <;>
      rcases getElem?_set_cases h2 with ⟨rfl, rfl⟩ | ⟨hki, g2⟩
    · rfl
    · exfalso
      have : b = a := by simpa [hsa] using hb1.symm
      subst this
      exact hnew k t2 hki g2 hc2 hb2
    · exfalso
      have : b = a := by simpa [hsa] using hb2.symm
      subst this
      exact hnew j t1 hji g1 hc1 hb1
    · exact hdist j k t1 t2 b g1 g2 hb1 hb2 hc1 hc2

theorem findServiceS_view (h : Heap) (l : List ServiceS) (id : String) :
    findService (l.map (ServiceS.view h)) id =
      match findServiceS l id with
      | .ok (i, s) => .ok (i, s.view h)
      | .error e => .error e := by
  induction l with
  | nil => rfl
  | cons t rest ih =>
    simp only [List.map_cons, findService, findServiceS]
    by_cases ht : t.ID = id
    · simp [ServiceS.view, ht]
    · have ht' : ¬ (ServiceS.view h t).ID = id := ht
      simp only [ht, ht', if_false]
      rw [ih]
      cases findServiceS rest id with
      | error e => rfl
      | ok r => rfl

theorem findServiceS_ok {l : List ServiceS} {id : String} {i : Nat} {s : ServiceS}
    (h : findServiceS l id = .ok (i, s)) : l[i]? = some s ∧ s.ID = id := by
  induction l generalizing i with
  | nil => simp [findServiceS] at h
  | cons t rest ih =>
    unfold findServiceS at h
    split at h
    · rename_i ht
      simp only [Except.ok.injEq, Prod.mk.injEq] at h
      obtain ⟨rfl, rfl⟩ := h
      exact ⟨by simp, ht⟩
    · split at h
      · rename_i j u hj
        simp only [Except.ok.injEq, Prod.mk.injEq] at h
        obtain ⟨rfl, rfl⟩ := h
        have := ih hj
        exact ⟨by simpa using this.1, this.2⟩
      · cases h

/-- The end of `addPlan` on slice values does what it does on lists, when the
services own their backing arrays; and they still do afterwards. -/
theorem addPlanS_finish_sim {grow : Nat → Nat} {env : Env} {w : WorldS} (hown : w.Owned)
    {i : Nat} {s : ServiceS} (hget : w.Services[i]? = some s) (p : Plan) (o : Values)
    (fs : List File) :
    (addPlanS.finish grow env w i s p o fs).view =
        addPlan.finish env w.view i (s.view w.heap) p o fs ∧
      ∀ v, addPlanS.finish grow env w i s p o fs = .ok v → v.Owned := by
  unfold addPlanS.finish addPlan.finish
  cases env.sqlOpen "postgres" (env.dbURI p.CRDBHost p.CRDBPort p.CRDBAdminUser "" "" o) with
  | some e => exact ⟨rfl, fun v h => by cases h⟩
  | none =>
    simp only
    cases happ : Slice.append (grow s.Plans.len) w.heap s.Plans { p with crdb := some ⟨"postgres",
      env.dbURI p.CRDBHost p.CRDBPort p.CRDBAdminUser "" "" o⟩ } with
    | mk s' h' =>
      obtain ⟨hv, ho⟩ := append_owned hown hget happ fs
      refine ⟨?_, ?_⟩
      · simp only [OutcomeS.view]
        rw [hv]
      · intro v h
        cases h
        exact ho

theorem addPlanS_require_sim {grow : Nat → Nat} {env : Env} {w : WorldS} (hown : w.Owned)
    {i : Nat} {s : ServiceS} (hget : w.Services[i]? = some s) (p : Plan) (o : Values)
    (fs : List File) :
    (addPlanS.require grow env w i s p o fs).view =
        addPlan.require env w.view i (s.view w.heap) p o fs ∧
      ∀ v, addPlanS.require grow env w i s p o fs = .ok v → v.Owned := by
  unfold addPlanS.require addPlan.require
  rcases createTempFile env fs "crdb-ssl-cert-" p.SSLCert with ⟨_ | cert, fs1⟩
  · exact ⟨rfl, fun v h => by cases h⟩
  · simp only
    rcases createTempFile env fs1 "crdb-ssl-key-" p.SSLKey with ⟨_ | key, fs2⟩
    · exact ⟨rfl, fun v h => by cases h⟩
    · exact addPlanS_finish_sim hown hget _ _ _

theorem addPlanS_switch_sim {grow : Nat → Nat} {env : Env} {w : WorldS} (hown : w.Owned)
    {i : Nat} {s : ServiceS} (hget : w.Services[i]? = some s) (p : Plan) (o : Values) :
    (addPlanS.switch grow env w i s p o).view =
        addPlan.switch env w.view i (s.view w.heap) p o ∧
      ∀ v, addPlanS.switch grow env w i s p o = .ok v → v.Owned := by
  unfold addPlanS.switch addPlan.switch
  by_cases h1 : p.SSLMode = "disable"
  · simp only [h1, if_true]
    exact addPlanS_finish_sim hown hget _ _ _
  · simp only [h1, if_false]
    by_cases h2 : p.SSLMode = "verify-ca" ∨ p.SSLMode = "verify-full"
    · simp only [h2, if_true]
      show (match createTempFile env w.files "crdb-ssl-ca-" p.SSLCACert with
        | (.error e, fs) => OutcomeS.fatal "init-ca-file" (.external e) { w with files := fs }
        | (.ok path, fs) => addPlanS.require grow env w i s { p with sslCAFile := path }
            (o.Add "sslrootcert" path) fs).view =
        (match createTempFile env w.files "crdb-ssl-ca-" p.SSLCACert with
        | (.error e, fs) => Outcome.fatal "init-ca-file" (.external e) { w.view with files := fs }
        | (.ok path, fs) => addPlan.require env w.view i (s.view w.heap)
            { p with sslCAFile := path } (o.Add "sslrootcert" path) fs) ∧ _
      rcases createTempFile env w.files "crdb-ssl-ca-" p.SSLCACert with ⟨_ | ca, fs1⟩
      · exact ⟨rfl, fun v h => by cases h⟩
      · exact addPlanS_require_sim hown hget _ _ _
    · simp only [h2, if_false]
      by_cases h3 : p.SSLMode = "require"
      · simp only [h3, if_true]
        exact addPlanS_require_sim hown hget _ _ _
      · simp only [h3, if_false]
        exact ⟨rfl, fun v h => by cases h⟩

/-- The function `addPlanS` once the owning service is found, in terms of the
resolved plan. -/
theorem addPlanS_of_find {grow : Nat → Nat} {env : Env} {w : WorldS} {p : Plan} {i : Nat}
    {s : ServiceS} (hsid : p.ServiceID ≠ "")
    (hfind : findServiceS w.Services p.ServiceID = .ok (i, s)) :
    addPlanS grow env w p =
      match addPlan.scan (addPlan.resolved env (s.view w.heap) p) (s.Plans.elems w.heap) with
      | some e => .fatal "init" e w
      | none =>
        if p.CRDBHost = "" ∨ p.CRDBPort = "" then .fatal "init" (.noHostPort p.Name) w
        else addPlanS.switch grow env w i s (addPlan.resolved env (s.view w.heap) p)
          [("sslmode", [p.SSLMode])] := by
  unfold addPlanS
  rw [if_neg hsid, hfind]
  by_cases h1 : p.ID = "" <;> by_cases h2 : p.CRDBAdminUser = "" <;>
    simp only [addPlan.resolved, ServiceS.view, h1, h2, if_true, if_false, Values.Add] <;>
    first
    | rfl
    | (congr 1; apply addPlan_scan_congr <;> rfl)

/-- Go `addPlan` on slice values does what it does on lists, when the services
own their backing arrays; and they still do afterwards. -/
theorem addPlanS_sim {grow : Nat → Nat} {env : Env} {w : WorldS} (hown : w.Owned)
    (p : Plan) :
    (addPlanS grow env w p).view = addPlan env w.view p ∧
      ∀ v, addPlanS grow env w p = .ok v → v.Owned := by
  by_cases hsid : p.ServiceID = ""
  · simp only [addPlanS, addPlan, hsid, if_true, OutcomeS.view]
    exact ⟨trivial, fun v h => by cases h⟩
  · have hv := findServiceS_view w.heap w.Services p.ServiceID
    cases hfind : findServiceS w.Services p.ServiceID with
    | error e =>
      rw [hfind] at hv
      have hv' : findService w.view.Services p.ServiceID = .error e := hv
      simp only [addPlanS, addPlan, hsid, if_false, hfind, hv', OutcomeS.view]
      exact ⟨trivial, fun v h => by cases h⟩
    | ok r =>
      obtain ⟨i, s⟩ := r
      rw [hfind] at hv
      have hv' : findService w.view.Services p.ServiceID = .ok (i, s.view w.heap) := hv
      rw [addPlanS_of_find hsid hfind, addPlan_of_find hsid hv']
      show (match addPlan.scan (addPlan.resolved env (s.view w.heap) p)
          (s.Plans.elems w.heap) with
        | some e => OutcomeS.fatal "init" e w
        | none =>
          if p.CRDBHost = "" ∨ p.CRDBPort = "" then .fatal "init" (.noHostPort p.Name) w
          else addPlanS.switch grow env w i s (addPlan.resolved env (s.view w.heap) p)
            [("sslmode", [p.SSLMode])]).view =
        (match addPlan.scan (addPlan.resolved env (s.view w.heap) p)
          (s.Plans.elems w.heap) with
        | some e => Outcome.fatal "init" e w.view
        | none =>
          if p.CRDBHost = "" ∨ p.CRDBPort = "" then .fatal "init" (.noHostPort p.Name) w.view
          else addPlan.switch env w.view i (s.view w.heap)
            (addPlan.resolved env (s.view w.heap) p) [("sslmode", [p.SSLMode])]) ∧ _
      cases addPlan.scan (addPlan.resolved env (s.view w.heap) p) (s.Plans.elems w.heap) with
      | some e => exact ⟨rfl, fun v h => by cases h⟩
      | none =>
        simp only
        by_cases hhp : p.CRDBHost = "" ∨ p.CRDBPort = ""
        · simp only [hhp, if_true]
          exact ⟨rfl, fun v h => by cases h⟩
        · simp only [hhp, if_false]
          exact addPlanS_switch_sim hown (findServiceS_ok hfind).1 _ _

theorem addServiceS_scan_view (h : Heap) (svc : ServiceS) (l : List ServiceS) :
    addService.scan (svc.view h) (l.map (ServiceS.view h)) = addServiceS.scan svc l := by
  induction l with
  | nil => rfl
  | cons t rest ih =>
    simp only [List.map_cons, addService.scan, addServiceS.scan, ih]
    rfl

/-- Go `addService` on slice values does what it does on lists. -/
theorem addServiceS_view (w : WorldS) (svc : ServiceS) :
    (addServiceS w svc).view = addService w.view (svc.view w.heap) := by
  unfold addServiceS addService
  by_cases hid : svc.ID = ""
  · have : (svc.view w.heap).ID = "" := hid
    simp only [hid, this, if_true, OutcomeS.view]
  · have : ¬ (svc.view w.heap).ID = "" := hid
    simp only [hid, this, if_false]
    have hs := addServiceS_scan_view w.heap svc w.Services
    have hs' : addService.scan (svc.view w.heap) w.view.Services =
        addServiceS.scan svc w.Services := hs
    rw [hs']
    cases addServiceS.scan svc w.Services with
    | some e => rfl
    | none => simp [OutcomeS.view, WorldS.view]

theorem addServiceS_ok_inv {w v : WorldS} {svc : ServiceS} (h : addServiceS w svc = .ok v) :
    v = { w with Services := w.Services ++ [svc] } := by
  unfold addServiceS at h
  split at h
  · cases h
  · split at h
    · cases h
    · simp only [OutcomeS.ok.injEq] at h
      exact h.symm

theorem getElem?_append_one {l : List ServiceS} {x t : ServiceS} {n : Nat}
    (h : (l ++ [x])[n]? = some t) :
    (n < l.length ∧ l[n]? = some t) ∨ (n = l.length ∧ t = x) := by
  rcases Nat.lt_or_ge n l.length with hlt | hge
  · rw [List.getElem?_append_left hlt] at h
    exact Or.inl ⟨hlt, h⟩
  · rw [List.getElem?_append_right hge] at h
    cases hm : n - l.length with
    | zero =>
      rw [hm] at h
      exact Or.inr ⟨by omega, by simpa using h.symm⟩
    | succ m => rw [hm] at h; simp at h

/-- Registering a service whose `Plans` shares no spare capacity keeps every
service the owner of its backing array. -/
theorem addServiceS_owned {w v : WorldS} {svc : ServiceS} (hown : w.Owned)
    (hadm : unsharedSlice w svc.Plans) (h : addServiceS w svc = .ok v) : v.Owned := by
  obtain ⟨hwf, hdist⟩ := hown
  obtain ⟨-, hsw, hfresh⟩ := hadm
  rw [addServiceS_ok_inv h]
  refine ⟨?_, ?_⟩
  · intro t ht
    simp only [List.mem_append, List.mem_singleton] at ht
    rcases ht with ht | rfl
    · exact hwf t ht
    · exact hsw
  · intro j k t1 t2 a h1 h2 ha1 ha2 hc1 hc2
    simp only at h1 h2
    rcases getElem?_append_one h1 with ⟨-, g1⟩ | ⟨rfl, rfl⟩ <;>
      rcases getElem?_append_one h2 with ⟨-, g2⟩ | ⟨rfl, rfl⟩
    · exact hdist j k t1 t2 a g1 g2 ha1 ha2 hc1 hc2
    · exact absurd ha1 (hfresh a ha2 hc2 t1 (List.getElem?_mem g1) hc1)
    · exact absurd ha2 (hfresh a ha1 hc1 t2 (List.getElem?_mem g2) hc2)
    · rfl

/-- The elements of such a slice: none. -/
theorem unsharedSlice_elems {w : WorldS} {s : Slice} (h : unsharedSlice w s) :
    s.elems w.heap = [] := by
  have := Slice.elems_length h.2.1
  rw [h.1] at this
  exact List.length_eq_zero.mp this

/-- States reached with services whose `Plans` shares no spare capacity: the
services own their backing arrays, and the denoted registry is reached by the
same calls on lists. -/
theorem reachableS_unshared {grow : Nat → Nat} {env : Env} {w : WorldS}
    (h : ReachableS unsharedSlice grow env w) : w.Owned ∧ Reachable env w.view := by
  induction h with
  | empty heap fs =>
    refine ⟨⟨by simp, ?_⟩, Reachable.empty fs⟩
    intro i j s t a hi
    simp at hi
  | @service w v svc _ hadm hadd ih =>
    refine ⟨addServiceS_owned ih.1 hadm hadd, ?_⟩
    have hv := addServiceS_view w svc
    rw [hadd] at hv
    exact Reachable.service (svc.view w.heap) ih.2 (unsharedSlice_elems hadm) hv.symm
  | @plan w v p _ hadd ih =>
    obtain ⟨hv, ho⟩ := @addPlanS_sim grow env w ih.1 p
    rw [hadd] at hv
    exact ⟨ho v hadd, Reachable.plan p ih.2 hv.symm⟩

/-- The services of the denoted registry, by id and by name. -/
theorem view_services_fields (w : WorldS) :
    w.view.Services.map (fun s => s.ID) = w.Services.map (fun s => s.ID) ∧
      w.view.Services.map (fun s => s.Name) = w.Services.map (fun s => s.Name) := by
  simp [WorldS.view, List.map_map, Function.comp_def, ServiceS.view]

theorem mem_view {w : WorldS} {s : ServiceS} (hs : s ∈ w.Services) :
    s.view w.heap ∈ w.view.Services :=
  List.mem_map.mpr ⟨s, hs, rfl⟩

/-- A successful `addPlan` on slice values, in a registry whose services own
their backing arrays, is a successful `addPlan` on the denoted registry, for the
service that `findServiceS` finds. -/
theorem addPlanS_ok_view {grow : Nat → Nat} {env : Env} {w v : WorldS} {p : Plan}
    (hown : w.Owned) (h : addPlanS grow env w p = .ok v) :
    addPlan env w.view p = .ok v.view ∧
      ∃ (i : Nat) (s : ServiceS), findServiceS w.Services p.ServiceID = .ok (i, s) ∧
        findService w.view.Services p.ServiceID = .ok (i, s.view w.heap) := by
  have hv := (@addPlanS_sim grow env w hown p).1
  rw [h] at hv
  have hv' : addPlan env w.view p = .ok v.view := hv.symm
  refine ⟨hv', ?_⟩
  have hf := findServiceS_view w.heap w.Services p.ServiceID
  cases hfind : findServiceS w.Services p.ServiceID with
  | error e =>
    rw [hfind] at hf
    obtain ⟨i, s, -, hfs, -⟩ := addPlan_ok_inv hv'
    have hf' : findService w.view.Services p.ServiceID = .error e := hf
    rw [hfs] at hf'
    cases hf'
  | ok r =>
    obtain ⟨i, s⟩ := r
    rw [hfind] at hf
    exact ⟨i, s, rfl, hf⟩

theorem reachableS_worldSharedS3 : ReachableS noPlansSlice growNone envOk worldSharedS3 :=
  .plan planB2 (.plan planA2 (.plan planA1
    (.service svcSharedB
      (.service svcSharedA (.empty [[({} : Plan), {}]] [])
        ⟨rfl, by decide, fun _ => ⟨by decide, by decide⟩⟩
        (v := ⟨[svcSharedA], [[({} : Plan), {}]], []⟩) (by decide))
      ⟨rfl, by decide, fun _ => ⟨by decide, by decide⟩⟩ (v := worldSharedS0) (by decide))
    (v := worldSharedS1) (by decide)) (v := worldSharedS2) (by decide)) (by decide)

theorem reachableS_worldOwnedS4 : ReachableS unsharedSlice growSame envOk worldOwnedS4 :=
  .plan planB2 (.plan planA3 (.plan planA2 (.plan planA1
    (.service svcSharedB
      (.service svcNilA (.empty [[({} : Plan), {}]] [])
        ⟨rfl, rfl, fun a h => by cases h⟩
        (v := ⟨[svcNilA], [[({} : Plan), {}]], []⟩) (by decide))
      ⟨rfl, ⟨by decide, fun _ => ⟨by decide, by decide⟩⟩, by
        intro a _ _ t ht hc
        simp only [List.mem_singleton] at ht
        subst ht
        exact absurd hc (by decide)⟩
      (v := worldOwnedS0) (by decide))
    (v := worldOwnedS1) (by decide)) (v := worldOwnedS2) (by decide))
    (v := worldOwnedS3) (by decide)) (by decide)

/-! ## Lemmas on custom plans and decimal rendering -/

/-- The digit loop of `Nat.repr` yields the decimal digits, most significant
first. -/
theorem toDigitsCore_digits :
    ∀ (fuel n : Nat) (ds : List Char), n < fuel → 0 < n →
      Nat.toDigitsCore 10 fuel n ds = (Nat.digits 10 n).reverse.map Nat.digitChar ++ ds := by
  intro fuel
  induction fuel with
  | zero => intro n ds h; omega
  | succ f ih =>
    intro n ds hlt hpos
    rw [Nat.digits_def' (by decide) hpos]
    simp only [Nat.toDigitsCore]
    split
    · rename_i h0
      rw [h0]
      simp
    · rename_i h0
      have hq : 0 < n / 10 := Nat.pos_of_ne_zero h0
      have hlt2 : n / 10 < f := by omega
      rw [ih (n / 10) _ hlt2 hq]
      simp

/-- Go `strconv.Itoa` on a positive integer: its decimal digits, most
significant first. -/
theorem Itoa_pos (n : Nat) (h : 0 < n) :
    (Itoa (n : Int)).toList = (Nat.digits 10 n).reverse.map Nat.digitChar := by
  have hform : Itoa (n : Int) = ⟨Nat.toDigits 10 n⟩ := rfl
  rw [hform]
  show Nat.toDigits 10 n = _
  unfold Nat.toDigits
  rw [toDigitsCore_digits (n + 1) n [] (by omega) h]
  simp

/-- Go `strconv.Itoa` on a negative integer: a minus sign, then the decimal
digits of its absolute value. -/
theorem Itoa_neg (n : Nat) :
    (Itoa (Int.negSucc n)).toList =
      '-' :: (Nat.digits 10 (n + 1)).reverse.map Nat.digitChar := by
  have hform : Itoa (Int.negSucc n) = "-" ++ Itoa ((n + 1 : Nat) : Int) := rfl
  rw [hform, String.toList, String.data_append]
  show '-' :: (Itoa ((n + 1 : Nat) : Int)).toList = _
  rw [Itoa_pos (n + 1) (by omega)]

/-- Map index at a key of the map: an entry of the map. -/
theorem mapIndex_mem (cp : PlanMap) (k : String) (hk : k ∈ cp.map Prod.fst) :
    (k, mapIndex cp k) ∈ cp := by
  induction cp with
  | nil => simp at hk
  | cons kv rest ih =>
    obtain ⟨k2, v2⟩ := kv
    by_cases h2 : k2 = k
    · subst h2
      simp [mapIndex]
    · simp only [List.map_cons, List.mem_cons] at hk
      rcases hk with hk | hk
      · exact absurd hk.symm h2
      · simp only [mapIndex, h2, if_false]
        exact List.mem_cons_of_mem _ (ih hk)

/-- Every plan built comes from an entry of the map. -/
theorem mem_build_entry {cp : PlanMap} {p : Plan} (h : p ∈ createCustomPlans.build cp) :
    ∃ k spec, (k, spec) ∈ cp ∧ p = createCustomPlans.plan spec := by
  unfold createCustomPlans.build at h
  obtain ⟨k, hk, rfl⟩ := List.mem_map.mp h
  have hk2 : k ∈ cp.map Prod.fst := (sortStrings_perm _).mem_iff.mp hk
  exact ⟨k, mapIndex cp k, mapIndex_mem cp k hk2, rfl⟩

/-- Every entry of the map yields a plan, and there is one plan per entry. -/
theorem build_of_entry {cp : PlanMap} (hnd : (cp.map Prod.fst).Nodup) :
    (createCustomPlans.build cp).length = cp.length ∧
      ∀ k spec, (k, spec) ∈ cp → createCustomPlans.plan spec ∈ createCustomPlans.build cp := by
  unfold createCustomPlans.build
  refine ⟨?_, ?_⟩
  · simp only [List.length_map]
    rw [(sortStrings_perm _).length_eq, List.length_map]
  · intro k spec h
    have hk : k ∈ sortStrings (cp.map Prod.fst) :=
      (sortStrings_perm _).mem_iff.mpr (List.mem_map.mpr ⟨(k, spec), h, rfl⟩)
    exact List.mem_map.mpr ⟨k, hk, by rw [mapIndex_of_mem cp hnd k spec h]⟩

theorem createCustomPlans_ok_inv {inp : Input} {json : String} {plans : List Plan}
    (hc : createCustomPlans inp json = .ok plans) :
    (json = "" ∧ plans = []) ∨
      (json ≠ "" ∧ ∃ cp, inp.unmarshalCustomPlans json = .ok cp ∧
        plans = createCustomPlans.build cp) := by
  unfold createCustomPlans at hc
  split at hc
  · rename_i h0
    simp only [Except.ok.injEq] at hc
    exact Or.inl ⟨h0, hc.symm⟩
  · rename_i h0
    split at hc
    · cases hc
    · rename_i cp hcp
      simp only [Except.ok.injEq] at hc
      exact Or.inr ⟨h0, cp, hcp, hc.symm⟩

/-! ## Claims -/

/-- C1: for a non-empty list of services with non-empty, pairwise distinct ids and
pairwise distinct names, registering them in order from the empty registry hits
no fatal error and leaves the registry equal to the list (the filesystem
untouched); afterwards `findService s.ID` returns, without error, a pointer to
exactly the entry `s`, for every `s` of the list. -/
theorem addServices_registers_all (fs : List File) (l : List Service) (hne : l ≠ [])
    (hid : ∀ s ∈ l, s.ID ≠ "")
    (hids : (l.map (fun s => s.ID)).Nodup)
    (hnames : (l.map (fun s => s.Name)).Nodup) :
    addServices ⟨[], fs⟩ l = .ok ⟨l, fs⟩ ∧
      ∀ s ∈ l, ∃ i, findService l s.ID = .ok (i, s) ∧ l[i]? = some s := by
  have _ := hne
  refine ⟨?_, fun s hs => findService_of_mem l s hids hs⟩
  simpa using addServices_append fs l [] hid (by simpa using hids) (by simpa using hnames)

/-- Witness of C1 on two services. -/
theorem addServices_registers_all_witness :
    addServices ⟨[], []⟩ [⟨"crdb", "cockroachdb", "", []⟩, ⟨"pg", "postgres", "x", []⟩] =
        .ok ⟨[⟨"crdb", "cockroachdb", "", []⟩, ⟨"pg", "postgres", "x", []⟩], []⟩ ∧
      ∀ s ∈ [(⟨"crdb", "cockroachdb", "", []⟩ : Service), ⟨"pg", "postgres", "x", []⟩],
        ∃ i, findService [⟨"crdb", "cockroachdb", "", []⟩, ⟨"pg", "postgres", "x", []⟩] s.ID
            = .ok (i, s) ∧
          [(⟨"crdb", "cockroachdb", "", []⟩ : Service), ⟨"pg", "postgres", "x", []⟩][i]? = some s :=
  addServices_registers_all [] [⟨"crdb", "cockroachdb", "", []⟩, ⟨"pg", "postgres", "x", []⟩]
    (by decide) (by decide) (by decide) (by decide)

/-- C2: `addService svc` fails fatally exactly when `svc.ID` is empty or a
registered service has the same name or the same id (no other field is looked
at); a failure leaves the world unchanged, a success appends `svc` at the end of
the registry. -/
theorem addService_fatal_iff (w : World) (svc : Service) :
    ((svc.ID = "" ∨ ∃ s ∈ w.Services, s.Name = svc.Name ∨ s.ID = svc.ID) ∧
        ∃ a e, addService w svc = .fatal a e w) ∨
      (¬ (svc.ID = "" ∨ ∃ s ∈ w.Services, s.Name = svc.Name ∨ s.ID = svc.ID) ∧
        addService w svc = .ok { w with Services := w.Services ++ [svc] }) := by
  by_cases h0 : svc.ID = ""
  · exact Or.inl ⟨Or.inl h0, "init", .serviceIdRequired, by simp [addService, h0]⟩
  · cases hscan : addService.scan svc w.Services with
    | some e =>
      have hex : ∃ s ∈ w.Services, s.Name = svc.Name ∨ s.ID = svc.ID := by
        by_contra hcon
        have : addService.scan svc w.Services = none := by
          rw [addService_scan_none_iff]
          intro s hs hor
          exact hcon ⟨s, hs, hor⟩
        rw [this] at hscan
        cases hscan
      exact Or.inl ⟨Or.inr hex, "init", e, by simp [addService, h0, hscan]⟩
    | none =>
      rw [addService_scan_none_iff] at hscan
      refine Or.inr ⟨?_, ?_⟩
      · rintro (h | ⟨s, hs, hor⟩)
        · exact h0 h
        · exact hscan s hs hor
      · have : addService.scan svc w.Services = none := by
          rw [addService_scan_none_iff]; exact hscan
        simp [addService, h0, this]

/-- C3, as stated, fails.  Services `a` and `b` are registered carrying no plans,
their `Plans` the same empty slice with spare capacity.  Plans `id1/n1` and
`id2/n2` are added to `a`, then `id2/n2` to `b`: the append for `b` writes into
the array `a` points into, and `a` holds two plans named `n2` with id `id2`. -/
theorem registry_uniqueness_fails_on_shared_slice :
    ReachableS noPlansSlice growNone envOk worldSharedS3 ∧
      ∃ s ∈ worldSharedS3.Services, s.ID = "a" ∧
        (s.Plans.elems worldSharedS3.heap).map (fun p => (p.ID, p.Name)) =
            [("id2", "n2"), ("id2", "n2")] ∧
          ¬ ((s.Plans.elems worldSharedS3.heap).map (fun p => p.Name)).Nodup ∧
          ¬ ((s.Plans.elems worldSharedS3.heap).map (fun p => p.ID)).Nodup :=
  ⟨reachableS_worldSharedS3, by decide⟩

/-- C3 amended: uniqueness invariant, for services that share no spare capacity.
In every registry state reached from the empty registry by successful
`addService` calls, with services carrying no plans whose `Plans` slice has
capacity 0 (nil, as JSON decoding leaves it) or points into a backing array that
no service registered before points into, and successful `addPlan` calls, every
service has a non-empty id, no two services share an id or a name, and within
each service no two plans share a name or a (stored, i.e. explicit or derived)
id.  The growth policy of `append` is arbitrary. -/
theorem registry_uniqueness_invariant (grow : Nat → Nat) (env : Env) (w : WorldS)
    (h : ReachableS unsharedSlice grow env w) :
    (∀ s ∈ w.Services, s.ID ≠ "") ∧
      (w.Services.map (fun s => s.ID)).Nodup ∧
      (w.Services.map (fun s => s.Name)).Nodup ∧
      ∀ s ∈ w.Services,
        ((s.Plans.elems w.heap).map (fun p => p.Name)).Nodup ∧
          ((s.Plans.elems w.heap).map (fun p => p.ID)).Nodup := by
  obtain ⟨h1, h2, h3, h4⟩ := reachable_unique (reachableS_unshared h).2
  obtain ⟨e1, e2⟩ := view_services_fields w
  rw [e1] at h2
  rw [e2] at h3
  exact ⟨fun s hs => h1 _ (mem_view hs), h2, h3, fun s hs => h4 _ (mem_view hs)⟩

/-- Witness of C3 amended: service `a` registered with nil `Plans`, service `b`
with a slice of capacity 2 of its own; three plans added to `a` (two arrays
allocated, one append in place) and then one to `b`, which has the id and name of
a plan of `a`. -/
theorem registry_uniqueness_invariant_witness :
    ReachableS unsharedSlice growSame envOk worldOwnedS4 ∧
      worldOwnedS4.Services.map
          (fun s => (s.ID, (s.Plans.elems worldOwnedS4.heap).map (fun p => (p.ID, p.Name)))) =
        [("a", [("id1", "n1"), ("id2", "n2"), ("A/n3", "n3")]), ("b", [("id2", "n2")])] ∧
      ((∀ s ∈ worldOwnedS4.Services, s.ID ≠ "") ∧
        (worldOwnedS4.Services.map (fun s => s.ID)).Nodup ∧
        (worldOwnedS4.Services.map (fun s => s.Name)).Nodup ∧
        ∀ s ∈ worldOwnedS4.Services,
          ((s.Plans.elems worldOwnedS4.heap).map (fun p => p.Name)).Nodup ∧
            ((s.Plans.elems worldOwnedS4.heap).map (fun p => p.ID)).Nodup) :=
  ⟨reachableS_worldOwnedS4, by decide,
    registry_uniqueness_invariant growSame envOk worldOwnedS4 reachableS_worldOwnedS4⟩

/-- C4: a plan whose `ServiceID` is empty, or is the id of no registered service,
makes `addPlan` fail fatally (action `init`) with the world exactly as it was:
the files on disk and the registry are unchanged.  The outcome is the same in
every environment, so neither `createTempFile` nor `sql.Open` was consulted. -/
theorem addPlan_unknown_service_fatal (w : World) (p : Plan)
    (h : p.ServiceID = "" ∨ ∀ s ∈ w.Services, s.ID ≠ p.ServiceID) :
    ∃ e, ∀ env : Env, addPlan env w p = .fatal "init" e w := by
  by_cases hs : p.ServiceID = ""
  · exact ⟨.planServiceIdRequired, fun env => by simp [addPlan, hs]⟩
  · have hall : ∀ s ∈ w.Services, s.ID ≠ p.ServiceID := by
      rcases h with h | h
      · exact absurd h hs
      · exact h
    obtain ⟨e, he⟩ := (findService_error_iff w.Services p.ServiceID).mpr hall
    exact ⟨.unknownServiceIdInPlan p.ServiceID, fun env => by simp [addPlan, hs, he]⟩

/-- Witness of C4: a plan for service `nope` against the registry `[crdb, pg]`. -/
theorem addPlan_unknown_service_fatal_witness :
    ("nope" = "" ∨ ∀ s ∈ worldTwoServices.Services, s.ID ≠ "nope") ∧
      ∃ e, ∀ env : Env, addPlan env worldTwoServices
        { Name := "x", ServiceID := "nope", CRDBHost := "h", CRDBPort := "1",
          SSLMode := "require" } = .fatal "init" e worldTwoServices :=
  ⟨Or.inr (by decide),
    addPlan_unknown_service_fatal worldTwoServices
      { Name := "x", ServiceID := "nope", CRDBHost := "h", CRDBPort := "1", SSLMode := "require" }
      (Or.inr (by decide))⟩

/-- C5: when `addPlan p` succeeds, the owning service (the one `p.ServiceID`
resolves to) has one plan appended, whose id is `generatePlanID s.Name p.Name`,
built from the NAME of that service and the name of the plan, when `p.ID` is
empty, and is `p.ID` unchanged otherwise.  So a derived id depends only on the
two names: any other successful run (other registry, other filesystem, other
plan fields) with the same `generatePlanID`, an empty id, the same plan name and
an owning service of the same name stores the same id. -/
theorem addPlan_stored_id (env : Env) (w v : World) (p : Plan)
    (h : addPlan env w p = .ok v) :
    ∃ i s q, findService w.Services p.ServiceID = .ok (i, s) ∧
      v.Services = w.Services.set i { s with Plans := s.Plans ++ [q] } ∧
      v.Services[i]? = some { s with Plans := s.Plans ++ [q] } ∧
      (p.ID = "" → q.ID = env.generatePlanID s.Name p.Name) ∧
      (p.ID ≠ "" → q.ID = p.ID) ∧
      ∀ (env2 : Env) (w2 v2 : World) (p2 : Plan),
        env2.generatePlanID = env.generatePlanID → addPlan env2 w2 p2 = .ok v2 →
        p.ID = "" → p2.ID = "" → p2.Name = p.Name →
        ∃ j t r, findService w2.Services p2.ServiceID = .ok (j, t) ∧
          v2.Services[j]? = some { t with Plans := t.Plans ++ [r] } ∧
          (t.Name = s.Name → r.ID = q.ID) := by
  obtain ⟨i, s, q, hfind, hv, -, hid, -, -⟩ := addPlan_ok_stored h
  obtain ⟨hget, -⟩ := findService_ok hfind
  obtain ⟨hlt, -⟩ := List.getElem?_eq_some_iff.mp hget
  refine ⟨i, s, q, hfind, hv, ?_, ?_, ?_, ?_⟩
  · rw [hv]; simp [hlt]
  · intro h0; simpa [h0] using hid
  · intro h0; simpa [h0] using hid
  · intro env2 w2 v2 p2 hgen h2 h0 h02 hname
    obtain ⟨j, t, r, hfind2, hv2, -, hid2, -, -⟩ := addPlan_ok_stored h2
    obtain ⟨hget2, -⟩ := findService_ok hfind2
    obtain ⟨hlt2, -⟩ := List.getElem?_eq_some_iff.mp hget2
    refine ⟨j, t, r, hfind2, by rw [hv2]; simp [hlt2], ?_⟩
    intro hts
    rw [hid2, hid, if_pos h0, if_pos h02, hgen, hts, hname]

/-- Witness of C5: `free` under `crdb` (named `cockroachdb`) gets the derived id. -/
theorem addPlan_stored_id_witness :
    addPlan envOk ⟨[svcCrdb], []⟩ planFree = .ok worldFree ∧
      ∃ i s q, findService [svcCrdb] planFree.ServiceID = .ok (i, s) ∧
        worldFree.Services = [svcCrdb].set i { s with Plans := s.Plans ++ [q] } ∧
        worldFree.Services[i]? = some { s with Plans := s.Plans ++ [q] } ∧
        (planFree.ID = "" → q.ID = envOk.generatePlanID s.Name planFree.Name) ∧
        (planFree.ID ≠ "" → q.ID = planFree.ID) ∧
        ∀ (env2 : Env) (w2 v2 : World) (p2 : Plan),
          env2.generatePlanID = envOk.generatePlanID → addPlan env2 w2 p2 = .ok v2 →
          planFree.ID = "" → p2.ID = "" → p2.Name = planFree.Name →
          ∃ j t r, findService w2.Services p2.ServiceID = .ok (j, t) ∧
            v2.Services[j]? = some { t with Plans := t.Plans ++ [r] } ∧
            (t.Name = s.Name → r.ID = q.ID) :=
  ⟨by decide, addPlan_stored_id envOk ⟨[svcCrdb], []⟩ worldFree planFree (by decide)⟩

/-- C6, as stated, fails: the registry reached by registering `crdb` and `pg` and
then one plan under each with the explicit id `shared` holds two plans with the
same id.  The same on slice values: with service `a` registered with nil `Plans`
and service `b` with a slice of its own, `a` and `b` each hold a plan with id
`id2`.  And when two services are registered with the same empty slice with
spare capacity, one service comes to hold two plans with the same id. -/
theorem plan_ids_not_process_unique :
    (Reachable envOk worldShared ∧
      ¬ ((worldShared.Services.flatMap (fun s => s.Plans)).map (fun p => p.ID)).Nodup) ∧
    (ReachableS unsharedSlice growSame envOk worldOwnedS4 ∧
      ¬ ((worldOwnedS4.Services.flatMap (fun s => s.Plans.elems worldOwnedS4.heap)).map
        (fun p => p.ID)).Nodup) ∧
    (ReachableS noPlansSlice growNone envOk worldSharedS3 ∧
      ∃ s ∈ worldSharedS3.Services,
        ¬ ((s.Plans.elems worldSharedS3.heap).map (fun p => p.ID)).Nodup) :=
  ⟨⟨reachable_worldShared, by decide⟩, ⟨reachableS_worldOwnedS4, by decide⟩,
    ⟨reachableS_worldSharedS3, by decide⟩⟩

/-- C6 amended: plan ids are unique within each service only, and there for
services that share no spare capacity.  In every registry state reached from the
empty registry by successful `addService` calls, with services carrying no plans
whose `Plans` slice has capacity 0 (nil, as JSON decoding leaves it) or points
into a backing array that no service registered before points into, and
successful `addPlan` calls, two plans of the same service at different positions
have different ids.  The growth policy of `append` is arbitrary. -/
theorem plan_ids_unique_within_service (grow : Nat → Nat) (env : Env) (w : WorldS)
    (h : ReachableS unsharedSlice grow env w) :
    ∀ s ∈ w.Services, ∀ a b : Nat, ∀ p q : Plan,
      (s.Plans.elems w.heap)[a]? = some p → (s.Plans.elems w.heap)[b]? = some q →
      a ≠ b → p.ID ≠ q.ID := by
  intro s hs a b p q ha hb hab hpq
  have hnd := ((reachable_unique (reachableS_unshared h).2).2.2.2 _ (mem_view hs)).2
  exact nodup_map_index_ne (fun r : Plan => r.ID) (s.Plans.elems w.heap) hnd ha hb hab hpq

/-- Witness of C6 amended: service `a` (nil `Plans`) holds three plans, so the
premise is met at every pair of its positions, and service `b` holds a plan with
the id of the second plan of `a`. -/
theorem plan_ids_unique_within_service_witness :
    ReachableS unsharedSlice growSame envOk worldOwnedS4 ∧
      worldOwnedS4.Services.map
          (fun s => (s.ID, (s.Plans.elems worldOwnedS4.heap).map (fun p => p.ID))) =
        [("a", ["id1", "id2", "A/n3"]), ("b", ["id2"])] ∧
      ∀ s ∈ worldOwnedS4.Services, ∀ a b : Nat, ∀ p q : Plan,
        (s.Plans.elems worldOwnedS4.heap)[a]? = some p →
        (s.Plans.elems worldOwnedS4.heap)[b]? = some q → a ≠ b → p.ID ≠ q.ID :=
  ⟨reachableS_worldOwnedS4, by decide,
    plan_ids_unique_within_service growSame envOk worldOwnedS4 reachableS_worldOwnedS4⟩

/-- C7: for a plan (its tracked paths empty on input, as for every decoded plan)
on which `addPlan` passes validation and every `createTempFile` call succeeds
(`addPlan` returns, or fails only at `sql.Open`), the files created are fixed by
the SSL mode.  `disable`: none, whatever the credential fields hold, and the
stored plan tracks three empty paths.  `require`: exactly two new files, the
certificate and the key, and the tracked CA path is empty.  `verify-ca` or
`verify-full`: exactly three, CA, certificate, key.  The new paths are fresh and
distinct, and the stored plan tracks exactly them. -/
theorem addPlan_files_by_mode (env : Env) (w : World) (p : Plan)
    (hfresh : p.sslCAFile = "" ∧ p.sslCertFile = "" ∧ p.sslKeyFile = "")
    (hok : (addPlan env w p).failure = none ∨
      ∃ e, (addPlan env w p).failure = some ("init-setup-db", e)) :
    (p.SSLMode = "disable" ∧ (addPlan env w p).world.files = w.files ∧
        ∀ v, addPlan env w p = .ok v → ∃ i s q,
          findService w.Services p.ServiceID = .ok (i, s) ∧
          v.Services = w.Services.set i { s with Plans := s.Plans ++ [q] } ∧
          q.sslCAFile = "" ∧ q.sslCertFile = "" ∧ q.sslKeyFile = "") ∨
      (p.SSLMode = "require" ∧ ∃ cert key,
        cert ≠ "" ∧ key ≠ "" ∧ cert ≠ key ∧
        cert ∉ w.files.map Prod.fst ∧ key ∉ w.files.map Prod.fst ∧
        (addPlan env w p).world.files = w.files ++ [(cert, p.SSLCert), (key, p.SSLKey)] ∧
        ∀ v, addPlan env w p = .ok v → ∃ i s q,
          findService w.Services p.ServiceID = .ok (i, s) ∧
          v.Services = w.Services.set i { s with Plans := s.Plans ++ [q] } ∧
          q.sslCAFile = "" ∧ q.sslCertFile = cert ∧ q.sslKeyFile = key) ∨
      ((p.SSLMode = "verify-ca" ∨ p.SSLMode = "verify-full") ∧ ∃ ca cert key,
        ca ≠ "" ∧ cert ≠ "" ∧ key ≠ "" ∧ ca ≠ cert ∧ ca ≠ key ∧ cert ≠ key ∧
        ca ∉ w.files.map Prod.fst ∧ cert ∉ w.files.map Prod.fst ∧
        key ∉ w.files.map Prod.fst ∧
        (addPlan env w p).world.files =
          w.files ++ [(ca, p.SSLCACert), (cert, p.SSLCert), (key, p.SSLKey)] ∧
        ∀ v, addPlan env w p = .ok v → ∃ i s q,
          findService w.Services p.ServiceID = .ok (i, s) ∧
          v.Services = w.Services.set i { s with Plans := s.Plans ++ [q] } ∧
          q.sslCAFile = ca ∧ q.sslCertFile = cert ∧ q.sslKeyFile = key) := by
  obtain ⟨hf1, hf2, hf3⟩ := hfresh
  -- the run reached the switch, on the resolved plan
  have hsw : ∃ i s, findService w.Services p.ServiceID = .ok (i, s) ∧
      addPlan.switch env w i s (addPlan.resolved env s p) [("sslmode", [p.SSLMode])] =
        addPlan env w p := by
    cases hO : addPlan env w p with
    | ok v =>
      obtain ⟨i, s, -, hfind, -, -, -, h⟩ := addPlan_ok_inv hO
      exact ⟨i, s, hfind, h⟩
    | fatal a e v =>
      rcases addPlan_fatal_inv hO with ⟨ha, -⟩ | ⟨i, s, -, hfind, -, -, -, h⟩
      · rw [hO] at hok
        rcases hok with hok | ⟨e1, hok⟩
        · simp [Outcome.failure] at hok
        · simp only [Outcome.failure, Option.some.injEq, Prod.mk.injEq] at hok
          rw [ha] at hok
          exact absurd hok.1 (by decide)
      · exact ⟨i, s, hfind, h⟩
  obtain ⟨i, s, hfind, hrun⟩ := hsw
  obtain ⟨-, -, -, -, -, -, hmode, hcert, hkey, hcacert, hca0, hcert0, hkey0⟩ :=
    addPlan_resolved_fields env s p
  rcases addPlan_switch_written hrun hok with ⟨hm, hfiles⟩ | ⟨hm, cert, key, hc, hk, hfiles⟩ |
      ⟨hm, ca, cert, key, hca, hc, hk, hfiles⟩
  · refine Or.inl ⟨hmode ▸ hm, hfiles, ?_⟩
    intro v hv
    rw [hv] at hrun
    rcases addPlan_switch_ok hrun with ⟨-, rfl⟩ | ⟨hm2, -⟩ | ⟨hm2, -⟩
    · exact ⟨i, s, _, hfind, rfl, by simp [hca0, hf1], by simp [hcert0, hf2],
        by simp [hkey0, hf3]⟩
    · rw [hm] at hm2; exact absurd hm2 (by decide)
    · rw [hm] at hm2; exact absurd hm2 (by decide)
  · obtain ⟨-, hc1, hc2, -⟩ := createTempFile_ok hc
    obtain ⟨-, hk1, hk2, -⟩ := createTempFile_ok hk
    simp only [List.map_append, List.map_cons, List.map_nil, List.mem_append,
      List.mem_singleton, not_or] at hk2
    rw [hcert, hkey] at hfiles
    refine Or.inr (Or.inl ⟨hmode ▸ hm, cert, key, hc1, hk1, fun h => hk2.2 h.symm, hc2, hk2.1,
      hfiles, ?_⟩)
    intro v hv
    rw [hv] at hrun
    rcases addPlan_switch_ok hrun with ⟨hm2, -⟩ | ⟨-, cert2, key2, hc', hk', rfl⟩ | ⟨hm2, -⟩
    · rw [hm] at hm2; exact absurd hm2 (by decide)
    · rw [hc] at hc'
      simp only [Prod.mk.injEq, Except.ok.injEq] at hc'
      obtain ⟨rfl, -⟩ := hc'
      rw [hk] at hk'
      simp only [Prod.mk.injEq, Except.ok.injEq] at hk'
      obtain ⟨rfl, -⟩ := hk'
      exact ⟨i, s, _, hfind, rfl, by simp [hca0, hf1], rfl, rfl⟩
    · rw [hm] at hm2; rcases hm2 with h | h <;> exact absurd h (by decide)
  · obtain ⟨-, ha1, ha2, -⟩ := createTempFile_ok hca
    obtain ⟨-, hc1, hc2, -⟩ := createTempFile_ok hc
    obtain ⟨-, hk1, hk2, -⟩ := createTempFile_ok hk
    simp only [List.map_append, List.map_cons, List.map_nil, List.mem_append,
      List.mem_singleton, List.mem_cons, List.not_mem_nil, or_false, not_or] at hc2 hk2
    rw [hcert, hkey, hcacert] at hfiles
    refine Or.inr (Or.inr ⟨hmode ▸ hm, ca, cert, key, ha1, hc1, hk1, fun h => hc2.2 h.symm,
      fun h => hk2.2.1 h.symm, fun h => hk2.2.2 h.symm, ha2, hc2.1, hk2.1, hfiles, ?_⟩)
    intro v hv
    rw [hv] at hrun
    rcases addPlan_switch_ok hrun with ⟨hm2, -⟩ | ⟨hm2, -⟩ |
        ⟨-, ca2, cert2, key2, hca', hc', hk', rfl⟩
    · rcases hm with h | h <;> (rw [h] at hm2; exact absurd hm2 (by decide))
    · rcases hm with h | h <;> (rw [h] at hm2; exact absurd hm2 (by decide))
    · rw [hca] at hca'
      simp only [Prod.mk.injEq, Except.ok.injEq] at hca'
      obtain ⟨rfl, -⟩ := hca'
      rw [hc] at hc'
      simp only [Prod.mk.injEq, Except.ok.injEq] at hc'
      obtain ⟨rfl, -⟩ := hc'
      rw [hk] at hk'
      simp only [Prod.mk.injEq, Except.ok.injEq] at hk'
      obtain ⟨rfl, -⟩ := hk'
      exact ⟨i, s, _, hfind, rfl, rfl, rfl, rfl⟩

/-- Witness of C7: a `verify-full` plan under `crdb`, every write succeeding. -/
theorem addPlan_files_by_mode_witness :
    (addPlan envOk ⟨[svcCrdb], []⟩ planVerifyFull).failure = none ∧
      ((planVerifyFull.SSLMode = "disable" ∧
          (addPlan envOk ⟨[svcCrdb], []⟩ planVerifyFull).world.files = [] ∧
          ∀ v, addPlan envOk ⟨[svcCrdb], []⟩ planVerifyFull = .ok v → ∃ i s q,
            findService [svcCrdb] planVerifyFull.ServiceID = .ok (i, s) ∧
            v.Services = [svcCrdb].set i { s with Plans := s.Plans ++ [q] } ∧
            q.sslCAFile = "" ∧ q.sslCertFile = "" ∧ q.sslKeyFile = "") ∨
        (planVerifyFull.SSLMode = "require" ∧ ∃ cert key,
          cert ≠ "" ∧ key ≠ "" ∧ cert ≠ key ∧
          cert ∉ ([] : List File).map Prod.fst ∧ key ∉ ([] : List File).map Prod.fst ∧
          (addPlan envOk ⟨[svcCrdb], []⟩ planVerifyFull).world.files =
            [] ++ [(cert, planVerifyFull.SSLCert), (key, planVerifyFull.SSLKey)] ∧
          ∀ v, addPlan envOk ⟨[svcCrdb], []⟩ planVerifyFull = .ok v → ∃ i s q,
            findService [svcCrdb] planVerifyFull.ServiceID = .ok (i, s) ∧
            v.Services = [svcCrdb].set i { s with Plans := s.Plans ++ [q] } ∧
            q.sslCAFile = "" ∧ q.sslCertFile = cert ∧ q.sslKeyFile = key) ∨
        ((planVerifyFull.SSLMode = "verify-ca" ∨ planVerifyFull.SSLMode = "verify-full") ∧
          ∃ ca cert key,
          ca ≠ "" ∧ cert ≠ "" ∧ key ≠ "" ∧ ca ≠ cert ∧ ca ≠ key ∧ cert ≠ key ∧
          ca ∉ ([] : List File).map Prod.fst ∧ cert ∉ ([] : List File).map Prod.fst ∧
          key ∉ ([] : List File).map Prod.fst ∧
          (addPlan envOk ⟨[svcCrdb], []⟩ planVerifyFull).world.files =
            [] ++ [(ca, planVerifyFull.SSLCACert), (cert, planVerifyFull.SSLCert),
              (key, planVerifyFull.SSLKey)] ∧
          ∀ v, addPlan envOk ⟨[svcCrdb], []⟩ planVerifyFull = .ok v → ∃ i s q,
            findService [svcCrdb] planVerifyFull.ServiceID = .ok (i, s) ∧
            v.Services = [svcCrdb].set i { s with Plans := s.Plans ++ [q] } ∧
            q.sslCAFile = ca ∧ q.sslCertFile = cert ∧ q.sslKeyFile = key)) :=
  ⟨by decide,
    addPlan_files_by_mode envOk ⟨[svcCrdb], []⟩ planVerifyFull (by decide) (Or.inl (by decide))⟩

/-- C9: for an otherwise valid plan (service found, no duplicate name or id, host
and port given) in mode `require` with an empty `SSLCert`, `addPlan` still calls
`createTempFile "crdb-ssl-cert-"` with empty content.  If that call returns an
error, `addPlan` fails fatally (`init-cert-file`) and the world, registry
included, is unchanged.  If it succeeds, and the key write and `sql.Open`
succeed too, the plan is registered, tracking the two files written. -/
theorem addPlan_require_empty_cert (env : Env) (w : World) (p : Plan) (i : Nat) (s : Service)
    (hsid : p.ServiceID ≠ "") (hfind : findService w.Services p.ServiceID = .ok (i, s))
    (hdup : ∀ pl ∈ s.Plans, pl.Name ≠ p.Name ∧
      pl.ID ≠ (if p.ID = "" then env.generatePlanID s.Name p.Name else p.ID))
    (hhost : p.CRDBHost ≠ "") (hport : p.CRDBPort ≠ "")
    (hmode : p.SSLMode = "require") (hcert : p.SSLCert = "") :
    (∀ msg fs, createTempFile env w.files "crdb-ssl-cert-" "" = (.error msg, fs) →
        addPlan env w p = .fatal "init-cert-file" (.external msg) w) ∧
      (∀ cert fs1 key fs2,
        createTempFile env w.files "crdb-ssl-cert-" "" = (.ok cert, fs1) →
        createTempFile env fs1 "crdb-ssl-key-" p.SSLKey = (.ok key, fs2) →
        env.sqlOpen "postgres" (env.dbURI p.CRDBHost p.CRDBPort
          (if p.CRDBAdminUser = "" then "root" else p.CRDBAdminUser) "" ""
          [("sslmode", ["require"]), ("sslcert", [cert]), ("sslkey", [key])]) = none →
        fs2 = w.files ++ [(cert, ""), (key, p.SSLKey)] ∧
        ∃ q, q.Name = p.Name ∧ q.SSLCert = "" ∧ q.sslCertFile = cert ∧ q.sslKeyFile = key ∧
          addPlan env w p = .ok ⟨w.Services.set i { s with Plans := s.Plans ++ [q] }, fs2⟩) := by
  obtain ⟨hn, -, hu, -, hh, hp, hm, hc, hk, -⟩ := addPlan_resolved_fields env s p
  have hrun := addPlan_valid hsid hfind hdup hhost hport
  have hm2 : (addPlan.resolved env s p).SSLMode = "require" := hm.trans hmode
  have hc2 : (addPlan.resolved env s p).SSLCert = "" := hc.trans hcert
  have hsw : addPlan env w p =
      addPlan.require env w i s (addPlan.resolved env s p) [("sslmode", [p.SSLMode])] w.files := by
    rw [hrun]
    simp [addPlan.switch, hm2]
  constructor
  · intro msg fs hct
    obtain rfl := createTempFile_error hct
    rw [hsw]
    simp [addPlan.require, hc2, hct]
  · intro cert fs1 key fs2 hct hkt hopen
    obtain ⟨rfl, -, -, -⟩ := createTempFile_ok hct
    obtain ⟨rfl, -, -, -⟩ := createTempFile_ok hkt
    refine ⟨by simp, ?_⟩
    refine ⟨{ addPlan.resolved env s p with
      sslCertFile := cert
      sslKeyFile := key
      crdb := some ⟨"postgres", env.dbURI p.CRDBHost p.CRDBPort
        (if p.CRDBAdminUser = "" then "root" else p.CRDBAdminUser) "" ""
        [("sslmode", ["require"]), ("sslcert", [cert]), ("sslkey", [key])]⟩ },
      hn, hc2, rfl, rfl, ?_⟩
    rw [hsw]
    simp [addPlan.require, addPlan.finish, hc2, hk, hct, hkt, hh, hp, hu, hmode, Values.Add, hopen]

/-- Witness of C9: the plan `tls` (mode `require`, no certificate) under `crdb`. -/
theorem addPlan_require_empty_cert_witness :
    (createTempFile envOk [] "crdb-ssl-cert-" "" =
        (.ok "/tmp/crdb-ssl-cert-0", [("/tmp/crdb-ssl-cert-0", "")])) ∧
      (planRequireNoCert.SSLMode = "require" ∧ planRequireNoCert.SSLCert = "") ∧
      ((∀ msg fs, createTempFile envOk [] "crdb-ssl-cert-" "" = (.error msg, fs) →
          addPlan envOk ⟨[svcCrdb], []⟩ planRequireNoCert =
            .fatal "init-cert-file" (.external msg) ⟨[svcCrdb], []⟩) ∧
        (∀ cert fs1 key fs2,
          createTempFile envOk [] "crdb-ssl-cert-" "" = (.ok cert, fs1) →
          createTempFile envOk fs1 "crdb-ssl-key-" planRequireNoCert.SSLKey = (.ok key, fs2) →
          envOk.sqlOpen "postgres" (envOk.dbURI planRequireNoCert.CRDBHost
            planRequireNoCert.CRDBPort
            (if planRequireNoCert.CRDBAdminUser = "" then "root"
              else planRequireNoCert.CRDBAdminUser) "" ""
            [("sslmode", ["require"]), ("sslcert", [cert]), ("sslkey", [key])]) = none →
          fs2 = [] ++ [(cert, ""), (key, planRequireNoCert.SSLKey)] ∧
          ∃ q, q.Name = planRequireNoCert.Name ∧ q.SSLCert = "" ∧ q.sslCertFile = cert ∧
            q.sslKeyFile = key ∧
            addPlan envOk ⟨[svcCrdb], []⟩ planRequireNoCert =
              .ok ⟨[svcCrdb].set 0 { svcCrdb with Plans := svcCrdb.Plans ++ [q] }, fs2⟩)) :=
  ⟨rfl, by decide,
    addPlan_require_empty_cert envOk ⟨[svcCrdb], []⟩ planRequireNoCert 0 svcCrdb
      (by decide) rfl (by decide) (by decide) (by decide) (by decide) (by decide)⟩

/-- C8, as stated, fails: a `verify-full` plan whose CA certificate, client
certificate and client key are all empty is registered; three empty files are
written. -/
theorem empty_credentials_registered :
    (planVerifyNoCreds.SSLMode = "verify-full" ∧ planVerifyNoCreds.SSLCACert = "" ∧
        planVerifyNoCreds.SSLCert = "" ∧ planVerifyNoCreds.SSLKey = "") ∧
      (addPlan envOk ⟨[svcCrdb], []⟩ planVerifyNoCreds).failure = none ∧
      (addPlan envOk ⟨[svcCrdb], []⟩ planVerifyNoCreds).world.files =
        [("/tmp/crdb-ssl-ca-0", ""), ("/tmp/crdb-ssl-cert-1", ""), ("/tmp/crdb-ssl-key-2", "")] ∧
      ((addPlan envOk ⟨[svcCrdb], []⟩ planVerifyNoCreds).world.Services.map
        (fun s => s.Plans.map (fun q => q.Name))) = [["bare"]] := by
  decide

/-- C8 amended: credential material is not checked at registration.  Whether
`addPlan` fails, and with which action and error, does not depend on what
`SSLCACert`, `SSLCert` and `SSLKey` hold (empty or not), as long as the creation
of a temporary file does not depend on the contents written. -/
theorem addPlan_ignores_credential_contents (env : Env) (w : World) (p : Plan)
    (ca cert key : String)
    (henv : ∀ fs fs2 pre c c2, fs.map Prod.fst = fs2.map Prod.fst →
      env.tempFile fs pre c = env.tempFile fs2 pre c2) :
    (addPlan env w { p with SSLCACert := ca, SSLCert := cert, SSLKey := key }).failure =
      (addPlan env w p).failure := by
  by_cases hsid : p.ServiceID = ""
  · simp [addPlan, hsid]
  · cases hfind : findService w.Services p.ServiceID with
    | error err => simp [addPlan, hsid, hfind]
    | ok r =>
      obtain ⟨i, s⟩ := r
      obtain ⟨hn, hi, hu, -, hh, hp, hm, -⟩ := addPlan_resolved_fields env s p
      obtain ⟨hn2, hi2, hu2, -, hh2, hp2, hm2, -⟩ := addPlan_resolved_fields env s
        { p with SSLCACert := ca, SSLCert := cert, SSLKey := key }
      rw [addPlan_of_find (p := { p with SSLCACert := ca, SSLCert := cert, SSLKey := key })
        hsid hfind, addPlan_of_find hsid hfind]
      rw [addPlan_scan_congr _ (addPlan.resolved env s p) (hn2.trans hn.symm)
        (hi2.trans hi.symm)]
      cases addPlan.scan (addPlan.resolved env s p) s.Plans with
      | some e => rfl
      | none =>
        by_cases hhp : p.CRDBHost = "" ∨ p.CRDBPort = ""
        · simp only [hhp, if_true]
        · simp only [hhp, if_false]
          exact addPlan_switch_failure_congr henv w i s _ _ _ (hm2.trans hm.symm)
            (hh2.trans hh.symm) (hp2.trans hp.symm) (hu2.trans hu.symm)

/-- Witness of C8 amended: emptying all credentials of a `verify-full` plan. -/
theorem addPlan_ignores_credential_contents_witness :
    (∀ fs fs2 pre c c2, fs.map Prod.fst = fs2.map Prod.fst →
        envOk.tempFile fs pre c = envOk.tempFile fs2 pre c2) ∧
      (addPlan envOk ⟨[svcCrdb], []⟩
          { planVerifyFull with SSLCACert := "", SSLCert := "", SSLKey := "" }).failure =
        (addPlan envOk ⟨[svcCrdb], []⟩ planVerifyFull).failure :=
  ⟨fun fs fs2 _ _ _ h => by
      have hl : fs.length = fs2.length := by simpa using congrArg List.length h
      simp [envOk, hl],
    addPlan_ignores_credential_contents envOk ⟨[svcCrdb], []⟩ planVerifyFull "" "" ""
      (fun fs fs2 _ _ _ h => by
        have hl : fs.length = fs2.length := by simpa using congrArg List.length h
        simp [envOk, hl])⟩

/-- C11: a plan whose `SSLMode` is none of `disable`, `require`, `verify-ca`,
`verify-full` (the empty string and other spellings included) makes `addPlan`
fail fatally with the world unchanged: the plan is added to no service and no
file is written.  When the plan passes the earlier checks, the error is the
unknown-mode one. -/
theorem addPlan_unknown_ssl_mode (env : Env) (w : World) (p : Plan)
    (hmode : p.SSLMode ≠ "disable" ∧ p.SSLMode ≠ "require" ∧ p.SSLMode ≠ "verify-ca" ∧
      p.SSLMode ≠ "verify-full") :
    (∃ e, addPlan env w p = .fatal "init" e w) ∧
      ∀ i s, p.ServiceID ≠ "" → findService w.Services p.ServiceID = .ok (i, s) →
        (∀ pl ∈ s.Plans, pl.Name ≠ p.Name ∧
          pl.ID ≠ (if p.ID = "" then env.generatePlanID s.Name p.Name else p.ID)) →
        p.CRDBHost ≠ "" → p.CRDBPort ≠ "" →
        addPlan env w p = .fatal "init" (.unknownSslMode p.SSLMode) w := by
  obtain ⟨hd, hr, hca, hfull⟩ := hmode
  constructor
  · cases hO : addPlan env w p with
    | ok v =>
      obtain ⟨i, s, -, -, -, -, -, hsw⟩ := addPlan_ok_inv hO
      have hm := (addPlan_resolved_fields env s p).2.2.2.2.2.2.1
      rcases addPlan_switch_ok hsw with ⟨h, -⟩ | ⟨h, -⟩ | ⟨h | h, -⟩
      · exact absurd (hm ▸ h) hd
      · exact absurd (hm ▸ h) hr
      · exact absurd (hm ▸ h) hca
      · exact absurd (hm ▸ h) hfull
    | fatal a e v =>
      rcases addPlan_fatal_inv hO with ⟨rfl, rfl, -⟩ | ⟨i, s, -, -, -, -, -, hsw⟩
      · exact ⟨e, rfl⟩
      · have hm := (addPlan_resolved_fields env s p).2.2.2.2.2.2.1
        rcases addPlan_switch_fatal hsw with ⟨h, -⟩ | ⟨h | h, -⟩ | ⟨h | h, -⟩ | ⟨h, -⟩ |
            ⟨-, -, -, -, rfl, -, rfl⟩
        · exact absurd (hm ▸ h) hd
        · exact absurd (hm ▸ h) hca
        · exact absurd (hm ▸ h) hfull
        · exact absurd (hm ▸ h) hca
        · exact absurd (hm ▸ h) hfull
        · exact absurd (hm ▸ h) hr
        · exact ⟨e, rfl⟩
  · intro i s hsid hfind hdup hhost hport
    have hm := (addPlan_resolved_fields env s p).2.2.2.2.2.2.1
    rw [addPlan_valid hsid hfind hdup hhost hport]
    simp [addPlan.switch, hm, hd, hr, hca, hfull]

/-- Witness of C11: the plan `free` with the mode spelled `Disable`. -/
theorem addPlan_unknown_ssl_mode_witness :
    (∃ e, addPlan envOk ⟨[svcCrdb], []⟩ { planFree with SSLMode := "Disable" } =
        .fatal "init" e ⟨[svcCrdb], []⟩) ∧
      ∀ i s, "crdb" ≠ "" → findService [svcCrdb] "crdb" = .ok (i, s) →
        (∀ pl ∈ s.Plans, pl.Name ≠ "free" ∧
          pl.ID ≠ (if ("" : String) = "" then envOk.generatePlanID s.Name "free" else "")) →
        "localhost" ≠ "" → "26257" ≠ "" →
        addPlan envOk ⟨[svcCrdb], []⟩ { planFree with SSLMode := "Disable" } =
          .fatal "init" (.unknownSslMode "Disable") ⟨[svcCrdb], []⟩ :=
  addPlan_unknown_ssl_mode envOk ⟨[svcCrdb], []⟩ { planFree with SSLMode := "Disable" }
    (by decide)

/-- C15: `findPlan serviceID planID` returns an error exactly when no registered
service has that id, or the first service with that id owns no plan with id
`planID` (whatever the other services own); otherwise it returns, without error,
the first plan with id `planID` among the plans of that first service. -/
theorem findPlan_spec (services : List Service) (serviceID planID : String) :
    ((∃ e, findPlan services serviceID planID = .error e) ↔
        ((∀ s ∈ services, s.ID ≠ serviceID) ∨
          ∃ (i : Nat) (s : Service), services[i]? = some s ∧ s.ID = serviceID ∧
            (∀ k : Nat, k < i → ∀ t : Service, services[k]? = some t → t.ID ≠ serviceID) ∧
            ∀ p ∈ s.Plans, p.ID ≠ planID)) ∧
      ∀ (j : Nat) (q : Plan), findPlan services serviceID planID = .ok (j, q) →
        ∃ (i : Nat) (s : Service), services[i]? = some s ∧ s.ID = serviceID ∧
          (∀ k : Nat, k < i → ∀ t : Service, services[k]? = some t → t.ID ≠ serviceID) ∧
          s.Plans[j]? = some q ∧ q.ID = planID ∧
          ∀ k : Nat, k < j → ∀ r : Plan, s.Plans[k]? = some r → r.ID ≠ planID := by
  cases hfind : findService services serviceID with
  | error err =>
    have hnone : ∀ s ∈ services, s.ID ≠ serviceID :=
      (findService_error_iff services serviceID).mp ⟨err, hfind⟩
    constructor
    · constructor
      · intro _; exact Or.inl hnone
      · intro _; exact ⟨err, by simp [findPlan, hfind]⟩
    · intro j q h
      simp [findPlan, hfind] at h
  | ok r =>
    obtain ⟨i, s⟩ := r
    obtain ⟨hget, hid⟩ := findService_ok hfind
    have hfirst := findService_first hfind
    have hrun : findPlan services serviceID planID = findPlan.scan s.Plans planID := by
      simp [findPlan, hfind]
    constructor
    · rw [hrun, findPlan_scan_error_iff]
      constructor
      · intro h; exact Or.inr ⟨i, s, hget, hid, hfirst, h⟩
      · rintro (h | ⟨i2, s2, hget2, hid2, hfirst2, h⟩)
        · exact absurd hid (h s (List.getElem?_mem hget))
        · have hi : i2 = i := by
            rcases Nat.lt_trichotomy i2 i with hlt | heq | hgt
            · exact absurd hid2 (hfirst i2 hlt s2 hget2)
            · exact heq
            · exact absurd hid (hfirst2 i hgt s hget)
          subst hi
          rw [hget] at hget2
          simp only [Option.some.injEq] at hget2
          subst hget2
          exact h
    · intro j q h
      rw [hrun] at h
      obtain ⟨h1, h2, h3⟩ := findPlan_scan_ok h
      exact ⟨i, s, hget, hid, hfirst, h1, h2, h3⟩

/-- C16: whenever `addPlan` gets as far as `dbURI` (it returns, or fails only at
`sql.Open`), the call is `dbURI host port user "" "" options` with the host and
port of the plan, the resolved admin user, an empty password and database name,
and options fixed by the SSL mode, one value per key: `sslmode` alone for
`disable`; `sslmode`, `sslcert`, `sslkey` for `require`; `sslmode`,
`sslrootcert`, `sslcert`, `sslkey` for `verify-ca` and `verify-full`, the paths
being those the plan tracks.  `sql.Open` on that URI decides the outcome. -/
theorem addPlan_connection_options (env : Env) (w : World) (p : Plan)
    (hok : (addPlan env w p).failure = none ∨
      ∃ e, (addPlan env w p).failure = some ("init-setup-db", e)) :
    ∃ (i : Nat) (s : Service) (q : Plan) (options : Values) (fs : List File),
      findService w.Services p.ServiceID = .ok (i, s) ∧
      q.CRDBHost = p.CRDBHost ∧ q.CRDBPort = p.CRDBPort ∧
      q.CRDBAdminUser = (if p.CRDBAdminUser = "" then "root" else p.CRDBAdminUser) ∧
      ((p.SSLMode = "disable" ∧ options = [("sslmode", ["disable"])]) ∨
        (p.SSLMode = "require" ∧
          options = [("sslmode", ["require"]), ("sslcert", [q.sslCertFile]),
            ("sslkey", [q.sslKeyFile])]) ∨
        ((p.SSLMode = "verify-ca" ∨ p.SSLMode = "verify-full") ∧
          options = [("sslmode", [p.SSLMode]), ("sslrootcert", [q.sslCAFile]),
            ("sslcert", [q.sslCertFile]), ("sslkey", [q.sslKeyFile])])) ∧
      (∀ msg, env.sqlOpen "postgres"
          (env.dbURI q.CRDBHost q.CRDBPort q.CRDBAdminUser "" "" options) = some msg →
        addPlan env w p = .fatal "init-setup-db" (.external msg) ⟨w.Services, fs⟩) ∧
      (env.sqlOpen "postgres"
          (env.dbURI q.CRDBHost q.CRDBPort q.CRDBAdminUser "" "" options) = none →
        addPlan env w p = .ok ⟨w.Services.set i { s with Plans := s.Plans ++
          [{ q with crdb := some ⟨"postgres",
            env.dbURI q.CRDBHost q.CRDBPort q.CRDBAdminUser "" "" options⟩ }] }, fs⟩) := by
  obtain ⟨i, s, hfind, hrun⟩ := addPlan_reaches_switch hok
  obtain ⟨-, -, hu, -, hh, hp, hm, -⟩ := addPlan_resolved_fields env s p
  rw [hrun] at hok
  have hfin : ∀ (q : Plan) (options : Values) (fs : List File),
      addPlan env w p = addPlan.finish env w i s q options fs →
      (∀ msg, env.sqlOpen "postgres"
          (env.dbURI q.CRDBHost q.CRDBPort q.CRDBAdminUser "" "" options) = some msg →
        addPlan env w p = .fatal "init-setup-db" (.external msg) ⟨w.Services, fs⟩) ∧
      (env.sqlOpen "postgres"
          (env.dbURI q.CRDBHost q.CRDBPort q.CRDBAdminUser "" "" options) = none →
        addPlan env w p = .ok ⟨w.Services.set i { s with Plans := s.Plans ++
          [{ q with crdb := some ⟨"postgres",
            env.dbURI q.CRDBHost q.CRDBPort q.CRDBAdminUser "" "" options⟩ }] }, fs⟩) := by
    intro q options fs hq
    constructor
    · intro msg hopen
      rw [hq]; simp [addPlan.finish, hopen]
    · intro hopen
      rw [hq]; simp [addPlan.finish, hopen]
  rcases addPlan_switch_reaches_finish hok with ⟨hmode, hsw⟩ | ⟨hmode, cert, key, hsw⟩ |
      ⟨hmode, ca, cert, key, hsw⟩
  · rw [hm] at hmode
    refine ⟨i, s, addPlan.resolved env s p, _, _, hfind, hh, hp, hu, Or.inl ⟨hmode, ?_⟩,
      hfin _ _ _ (hrun.trans hsw)⟩
    rw [hmode]
  · rw [hm] at hmode
    refine ⟨i, s, { addPlan.resolved env s p with sslCertFile := cert, sslKeyFile := key },
      _, _, hfind, hh, hp, hu, Or.inr (Or.inl ⟨hmode, ?_⟩), hfin _ _ _ (hrun.trans hsw)⟩
    rw [hmode]
  · rw [hm] at hmode
    exact ⟨i, s,
      { addPlan.resolved env s p with sslCAFile := ca, sslCertFile := cert, sslKeyFile := key },
      _, _, hfind, hh, hp, hu, Or.inr (Or.inr ⟨hmode, rfl⟩), hfin _ _ _ (hrun.trans hsw)⟩

/-- Witness of C16: the `verify-full` plan under `crdb`. -/
theorem addPlan_connection_options_witness :
    ∃ (i : Nat) (s : Service) (q : Plan) (options : Values) (fs : List File),
      findService [svcCrdb] planVerifyFull.ServiceID = .ok (i, s) ∧
      q.CRDBHost = planVerifyFull.CRDBHost ∧ q.CRDBPort = planVerifyFull.CRDBPort ∧
      q.CRDBAdminUser = (if planVerifyFull.CRDBAdminUser = "" then "root"
        else planVerifyFull.CRDBAdminUser) ∧
      ((planVerifyFull.SSLMode = "disable" ∧ options = [("sslmode", ["disable"])]) ∨
        (planVerifyFull.SSLMode = "require" ∧
          options = [("sslmode", ["require"]), ("sslcert", [q.sslCertFile]),
            ("sslkey", [q.sslKeyFile])]) ∨
        ((planVerifyFull.SSLMode = "verify-ca" ∨ planVerifyFull.SSLMode = "verify-full") ∧
          options = [("sslmode", [planVerifyFull.SSLMode]), ("sslrootcert", [q.sslCAFile]),
            ("sslcert", [q.sslCertFile]), ("sslkey", [q.sslKeyFile])])) ∧
      (∀ msg, envOk.sqlOpen "postgres"
          (envOk.dbURI q.CRDBHost q.CRDBPort q.CRDBAdminUser "" "" options) = some msg →
        addPlan envOk ⟨[svcCrdb], []⟩ planVerifyFull =
          .fatal "init-setup-db" (.external msg) ⟨[svcCrdb], fs⟩) ∧
      (envOk.sqlOpen "postgres"
          (envOk.dbURI q.CRDBHost q.CRDBPort q.CRDBAdminUser "" "" options) = none →
        addPlan envOk ⟨[svcCrdb], []⟩ planVerifyFull =
          .ok ⟨[svcCrdb].set i { s with Plans := s.Plans ++
            [{ q with crdb := some ⟨"postgres",
              envOk.dbURI q.CRDBHost q.CRDBPort q.CRDBAdminUser "" "" options⟩ }] }, fs⟩) :=
  addPlan_connection_options envOk ⟨[svcCrdb], []⟩ planVerifyFull (Or.inl (by decide))

/-- C17, as stated, fails.  Services `a` and `b` are registered carrying no
plans, their `Plans` the same empty slice with spare capacity.  After two plans
are added to `a` and one to `b`, the first plan stored under `a` is the one
added to `b`: its `ServiceID` is `b`. -/
theorem registered_plan_under_other_service :
    ReachableS noPlansSlice growNone envOk worldSharedS3 ∧
      ∃ s ∈ worldSharedS3.Services, s.ID = "a" ∧
        ∃ q ∈ s.Plans.elems worldSharedS3.heap, q.ServiceID = "b" ∧ q.ServiceID ≠ s.ID :=
  ⟨reachableS_worldSharedS3, by decide⟩

/-- C17 amended: well-formedness invariant of registered plans, for services
that share no spare capacity.  In every registry state reached from the empty
registry by successful `addService` calls, with services carrying no plans whose
`Plans` slice has capacity 0 (nil, as JSON decoding leaves it) or points into a
backing array that no service registered before points into, and successful
`addPlan` calls, every plan stored under a service `s` has `ServiceID = s.ID`, a
non-empty host, port and admin user, and one of the four SSL modes; and every
further successful `addPlan p` leaves the other services as they were and adds to
the service found for `p.ServiceID` one plan, whose admin user is `root` when `p`
left it empty and the value of `p` otherwise.  The growth policy of `append` is
arbitrary. -/
theorem registered_plans_wellformed (grow : Nat → Nat) (env : Env) (w : WorldS)
    (h : ReachableS unsharedSlice grow env w) :
    (∀ s ∈ w.Services, ∀ q ∈ s.Plans.elems w.heap,
        q.ServiceID = s.ID ∧ q.CRDBHost ≠ "" ∧ q.CRDBPort ≠ "" ∧ q.CRDBAdminUser ≠ "" ∧
        (q.SSLMode = "disable" ∨ q.SSLMode = "require" ∨ q.SSLMode = "verify-ca" ∨
          q.SSLMode = "verify-full")) ∧
      ∀ p v, addPlanS grow env w p = .ok v →
        ∃ (i : Nat) (s : ServiceS) (q : Plan),
          findServiceS w.Services p.ServiceID = .ok (i, s) ∧
          v.view.Services = w.view.Services.set i
            { s.view w.heap with Plans := s.Plans.elems w.heap ++ [q] } ∧
          (p.CRDBAdminUser = "" → q.CRDBAdminUser = "root") ∧
          (p.CRDBAdminUser ≠ "" → q.CRDBAdminUser = p.CRDBAdminUser) := by
  obtain ⟨hown, hr⟩ := reachableS_unshared h
  refine ⟨fun s hs q hq => reachable_wellformed hr _ (mem_view hs) q hq, ?_⟩
  intro p v hadd
  obtain ⟨hv, i, s, hfind, hfv⟩ := addPlanS_ok_view hown hadd
  obtain ⟨j, t, q, hft, hvs, -, -, -, -, -, -, hu, -⟩ := addPlan_ok_fields hv
  rw [hfv] at hft
  simp only [Except.ok.injEq, Prod.mk.injEq] at hft
  obtain ⟨rfl, rfl⟩ := hft
  refine ⟨i, s, q, hfind, hvs, ?_, ?_⟩
  · intro h0; simpa [h0] using hu
  · intro h0; simpa [h0] using hu

/-- Witness of C17 amended: service `a` (nil `Plans`) with three plans, one of
them with an admin user of its own, and service `b` with one plan. -/
theorem registered_plans_wellformed_witness :
    ReachableS unsharedSlice growSame envOk worldOwnedS4 ∧
      worldOwnedS4.Services.map (fun s => (s.ID,
          (s.Plans.elems worldOwnedS4.heap).map (fun p => (p.ServiceID, p.CRDBAdminUser)))) =
        [("a", [("a", "root"), ("a", "admin"), ("a", "root")]), ("b", [("b", "root")])] ∧
      ((∀ s ∈ worldOwnedS4.Services, ∀ q ∈ s.Plans.elems worldOwnedS4.heap,
          q.ServiceID = s.ID ∧ q.CRDBHost ≠ "" ∧ q.CRDBPort ≠ "" ∧ q.CRDBAdminUser ≠ "" ∧
          (q.SSLMode = "disable" ∨ q.SSLMode = "require" ∨ q.SSLMode = "verify-ca" ∨
            q.SSLMode = "verify-full")) ∧
        ∀ p v, addPlanS growSame envOk worldOwnedS4 p = .ok v →
          ∃ (i : Nat) (s : ServiceS) (q : Plan),
            findServiceS worldOwnedS4.Services p.ServiceID = .ok (i, s) ∧
            v.view.Services = worldOwnedS4.view.Services.set i
              { s.view worldOwnedS4.heap with
                Plans := s.Plans.elems worldOwnedS4.heap ++ [q] } ∧
            (p.CRDBAdminUser = "" → q.CRDBAdminUser = "root") ∧
            (p.CRDBAdminUser ≠ "" → q.CRDBAdminUser = p.CRDBAdminUser)) :=
  ⟨reachableS_worldOwnedS4, by decide,
    registered_plans_wellformed growSame envOk worldOwnedS4 reachableS_worldOwnedS4⟩

/-- C20: validation comes before any credential file.  When `addPlan` fails on a
duplicate plan name or id, an empty host or port, or an unknown SSL mode, the
action is `init`, the world (filesystem included) is unchanged, and the outcome
is the same in every environment with the same `generatePlanID`, so
`createTempFile` was not called.  Conversely, when a failed `addPlan` leaves the
filesystem changed, the error is one handed back by `createTempFile` for a later
file (the certificate after the CA file, or the key) or by `sql.Open`. -/
theorem addPlan_validation_precedes_files (env : Env) (w v : World) (p : Plan) (a : String)
    (e : Err) (h : addPlan env w p = .fatal a e v) :
    (((∃ n, e = .duplicatePlanName n) ∨ (∃ n, e = .duplicatePlanId n) ∨
          (∃ n, e = .noHostPort n) ∨ (∃ m, e = .unknownSslMode m)) →
        a = "init" ∧ v = w ∧ ∀ env2 : Env, env2.generatePlanID = env.generatePlanID →
          addPlan env2 w p = .fatal "init" e w) ∧
      (v.files ≠ w.files → ∃ msg, e = .external msg ∧
        ((a = "init-cert-file" ∧ (p.SSLMode = "verify-ca" ∨ p.SSLMode = "verify-full")) ∨
          a = "init-key-file" ∨ a = "init-setup-db")) := by
  constructor
  · intro hkind
    have ha : a = "init" := by
      rcases addPlan_fatal_inv h with ⟨ha, -⟩ | ⟨i, s, -, -, -, -, -, hsw⟩
      · exact ha
      · rcases addPlan_switch_fatal_kind hsw with ⟨ha, -⟩ | ⟨msg, rfl, -⟩
        · exact ha
        · rcases hkind with ⟨n, hn⟩ | ⟨n, hn⟩ | ⟨n, hn⟩ | ⟨n, hn⟩ <;> cases hn
    subst ha
    obtain ⟨hv, henv⟩ := addPlan_init_fatal h
    exact ⟨rfl, hv, henv⟩
  · intro hfiles
    rcases addPlan_fatal_inv h with ⟨-, rfl, -⟩ | ⟨i, s, -, -, -, -, -, hsw⟩
    · exact absurd rfl hfiles
    · have hm := (addPlan_resolved_fields env s p).2.2.2.2.2.2.1
      rcases addPlan_switch_fatal hsw with ⟨-, -, rfl⟩ | ⟨-, -, rfl, -⟩ | ⟨hmode, ca, -, hreq⟩ |
          ⟨-, hreq⟩ | ⟨-, -, -, -, -, -, rfl⟩
      · exact absurd rfl hfiles
      · exact absurd rfl hfiles
      · obtain ⟨msg, he, ha⟩ := addPlan_require_fatal_external hreq
        rw [hm] at hmode
        refine ⟨msg, he, ?_⟩
        rcases ha with ha | ha | ha
        · exact Or.inl ⟨ha, hmode⟩
        · exact Or.inr (Or.inl ha)
        · exact Or.inr (Or.inr ha)
      · obtain ⟨msg, he, -⟩ := addPlan_require_fatal_external hreq
        rcases addPlan_require_fatal hreq with ⟨-, rfl, -⟩ | ⟨ha, -⟩ | ⟨ha, -⟩
        · exact absurd rfl hfiles
        · exact ⟨msg, he, Or.inr (Or.inl ha)⟩
        · exact ⟨msg, he, Or.inr (Or.inr ha)⟩
      · exact absurd rfl hfiles

/-- Witness of C20: the `verify-ca` plan whose certificate write fails after
the CA file was written. -/
theorem addPlan_validation_precedes_files_witness :
    addPlan envCertFails ⟨[svcCrdb], []⟩ planVerifyCa =
        .fatal "init-cert-file" (.external "no space left on device")
          ⟨[svcCrdb], [("/tmp/crdb-ssl-ca-0", "CA")]⟩ ∧
      ((((∃ n, Err.external "no space left on device" = .duplicatePlanName n) ∨
            (∃ n, Err.external "no space left on device" = .duplicatePlanId n) ∨
            (∃ n, Err.external "no space left on device" = .noHostPort n) ∨
            (∃ m, Err.external "no space left on device" = .unknownSslMode m)) →
          "init-cert-file" = "init" ∧
          (⟨[svcCrdb], [("/tmp/crdb-ssl-ca-0", "CA")]⟩ : World) = ⟨[svcCrdb], []⟩ ∧
          ∀ env2 : Env, env2.generatePlanID = envCertFails.generatePlanID →
            addPlan env2 ⟨[svcCrdb], []⟩ planVerifyCa =
              .fatal "init" (.external "no space left on device") ⟨[svcCrdb], []⟩) ∧
        ((⟨[svcCrdb], [("/tmp/crdb-ssl-ca-0", "CA")]⟩ : World).files ≠
            (⟨[svcCrdb], []⟩ : World).files →
          ∃ msg, Err.external "no space left on device" = .external msg ∧
            (("init-cert-file" = "init-cert-file" ∧
                (planVerifyCa.SSLMode = "verify-ca" ∨ planVerifyCa.SSLMode = "verify-full")) ∨
              "init-cert-file" = "init-key-file" ∨ "init-cert-file" = "init-setup-db"))) :=
  ⟨by decide,
    addPlan_validation_precedes_files envCertFails ⟨[svcCrdb], []⟩
      ⟨[svcCrdb], [("/tmp/crdb-ssl-ca-0", "CA")]⟩ planVerifyCa "init-cert-file"
      (.external "no space left on device") (by decide)⟩

/-- C12: `createCustomPlans` on a blob that decodes to the map `cp` returns one
plan per key, in strictly ascending order of the keys: the list of
`plan (cp[k])` for `k` running through the sorted keys.  The key is not used in
the plan (its `ID` is the `guid` of the entry), so a blob with the same values
under keys renamed in an order-preserving way gives the same list; for keys `b`
and `a` the plan under `a` comes first.  The empty string gives the empty list
and no error. -/
theorem createCustomPlans_sorted_by_key (inp : Input) (json : String) (cp : PlanMap)
    (hjson : json ≠ "") (hdec : inp.unmarshalCustomPlans json = .ok cp)
    (hnd : (cp.map Prod.fst).Nodup) :
    createCustomPlans inp "" = .ok [] ∧
      (∃ keys : List String,
        keys.Sorted (fun a b => a < b) ∧ keys.Perm (cp.map Prod.fst) ∧
        createCustomPlans inp json =
          .ok (keys.map (fun k => createCustomPlans.plan (mapIndex cp k)))) ∧
      (∀ kv ∈ cp, mapIndex cp kv.1 = kv.2 ∧ (createCustomPlans.plan kv.2).ID = kv.2.ID) ∧
      (∀ (f : String → String) (json2 : String), json2 ≠ "" →
        (∀ a ∈ cp.map Prod.fst, ∀ b ∈ cp.map Prod.fst, a < b → f a < f b) →
        inp.unmarshalCustomPlans json2 = .ok (cp.map (fun kv => (f kv.1, kv.2))) →
        createCustomPlans inp json2 = createCustomPlans inp json) ∧
      ∀ A B : customPlanSpec, createCustomPlans.build [("b", B), ("a", A)] =
        [createCustomPlans.plan A, createCustomPlans.plan B] := by
  refine ⟨by simp [createCustomPlans], ?_, ?_, ?_, ?_⟩
  · exact ⟨sortStrings (cp.map Prod.fst), sortStrings_strict _ hnd, sortStrings_perm _,
      by simp [createCustomPlans, hjson, hdec, createCustomPlans.build]⟩
  · intro kv hkv
    exact ⟨mapIndex_of_mem cp hnd kv.1 kv.2 hkv, rfl⟩
  · intro f json2 hjson2 hmono hdec2
    have hinj : ∀ a ∈ cp.map Prod.fst, ∀ b ∈ cp.map Prod.fst, f a = f b → a = b := by
      intro a ha b hb hfab
      rcases lt_trichotomy a b with hlt | heq | hgt
      · exact absurd hfab (ne_of_lt (hmono a ha b hb hlt))
      · exact heq
      · exact absurd hfab.symm (ne_of_lt (hmono b hb a ha hgt))
    have hkeys : (cp.map (fun kv => (f kv.1, kv.2))).map Prod.fst = (cp.map Prod.fst).map f := by
      simp [List.map_map, Function.comp_def]
    simp only [createCustomPlans, hjson, hjson2, hdec, hdec2, if_false,
      createCustomPlans.build, hkeys]
    rw [sortStrings_rename f _ hmono, List.map_map]
    congr 1
    apply List.map_congr_left
    intro k hk
    have hk2 : k ∈ cp.map Prod.fst := (sortStrings_perm _).subset hk
    simp only [Function.comp_apply]
    rw [mapIndex_rename f cp k hk2 hinj]
  · intro A B
    have hsort : sortStrings ["b", "a"] = ["a", "b"] := by decide
    simp [createCustomPlans.build, hsort, mapIndex]

/-- Witness of C12: the blob with `specPaid` under `b` and `specFree` under `a`. -/
theorem createCustomPlans_sorted_by_key_witness :
    createCustomPlans inputCustom "custom" =
        .ok [createCustomPlans.plan specFree, createCustomPlans.plan specPaid] ∧
      (createCustomPlans inputCustom "" = .ok [] ∧
        (∃ keys : List String,
          keys.Sorted (fun a b => a < b) ∧
          keys.Perm ([("b", specPaid), ("a", specFree)].map Prod.fst) ∧
          createCustomPlans inputCustom "custom" =
            .ok (keys.map (fun k => createCustomPlans.plan
              (mapIndex [("b", specPaid), ("a", specFree)] k)))) ∧
        (∀ kv ∈ [("b", specPaid), ("a", specFree)],
          mapIndex [("b", specPaid), ("a", specFree)] kv.1 = kv.2 ∧
          (createCustomPlans.plan kv.2).ID = kv.2.ID) ∧
        (∀ (f : String → String) (json2 : String), json2 ≠ "" →
          (∀ a ∈ [("b", specPaid), ("a", specFree)].map Prod.fst,
            ∀ b ∈ [("b", specPaid), ("a", specFree)].map Prod.fst, a < b → f a < f b) →
          inputCustom.unmarshalCustomPlans json2 =
            .ok ([("b", specPaid), ("a", specFree)].map (fun kv => (f kv.1, kv.2))) →
          createCustomPlans inputCustom json2 = createCustomPlans inputCustom "custom") ∧
        ∀ A B : customPlanSpec, createCustomPlans.build [("b", B), ("a", A)] =
          [createCustomPlans.plan A, createCustomPlans.plan B]) :=
  ⟨rfl,
    createCustomPlans_sorted_by_key inputCustom "custom" [("b", specPaid), ("a", specFree)]
      (by decide) rfl (by decide)⟩

/-- C19: every plan returned by `createCustomPlans` is built from an entry
`(k, spec)` of the decoded map: it has the name, service and host of that entry,
an empty `CRDBAdminUser`, and as `CRDBPort` the decimal rendering of the port of
that entry (`strconv.Itoa spec.DBPort`): `"0"` for port 0, as for a port left out
of the blob, the decimal digits most significant first for a positive port, and
the same after a minus sign for a negative one.  The port is therefore never
empty, so `addPlan` can raise the host/port error for a custom plan only because
the host of its entry is empty, and when `addPlan` registers it the admin user
stored is `root`.  Conversely, when the keys of the map are distinct, every
entry yields a plan, and there are as many plans as entries. -/
theorem custom_plans_port_and_user (env : Env) (inp : Input) (json : String)
    (plans : List Plan) (hc : createCustomPlans inp json = .ok plans) :
    (∀ p ∈ plans, ∃ cp k spec,
      json ≠ "" ∧ inp.unmarshalCustomPlans json = .ok cp ∧ (k, spec) ∈ cp ∧
      p.Name = spec.Name ∧ p.ServiceID = spec.ServiceID ∧ p.CRDBHost = spec.DBHost ∧
      p.CRDBPort = Itoa spec.DBPort ∧
      (spec.DBPort = 0 → p.CRDBPort = "0") ∧
      (∀ n : Nat, 0 < n → spec.DBPort = (n : Int) →
        p.CRDBPort.toList = (Nat.digits 10 n).reverse.map Nat.digitChar) ∧
      (∀ n : Nat, spec.DBPort = Int.negSucc n →
        p.CRDBPort.toList = '-' :: (Nat.digits 10 (n + 1)).reverse.map Nat.digitChar) ∧
      p.CRDBPort ≠ "" ∧ p.CRDBAdminUser = "" ∧
      (∀ w a n v, addPlan env w p = .fatal a (.noHostPort n) v → spec.DBHost = "") ∧
      (∀ w v, addPlan env w p = .ok v →
        ∃ i s q, findService w.Services p.ServiceID = .ok (i, s) ∧
          v.Services = w.Services.set i { s with Plans := s.Plans ++ [q] } ∧
          q.CRDBAdminUser = "root")) ∧
    (∀ cp, json ≠ "" → inp.unmarshalCustomPlans json = .ok cp → (cp.map Prod.fst).Nodup →
      plans.length = cp.length ∧
      ∀ k spec, (k, spec) ∈ cp →
        ∃ p ∈ plans, p.Name = spec.Name ∧ p.ServiceID = spec.ServiceID ∧
          p.CRDBHost = spec.DBHost ∧ p.CRDBPort = Itoa spec.DBPort ∧
          p.CRDBAdminUser = "") := by
  rcases createCustomPlans_ok_inv hc with ⟨h0, rfl⟩ | ⟨h0, cp, hcp, rfl⟩
  · exact ⟨fun p hp => by simp at hp, fun cp hne => absurd h0 hne⟩
  · refine ⟨?_, ?_⟩
    · intro p hp
      obtain ⟨k, spec, hmem, rfl⟩ := mem_build_entry hp
      have hport : (createCustomPlans.plan spec).CRDBPort ≠ "" := Itoa_ne_empty spec.DBPort
      refine ⟨cp, k, spec, h0, hcp, hmem, rfl, rfl, rfl, rfl, ?_, ?_, ?_, hport, rfl, ?_, ?_⟩
      · intro hz
        show Itoa spec.DBPort = "0"
        rw [hz]
        rfl
      · intro n hn hz
        show (Itoa spec.DBPort).toList = _
        rw [hz]
        exact Itoa_pos n hn
      · intro n hz
        show (Itoa spec.DBPort).toList = _
        rw [hz]
        exact Itoa_neg n
      · intro w a n v h
        rcases addPlan_noHostPort h with hh | hh
        · exact hh
        · exact absurd hh hport
      · intro w v h
        obtain ⟨i, s, q, hfind, hv, -, -, -, -, -, -, hu, -⟩ := addPlan_ok_fields h
        refine ⟨i, s, q, hfind, hv, ?_⟩
        rw [hu]
        simp [createCustomPlans.plan]
    · intro cp2 _ hcp2 hnd
      rw [hcp] at hcp2
      simp only [Except.ok.injEq] at hcp2
      subst hcp2
      obtain ⟨hlen, hall⟩ := build_of_entry hnd
      exact ⟨hlen, fun k spec h => ⟨_, hall k spec h, rfl, rfl, rfl, rfl, rfl⟩⟩

/-- Witness of C19: the blob holding `specPaid` (port 26257) under key `b` and
`specFree` (no port) under key `a`. -/
theorem custom_plans_port_and_user_witness :
    createCustomPlans inputCustom "custom" =
        .ok [createCustomPlans.plan specFree, createCustomPlans.plan specPaid] ∧
      inputCustom.unmarshalCustomPlans "custom" = .ok [("b", specPaid), ("a", specFree)] ∧
      specPaid.DBPort = 26257 ∧ (createCustomPlans.plan specPaid).CRDBPort = "26257" ∧
      specFree.DBPort = 0 ∧ (createCustomPlans.plan specFree).CRDBPort = "0" ∧
      (∀ p ∈ [createCustomPlans.plan specFree, createCustomPlans.plan specPaid], ∃ cp k spec,
        "custom" ≠ "" ∧ inputCustom.unmarshalCustomPlans "custom" = .ok cp ∧ (k, spec) ∈ cp ∧
        p.Name = spec.Name ∧ p.ServiceID = spec.ServiceID ∧ p.CRDBHost = spec.DBHost ∧
        p.CRDBPort = Itoa spec.DBPort ∧
        (spec.DBPort = 0 → p.CRDBPort = "0") ∧
        (∀ n : Nat, 0 < n → spec.DBPort = (n : Int) →
          p.CRDBPort.toList = (Nat.digits 10 n).reverse.map Nat.digitChar) ∧
        (∀ n : Nat, spec.DBPort = Int.negSucc n →
          p.CRDBPort.toList = '-' :: (Nat.digits 10 (n + 1)).reverse.map Nat.digitChar) ∧
        p.CRDBPort ≠ "" ∧ p.CRDBAdminUser = "" ∧
        (∀ w a n v, addPlan envOk w p = .fatal a (.noHostPort n) v → spec.DBHost = "") ∧
        (∀ w v, addPlan envOk w p = .ok v →
          ∃ i s q, findService w.Services p.ServiceID = .ok (i, s) ∧
            v.Services = w.Services.set i { s with Plans := s.Plans ++ [q] } ∧
            q.CRDBAdminUser = "root")) ∧
      (∀ cp, "custom" ≠ "" → inputCustom.unmarshalCustomPlans "custom" = .ok cp →
        (cp.map Prod.fst).Nodup →
        [createCustomPlans.plan specFree, createCustomPlans.plan specPaid].length = cp.length ∧
        ∀ k spec, (k, spec) ∈ cp →
          ∃ p ∈ [createCustomPlans.plan specFree, createCustomPlans.plan specPaid],
            p.Name = spec.Name ∧ p.ServiceID = spec.ServiceID ∧
            p.CRDBHost = spec.DBHost ∧ p.CRDBPort = Itoa spec.DBPort ∧
            p.CRDBAdminUser = "") :=
  ⟨rfl, rfl, by decide, by decide, by decide, by decide,
    custom_plans_port_and_user envOk inputCustom "custom"
      [createCustomPlans.plan specFree, createCustomPlans.plan specPaid] rfl⟩

/-- C18: startup refuses an empty catalog.  `InitServicesAndPlans` is fatal, with
the world unchanged, when `SERVICES` is the empty string and when it decodes to
the empty list.  When the preconfigured plans (absent, or decoding to the empty
list) and the custom plans (absent, or decoding to the empty map) together are
empty, it is fatal as well: no file is created and no plan is registered (every
service of the final registry was there before or carries no plan), and if the
run got past the services the error is the no-plans one. -/
theorem init_refuses_empty_catalog (env : Env) (inp : Input) (w : World) :
    (inp.getenv "SERVICES" = "" →
        InitServicesAndPlans env inp w = .fatal "init" .servicesNotSpecified w) ∧
      (inp.getenv "SERVICES" ≠ "" → inp.unmarshalServices (inp.getenv "SERVICES") = .ok [] →
        InitServicesAndPlans env inp w = .fatal "init" .noServices w) ∧
      ((inp.getenv "PRECONFIGURED_PLANS" = "" ∨
            inp.unmarshalPlans (inp.getenv "PRECONFIGURED_PLANS") = .ok []) →
        (inp.getenv "CUSTOM_PLANS" = "" ∨
            inp.unmarshalCustomPlans (inp.getenv "CUSTOM_PLANS") = .ok []) →
        ∃ a e v, InitServicesAndPlans env inp w = .fatal a e v ∧ v.files = w.files ∧
          (∀ s ∈ v.Services, s ∈ w.Services ∨ s.Plans = []) ∧
          ∀ services v1, inp.getenv "SERVICES" ≠ "" →
            inp.unmarshalServices (inp.getenv "SERVICES") = .ok services → services ≠ [] →
            addServices w (services.map Service.decoded) = .ok v1 →
            a = "init" ∧ e = .noPlans ∧ v = v1) := by
  refine ⟨?_, ?_, ?_⟩
  · intro h0
    simp [InitServicesAndPlans, h0]
  · intro h0 hdec
    simp [InitServicesAndPlans, h0, hdec]
  · intro hpre hcustom
    have hplans : (if inp.getenv "PRECONFIGURED_PLANS" ≠ "" then
        inp.unmarshalPlans (inp.getenv "PRECONFIGURED_PLANS") else .ok []) = .ok [] := by
      rcases hpre with h | h
      · simp [h]
      · split
        · exact h
        · rfl
    have hcp : createCustomPlans inp (inp.getenv "CUSTOM_PLANS") = .ok [] := by
      rcases hcustom with h | h
      · simp [createCustomPlans, h]
      · by_cases h0 : inp.getenv "CUSTOM_PLANS" = ""
        · simp [createCustomPlans, h0]
        · simp [createCustomPlans, h0, h, createCustomPlans.build, sortStrings]
    by_cases h0 : inp.getenv "SERVICES" = ""
    · exact ⟨"init", .servicesNotSpecified, w, by simp [InitServicesAndPlans, h0], rfl,
        fun s hs => Or.inl hs, fun _ _ hne => absurd h0 hne⟩
    · cases hdec : inp.unmarshalServices (inp.getenv "SERVICES") with
      | error err =>
        refine ⟨"init-unmarshal-services", .external err, w,
          by simp [InitServicesAndPlans, h0, hdec], rfl, fun s hs => Or.inl hs, ?_⟩
        intro services v1 _ hd
        cases hd
      | ok services =>
        by_cases hlen : services = []
        · subst hlen
          refine ⟨"init", .noServices, w, by simp [InitServicesAndPlans, h0, hdec], rfl,
            fun s hs => Or.inl hs, ?_⟩
          intro services v1 _ hd hne
          simp only [Except.ok.injEq] at hd
          exact absurd hd.symm hne
        · have hlen2 : ¬ (services.map Service.decoded).length = 0 := by
            simpa using hlen
          obtain ⟨hfiles, hsvc⟩ := addServices_world (services.map Service.decoded) w
          have hnoplans : ∀ s ∈ (addServices w (services.map Service.decoded)).world.Services,
              s ∈ w.Services ∨ s.Plans = [] := by
            intro s hs
            rcases hsvc s hs with h | h
            · exact Or.inl h
            · obtain ⟨t, -, rfl⟩ := List.mem_map.mp h
              exact Or.inr rfl
          cases hadd : addServices w (services.map Service.decoded) with
          | fatal a e v =>
            rw [hadd] at hfiles hnoplans
            refine ⟨a, e, v, by simp [InitServicesAndPlans, h0, hdec, hlen, hadd], hfiles,
              hnoplans, ?_⟩
            intro services2 v1 _ hd _ hadd2
            simp only [Except.ok.injEq] at hd
            subst hd
            rw [hadd] at hadd2
            cases hadd2
          | ok v =>
            rw [hadd] at hfiles hnoplans
            refine ⟨"init", .noPlans, v, ?_, hfiles, hnoplans, ?_⟩
            · simp [InitServicesAndPlans, h0, hdec, hlen, hadd, hplans, hcp]
            · intro services2 v1 _ hd _ hadd2
              simp only [Except.ok.injEq] at hd
              subst hd
              rw [hadd] at hadd2
              simp only [Outcome.ok.injEq] at hadd2
              exact ⟨rfl, rfl, hadd2⟩

/-- C14: after a successful `InitServicesAndPlans` from the empty registry, with
`P` the decoded preconfigured plans and `C` the list returned by
`createCustomPlans`, the registry holds the decoded services in their order; for
every registered service `s` the names of `s.Plans` are the names of the plans of
`P ++ C` whose `ServiceID` is `s.ID`, in the order of `P ++ C` (preconfigured
first, custom second); and the registered plans number `len P + len C`. -/
theorem init_registration_order (env : Env) (inp : Input) (fs : List File) (v : World)
    (h : InitServicesAndPlans env inp ⟨[], fs⟩ = .ok v) :
    ∃ services rawPlans customPlans,
      inp.unmarshalServices (inp.getenv "SERVICES") = .ok services ∧
      (if inp.getenv "PRECONFIGURED_PLANS" ≠ "" then
        inp.unmarshalPlans (inp.getenv "PRECONFIGURED_PLANS") else .ok []) = .ok rawPlans ∧
      createCustomPlans inp (inp.getenv "CUSTOM_PLANS") = .ok customPlans ∧
      v.Services.map (fun s => s.ID) = services.map (fun s => s.ID) ∧
      (∀ s ∈ v.Services, s.Plans.map (fun q => q.Name) =
        ((rawPlans.map Plan.decoded ++ customPlans).filter
          (fun p => decide (p.ServiceID = s.ID))).map (fun q => q.Name)) ∧
      (v.Services.map (fun s => s.Plans.length)).sum = rawPlans.length + customPlans.length := by
  obtain ⟨services, rawPlans, customPlans, w1, -, hdec, -, hadd, hplans, hcp, -, hrun⟩ :=
    init_ok_inv h
  have hdecoded : ∀ s ∈ services.map Service.decoded, s.Plans = [] := by
    intro s hs
    obtain ⟨t, -, rfl⟩ := List.mem_map.mp hs
    rfl
  have hreach : Reachable env w1 := addServices_reachable (.empty fs) hdecoded hadd
  have hw1 := addServices_ok_inv hadd
  simp only [List.nil_append] at hw1
  obtain ⟨-, hnd, -, -⟩ := reachable_unique hreach
  obtain ⟨hsum, hrel⟩ := addPlans_names _ hrun hnd
  refine ⟨services, rawPlans, customPlans, hdec, hplans, hcp, ?_, ?_, ?_⟩
  · rw [forall2_map_eq (fun s : Service => s.ID) hrel (fun a b hab => hab.1), hw1]
    simp [List.map_map, Function.comp_def, Service.decoded]
  · intro t ht
    obtain ⟨s, hs, hid, hnames⟩ := forall2_mem_right hrel t ht
    rw [hnames, hid, hdecoded s (by rw [hw1] at hs; exact hs)]
    simp
  · rw [hsum]
    have hzero : (w1.Services.map (fun s => s.Plans.length)).sum = 0 := by
      rw [hw1]
      simp [List.map_map, Function.comp_def, Service.decoded]
    rw [hzero]
    simp

/-- Witness of C14: startup on `inputCustom`, whose two custom plans go to
`crdb` in key order. -/
theorem init_registration_order_witness :
    InitServicesAndPlans envOk inputCustom ⟨[], []⟩ = .ok worldCustom ∧
      worldCustom.Services.map (fun s => s.Plans.map (fun q => q.Name)) = [["free", "paid"]] ∧
      ∃ services rawPlans customPlans,
        inputCustom.unmarshalServices (inputCustom.getenv "SERVICES") = .ok services ∧
        (if inputCustom.getenv "PRECONFIGURED_PLANS" ≠ "" then
          inputCustom.unmarshalPlans (inputCustom.getenv "PRECONFIGURED_PLANS")
          else .ok []) = .ok rawPlans ∧
        createCustomPlans inputCustom (inputCustom.getenv "CUSTOM_PLANS") = .ok customPlans ∧
        worldCustom.Services.map (fun s => s.ID) = services.map (fun s => s.ID) ∧
        (∀ s ∈ worldCustom.Services, s.Plans.map (fun q => q.Name) =
          ((rawPlans.map Plan.decoded ++ customPlans).filter
            (fun p => decide (p.ServiceID = s.ID))).map (fun q => q.Name)) ∧
        (worldCustom.Services.map (fun s => s.Plans.length)).sum =
          rawPlans.length + customPlans.length :=
  ⟨by decide, by decide, init_registration_order envOk inputCustom [] worldCustom (by decide)⟩

/-- C13: after a successful startup from the empty registry over the files `fs`,
the files on disk are `fs` followed by the credential files created, all at paths
that were free; `CleanupPlans` leaves exactly `fs`, so none of the created files
exists any more, and it leaves the registry as it is.  Removing a path that does
not exist changes nothing (and is no error), and `CleanupPlans` is idempotent on
every world. -/
theorem cleanup_after_startup (env : Env) (inp : Input) (fs : List File) (v : World)
    (h : InitServicesAndPlans env inp ⟨[], fs⟩ = .ok v) :
    (∃ created, v.files = fs ++ created ∧
        (∀ f ∈ created, f.1 ∉ fs.map Prod.fst ∧
          f.1 ∉ (CleanupPlans v).files.map Prod.fst)) ∧
      (CleanupPlans v).files = fs ∧
      (CleanupPlans v).Services = v.Services ∧
      (∀ (fs2 : List File) (path : String), path ∉ fs2.map Prod.fst →
        osRemove fs2 path = fs2) ∧
      ∀ w : World, CleanupPlans (CleanupPlans w) = CleanupPlans w := by
  obtain ⟨services, rawPlans, customPlans, w1, -, -, -, hadd, -, hcp, -, hrun⟩ :=
    init_ok_inv h
  have hdecoded : ∀ s ∈ services.map Service.decoded, s.Plans = [] := by
    intro s hs
    obtain ⟨t, -, rfl⟩ := List.mem_map.mp hs
    rfl
  have hw1 := addServices_ok_inv hadd
  simp only [List.nil_append] at hw1
  have hplans : ∀ p ∈ rawPlans.map Plan.decoded ++ customPlans,
      p.sslCAFile = "" ∧ p.sslCertFile = "" ∧ p.sslKeyFile = "" := by
    intro p hp
    rcases List.mem_append.mp hp with hp | hp
    · obtain ⟨r, -, rfl⟩ := List.mem_map.mp hp
      exact ⟨rfl, rfl, rfl⟩
    · exact createCustomPlans_untracked hcp p hp
  have hstart : (∃ created, w1.files = fs ++ created ∧
        ∀ f ∈ created, f.1 ∈ trackedFiles w1.Services) ∧
      ∀ path ∈ trackedFiles w1.Services, path ∉ fs.map Prod.fst := by
    rw [hw1]
    simp only [trackedFiles_no_plans _ hdecoded]
    exact ⟨⟨[], by simp, by simp⟩, by simp⟩
  obtain ⟨⟨created, hfiles, hcreated⟩, htracked⟩ :=
    addPlans_keep_tracking _ fs hrun hplans hstart
  have hclean : (CleanupPlans v).files = fs := by
    rw [cleanupPlans_eq_filter, hfiles]
    simp only [List.filter_append]
    have h1 : fs.filter (fun f => decide (f.1 ∉ trackedFiles v.Services)) = fs := by
      rw [List.filter_eq_self]
      intro f hf
      simp only [decide_eq_true_eq]
      intro hmem
      exact htracked f.1 hmem (List.mem_map.mpr ⟨f, hf, rfl⟩)
    have h2 : created.filter (fun f => decide (f.1 ∉ trackedFiles v.Services)) = [] := by
      rw [List.filter_eq_nil_iff]
      intro f hf
      simp only [decide_eq_true_eq, not_not]
      exact hcreated f hf
    rw [h1, h2, List.append_nil]
  refine ⟨⟨created, hfiles, ?_⟩, hclean, ?_, ?_, cleanupPlans_idem⟩
  · intro f hf
    have hfree := htracked f.1 (hcreated f hf)
    exact ⟨hfree, by rw [hclean]; exact hfree⟩
  · rw [cleanupPlans_eq_filter]
  · intro fs2 path hpath
    unfold osRemove
    rw [List.filter_eq_self]
    intro f hf
    simp only [ne_eq, decide_eq_true_eq]
    intro heq
    exact hpath (List.mem_map.mpr ⟨f, hf, heq⟩)

/-- Witness of C13: startup on `inputSecure` writes five credential files next
to the one file already there; `CleanupPlans` leaves that one file. -/
theorem cleanup_after_startup_witness :
    InitServicesAndPlans envOk inputSecure ⟨[], [("/etc/hosts", "localhost")]⟩ =
        .ok worldSecure ∧
      worldSecure.files.length = 6 ∧
      ((∃ created, worldSecure.files = [("/etc/hosts", "localhost")] ++ created ∧
          (∀ f ∈ created, f.1 ∉ [(("/etc/hosts", "localhost") : File)].map Prod.fst ∧
            f.1 ∉ (CleanupPlans worldSecure).files.map Prod.fst)) ∧
        (CleanupPlans worldSecure).files = [("/etc/hosts", "localhost")] ∧
        (CleanupPlans worldSecure).Services = worldSecure.Services ∧
        (∀ (fs2 : List File) (path : String), path ∉ fs2.map Prod.fst →
          osRemove fs2 path = fs2) ∧
        ∀ w : World, CleanupPlans (CleanupPlans w) = CleanupPlans w) :=
  ⟨by decide, by decide,
    cleanup_after_startup envOk inputSecure [("/etc/hosts", "localhost")] worldSecure
      (by decide)⟩

end Broker
